import Mathlib

/-!
Shallow embedding of the AHP decision engine of this repository
(packages/lib/src/decision.ts, class Decision, with the data model of
packages/lib/src/types.ts).  JavaScript specifics are modelled as follows:

* optional / possibly-absent fields are Option values;
* JS string truthiness is truthyS (an absent or empty string is falsy);
* JS numbers are modelled as exact rationals (Rat); the floating-point
  rounding of the original is outside the model, so numerical facts are
  settled in exact arithmetic;
* methods that mutate `this` become functions returning the new decision
  value; methods that can throw return an Except (or Option) whose error
  value identifies the JS exception raised (TypeError vs ValidationError);
* the external eigen-solver (the matrix-eig package, not part of this
  repository) is an explicit function parameter eigFn.
-/

namespace Ahp

/-- Measurement from types.ts: a pairId plus an optional Saaty weight. -/
structure Measurement where
  pairId : String
  weight : Option Rat
deriving DecidableEq, Repr

/-- Comparison from types.ts.  criterionId is none for criterion
comparisons (the JS object carries no such property) and some for
alternative comparisons.  measurements is Option so that imported objects
lacking the array (which make several methods throw a TypeError) are
representable. -/
structure Cmp where
  criterionId : Option String
  measurements : Option (List Measurement)
  priority : Option Rat
deriving DecidableEq, Repr

/-- Criterion / Alternative from types.ts (both kinds share this shape). -/
structure Item where
  id : Option String
  name : Option String
  comparisons : Option (List Cmp)
  priority : Option Rat
deriving DecidableEq, Repr

/-- The summary attached by evaluate.  The breakdown table built by
formatAsTable is decimal string formatting for display and is not
modelled; no claim references it. -/
structure Summary where
  recommendedChoice : Option String
deriving DecidableEq, Repr

/-- The public data of class Decision. -/
structure Decision where
  id : Option String
  goal : Option String
  criteria : Option (List Item)
  alternatives : Option (List Item)
  summary : Option Summary := none
deriving DecidableEq, Repr

/-- Propositional equality on Except values is decidable (needed to
evaluate concrete outcomes of the fallible operations below). -/
instance {e a : Type _} [DecidableEq e] [DecidableEq a] : DecidableEq (Except e a) := fun x y =>
  match x, y with
  | .error v, .error w =>
    if h : v = w then isTrue (h ▸ rfl) else isFalse (fun he => h (Except.error.inj he))
  | .ok v, .ok w =>
    if h : v = w then isTrue (h ▸ rfl) else isFalse (fun he => h (Except.ok.inj he))
  | .error _, .ok _ => isFalse (fun h => Except.noConfusion h)
  | .ok _, .error _ => isFalse (fun h => Except.noConfusion h)

/-- JS truthiness of an optional string: absent and empty are falsy. -/
def truthyS : Option String → Bool
  | none => false
  | some s => !(s == "")

/-- The integer values of the Intensity enum (types.ts): the Saaty 1..9
scale.  The reverse enum lookup Intensity[w] is defined exactly on these. -/
def intensityVals : List Rat := [1, 2, 3, 4, 5, 6, 7, 8, 9]

/-- Update the first element satisfying p (the JS pattern of mutating the
object returned by Array.prototype.find in place). -/
def updFirst (p : α → Bool) (g : α → α) : List α → List α
  | [] => []
  | x :: xs => if p x then g x :: xs else x :: updFirst p g xs

/-- Array.prototype.map over a callback that can throw: the first throw
aborts the traversal (Option for calls whose exception is never
distinguished, Except below where it is). -/
def mapO (f : α → Option β) : List α → Option (List β)
  | [] => some []
  | x :: xs =>
    match f x, mapO f xs with
    | some y, some ys => some (y :: ys)
    | _, _ => none

/-- Array.prototype.map over an Except-returning callback; the first
error (in element order) aborts the traversal. -/
def mapE (f : α → Except e b) : List α → Except e (List b)
  | [] => .ok []
  | x :: xs =>
    match f x with
    | .error er => .error er
    | .ok y =>
      match mapE f xs with
      | .error er => .error er
      | .ok ys => .ok (y :: ys)

/-- The id-assignment loops of Decision.fill: every item with a falsy id
receives the next generated id; n counts ids generated so far. -/
def assignIds (uid : Nat → String) (n : Nat) : List Item → List Item × Nat
  | [] => ([], n)
  | it :: rest =>
    let step := if truthyS it.id then (it, n) else ({ it with id := some (uid n) }, n + 1)
    let next := assignIds uid step.2 rest
    (step.1 :: next.1, next.2)

/-- One measurement slot per given peer, keeping the first slot of ms
whose pairId equals the peer's id (weight preserved) and defaulting to a
fresh weightless slot: the (re)build step fill uses for measurement
lists. -/
def rebuildSlots (peers : List Item) (ms : List Measurement) : List Measurement :=
  peers.map (fun p =>
    (ms.find? (fun w => some w.pairId == p.id)).getD { pairId := p.id.getD "", weight := none })

/-- A fresh weightless slot per given peer. -/
def freshSlots (peers : List Item) : List Measurement :=
  peers.map (fun al => { pairId := al.id.getD "", weight := none })

/-- The per-criterion part of Decision.fill (decision.ts 221-235): default a
missing comparisons array to one comparison with empty measurements, then
rebuild comparisons[0].measurements to exactly one slot per other
criterion, keeping the first existing slot found for each peer.  none
models the TypeError the JS code raises when comparisons is present but
empty (comparisons[0] is undefined: the assignment's base object), and when
comparisons[0].measurements is missing while at least one other distinct-id
criterion exists (the map callback reads .find of undefined); with no such
peer the callback never runs, the mapped array is empty and the assignment
sets measurements to []. -/
def fillCriterion (cs : List Item) (c : Item) : Option Item :=
  match (match c.comparisons with
    | none => [({ criterionId := none, measurements := some [], priority := none } : Cmp)]
    | some l => l) with
  | [] => none
  | c0 :: restC =>
    match c0.measurements with
    | none =>
      if (cs.filter (fun cr => !(cr.id == c.id))).isEmpty then
        some { c with comparisons := some ({ c0 with measurements := some [] } :: restC) }
      else none
    | some ms =>
      let ms1 := rebuildSlots (cs.filter (fun cr => !(cr.id == c.id))) ms
      some { c with comparisons := some ({ c0 with measurements := some ms1 } :: restC) }

/-- The per-alternative part of Decision.fill (decision.ts 243-281): the
comparisons array is rebuilt as one comparison per criterion, reusing an
existing comparison with a matching criterionId when present; a reused or
fresh comparison whose measurement count differs from alternatives-1 gets
its measurement list rebuilt to one slot per other alternative, keeping
existing slots.  none models the TypeError raised when a reused
comparison has no measurements array (the .length access).  The loop body
is split off as fillAltBody, which reads the criterion only through its
id. -/
def fillAltBody (comps0 : List Cmp) (others : List Item) (altsLen : Nat)
    (criterionId : Option String) : Option Cmp :=
  let comparison := (comps0.find? (fun comp => comp.criterionId == criterionId)).getD
    { criterionId := criterionId
      measurements := some (freshSlots others)
      priority := none }
  match comparison.measurements with
  | none => none
  | some ms =>
    if (ms.length : Int) == (altsLen : Int) - 1 then
      some comparison
    else
      some { comparison with measurements := some (rebuildSlots others ms) }

def fillAlternative (cs : List Item) (alts : List Item) (a : Item) : Option Item :=
  let comps0 := a.comparisons.getD []
  let others := alts.filter (fun al => !(al.id == a.id))
  match mapO (fun criterion => fillAltBody comps0 others alts.length criterion.id) cs with
  | none => none
  | some newComps => some { a with comparisons := some newComps }

/-- Decision.fill (decision.ts 198-282).  uid is the injected id generator;
none models the TypeErrors of the malformed-comparison paths above. -/
def fill (uid : Nat → String) (n : Nat) (d : Decision) : Option (Decision × Nat) :=
  let id1 := if truthyS d.id then d.id else some (uid n)
  let n1 := if truthyS d.id then n else n + 1
  let goal1 := if truthyS d.goal then d.goal else some "unknown"
  let cs0 := d.criteria.getD []
  let as0 := d.alternatives.getD []
  let csStep := assignIds uid n1 cs0
  match mapO (fillCriterion csStep.1) csStep.1 with
  | none => none
  | some cs2 =>
    let asStep := assignIds uid csStep.2 as0
    match mapO (fillAlternative cs2 asStep.1) asStep.1 with
    | none => none
    | some as2 =>
      some ({ d with id := id1, goal := goal1, criteria := some cs2, alternatives := some as2 }, asStep.2)

/-- A name/id reference as accepted by compare (a Partial item). -/
structure ItemRef where
  id : Option String := none
  name : Option String := none
deriving DecidableEq, Repr

/-- Resolution of a reference against a list entry, as in compare:
(input.id && entry.id === input.id) || (input.name && entry.name === input.name). -/
def matchesRef (r : ItemRef) (it : Item) : Bool :=
  (truthyS r.id && it.id == r.id) || (truthyS r.name && it.name == r.name)

structure CompareArgs where
  item : ItemRef
  pair : ItemRef
  criterion : Option ItemRef := none
  weight : Rat
deriving DecidableEq, Repr

inductive CompareErr
  | fillFailed | criterionNotFound | itemPairNotFound | badWeight
  | missingComparison | missingMeasurement | typeError
deriving DecidableEq, Repr

/-- The comparison-selection predicate of compare: in alternative mode the
JS test is ('criterionId' in comp && comp.criterionId === criterion.id); in
criterion mode the code takes comparisons[0], i.e. the first element. -/
def cmpPred (crit : Option Item) (c : Cmp) : Bool :=
  match crit with
  | none => true
  | some cr => c.criterionId.isSome && c.criterionId == cr.id

/-- In-place weight write on the first slot whose pairId equals pid. -/
def setSlot (pid : Option String) (w : Option Rat) (ms : List Measurement) : List Measurement :=
  updFirst (fun m => some m.pairId == pid) (fun m => { m with weight := w }) ms

def setInCmps (crit : Option Item) (pid : Option String) (w : Option Rat) (comps : List Cmp) : List Cmp :=
  updFirst (cmpPred crit) (fun c => { c with measurements := some (setSlot pid w (c.measurements.getD [])) }) comps

/-- The list-level form of compare's in-place mutation
measurement.weight = w on the first item matching ref. -/
def writeList (crit : Option Item) (ref : ItemRef) (pid : Option String) (w : Option Rat)
    (list : List Item) : List Item :=
  updFirst (matchesRef ref)
    (fun it => { it with comparisons := some (setInCmps crit pid w (it.comparisons.getD [])) }) list

/-- The functional form of compare's in-place mutation measurement.weight = w:
write w into the slot for pid of the first item matching ref, in the
dimension selected by crit (criteria when none, alternatives otherwise). -/
def writeWeight (crit : Option Item) (ref : ItemRef) (pid : Option String) (w : Option Rat) (d : Decision) : Decision :=
  match crit with
  | some _ => { d with alternatives := some (writeList crit ref pid w (d.alternatives.getD [])) }
  | none => { d with criteria := some (writeList crit ref pid w (d.criteria.getD [])) }

/-- The three single-point updates compare performs, named for the proofs:
the slot update, the comparison update and the item update of the
writeList/writeWeight definitions above. -/
def wSlot (w : Option Rat) (m : Measurement) : Measurement := { m with weight := w }

def wCmp (pid : Option String) (w : Option Rat) (c : Cmp) : Cmp :=
  { c with measurements := some (setSlot pid w (c.measurements.getD [])) }

def wItem (crit : Option Item) (pid : Option String) (w : Option Rat) (it : Item) : Item :=
  { it with comparisons := some (setInCmps crit pid w (it.comparisons.getD [])) }

/-- Decision.compare (decision.ts 332-423).  Returns the call outcome and
the post-call state (the decision as the JS mutations left it). -/
def compare (uid : Nat → String) (n : Nat) (args : CompareArgs) (d : Decision) :
    Except CompareErr Unit × (Decision × Nat) :=
  match fill uid n d with
  | none => (.error .fillFailed, (d, n))
  | some (d0, n1) =>
    let cs := d0.criteria.getD []
    let alts := d0.alternatives.getD []
    let critRes : Except CompareErr (Option Item) :=
      match args.criterion with
      | none => .ok none
      | some cref =>
        match cs.find? (matchesRef cref) with
        | none => .error .criterionNotFound
        | some cr => .ok (some cr)
    match critRes with
    | .error e => (.error e, (d0, n1))
    | .ok crit =>
      let list := match crit with | some _ => alts | none => cs
      match list.find? (matchesRef args.item), list.find? (matchesRef args.pair) with
      | some item, some pair =>
        if !(!(args.weight == 0) && intensityVals.contains args.weight) then
          (.error .badWeight, (d0, n1))
        else
          match item.comparisons with
          | none => (.error .typeError, (d0, n1))
          | some comps =>
            match comps.find? (cmpPred crit) with
            | none => (.error .missingComparison, (d0, n1))
            | some cmp =>
              match cmp.measurements with
              | none => (.error .typeError, (d0, n1))
              | some ms =>
                match ms.find? (fun m => some m.pairId == pair.id) with
                | none => (.error .missingMeasurement, (d0, n1))
                | some _ =>
                  let d1 := writeWeight crit args.item pair.id (some args.weight) d0
                  if args.weight == 1 then (.ok (), (d1, n1))
                  else
                    let list1 := match crit with
                      | some _ => d1.alternatives.getD []
                      | none => d1.criteria.getD []
                    match list1.find? (matchesRef args.pair) with
                    | none => (.error .typeError, (d1, n1))
                    | some pair1 =>
                      match pair1.comparisons with
                      | none => (.error .typeError, (d1, n1))
                      | some pcomps =>
                        match pcomps.find? (cmpPred crit) with
                        | none => (.error .missingMeasurement, (d1, n1))
                        | some pcmp =>
                          match pcmp.measurements with
                          | none => (.error .typeError, (d1, n1))
                          | some pms =>
                            match pms.find? (fun m => some m.pairId == item.id) with
                            | none => (.error .missingMeasurement, (d1, n1))
                            | some _ =>
                              (.ok (), (writeWeight crit args.pair item.id (some 1) d1, n1))
      | _, _ => (.error .itemPairNotFound, (d0, n1))

/-- A sequence of compare calls, each continuing from the state the
previous call left (failed calls keep the state they errored in). -/
def runCompares (uid : Nat → String) : List CompareArgs → Nat → Decision → Decision × Nat
  | [], n, d => (d, n)
  | a :: rest, n, d =>
    let r := compare uid n a d
    runCompares uid rest r.2.2 r.2.1

inductive AddErr
  | typeError | nothingProvided | duplicateCriterion | duplicateAlternative | fillFailed
deriving DecidableEq, Repr

/-- add accepts a bare name or a partial record; a bare name becomes a
record with only the name set. -/
def normalizeAddInput : Option (String ⊕ Item) → Option Item
  | none => none
  | some (.inl s) => some { id := none, name := some s, comparisons := none, priority := none }
  | some (.inr it) => some it

/-- Decision.add (decision.ts 451-495).  Returns the outcome and the
post-call state: on a duplicate-alternative failure the criterion push has
already happened and fill has not run. -/
def add (uid : Nat → String) (n : Nat) (critIn altIn : Option (String ⊕ Item)) (d : Decision) :
    Except AddErr Unit × (Decision × Nat) :=
  let criterion := normalizeAddInput critIn
  let alternative := normalizeAddInput altIn
  let valid := (criterion.map (fun c => truthyS c.name)).getD false
            || (alternative.map (fun a => truthyS a.name)).getD false
  if !valid then (.error .nothingProvided, (d, n))
  else
    let step1 : Except AddErr Decision :=
      match criterion with
      | none => .ok d
      | some c =>
        match d.criteria with
        | none => .error .typeError
        | some cs =>
          if (cs.find? (fun cr => cr.name == c.name)).isSome then .error .duplicateCriterion
          else .ok { d with criteria := some (cs ++ [c]) }
    match step1 with
    | .error e => (.error e, (d, n))
    | .ok d1 =>
      let step2 : Except AddErr Decision :=
        match alternative with
        | none => .ok d1
        | some a =>
          match d1.alternatives with
          | none => .error .typeError
          | some as1 =>
            if (as1.find? (fun al => al.name == a.name)).isSome then .error .duplicateAlternative
            else .ok { d1 with alternatives := some (as1 ++ [a]) }
      match step2 with
      | .error e => (.error e, (d1, n))
      | .ok d2 =>
        match fill uid n d2 with
        | none => (.error .fillFailed, (d2, n))
        | some (d3, n2) => (.ok (), (d3, n2))

/-- The validation error kinds of errors.ts.  The JS messages carry the
offending entity's name; the model carries its position (and the pair's
position) in the owning list. -/
inductive VErr
  | missingDecisionId
  | missingDecisionGoal
  | insufficientCriteria
  | insufficientAlternatives
  | missingCriterionId (ci : Nat)
  | missingCriterionName (ci : Nat)
  | missingCriterionComparisons (ci : Nat)
  | missingCriterionMeasurement (ci : Nat) (pj : Nat)
  | missingAlternativeId (ai : Nat)
  | missingAlternativeName (ai : Nat)
  | missingAlternativeComparisons (ai : Nat)
  | missingAlternativeComparison (ai : Nat) (ci : Nat)
  | missingAlternativeMeasurement (ai : Nat) (ci : Nat) (pj : Nat)
deriving DecidableEq, Repr

/-- The name/goal length test of validate: (!x || x.length < MINIMUM_CHARS). -/
def strTooShort : Option String → Bool
  | none => true
  | some s => decide (s.length < 3)

/-- The scale test of validate on a stored weight: present and such that
the reverse enum lookup Intensity[w] is defined. -/
def validWeight : Option Rat → Bool
  | none => false
  | some w => intensityVals.contains w

/-- The per-criterion checks of validate (decision.ts 629-682). -/
def validateCriterion (cs : List Item) (ci : Nat) (c : Item) : List VErr :=
  (if !(truthyS c.id) then [VErr.missingCriterionId ci] else [])
  ++ (if strTooShort c.name then [VErr.missingCriterionName ci] else [])
  ++ (match c.comparisons with
      | none => [VErr.missingCriterionComparisons ci]
      | some comps =>
        if !(comps.length == 1) then [VErr.missingCriterionComparisons ci]
        else
          ((cs.enum.filter (fun p => !(p.2.id == c.id))).map (fun p =>
            let m := (comps.head?.bind (fun c0 => c0.measurements)).bind
              (fun ms => ms.find? (fun w => some w.pairId == p.2.id))
            if !(validWeight (m.bind (fun mm => mm.weight))) then
              [VErr.missingCriterionMeasurement ci p.1]
            else [])).flatten)

/-- The inner pair loop of validate's alternative section (decision.ts
731-750).  The measurements access is not optional-chained there, so a
comparison without a measurements array throws (modelled as .error) as
soon as one other alternative exists. -/
def validateAltPairs (ai ci : Nat) (comparison : Cmp) :
    List (Nat × Item) → Except Unit (List VErr)
  | [] => .ok []
  | p :: rest =>
    match comparison.measurements with
    | none => .error ()
    | some ms =>
      let m := ms.find? (fun w => some w.pairId == p.2.id)
      let e := if !(validWeight (m.bind (fun mm => mm.weight))) then
        [VErr.missingAlternativeMeasurement ai ci p.1] else []
      match validateAltPairs ai ci comparison rest with
      | .error u => .error u
      | .ok es => .ok (e ++ es)

/-- The per-criterion loop of validate's alternative section (decision.ts
717-752). -/
def validateAltCriteria (ai : Nat) (comps : List Cmp) (others : List (Nat × Item)) :
    List (Nat × Item) → Except Unit (List VErr)
  | [] => .ok []
  | q :: rest =>
    let head : Except Unit (List VErr) :=
      match comps.find? (fun comp => comp.criterionId == q.2.id) with
      | none => .ok [VErr.missingAlternativeComparison ai q.1]
      | some comparison => validateAltPairs ai q.1 comparison others
    match head with
    | .error u => .error u
    | .ok e =>
      match validateAltCriteria ai comps others rest with
      | .error u => .error u
      | .ok es => .ok (e ++ es)

/-- The per-alternative checks of validate (decision.ts 686-754). -/
def validateAlternative (csOpt : Option (List Item)) (alts : List Item) (ai : Nat) (a : Item) :
    Except Unit (List VErr) :=
  let e1 := (if !(truthyS a.id) then [VErr.missingAlternativeId ai] else [])
    ++ (if strTooShort a.name then [VErr.missingAlternativeName ai] else [])
  let expected := (csOpt.map List.length).getD 0
  match a.comparisons with
  | none => .ok (e1 ++ [VErr.missingAlternativeComparisons ai])
  | some comps =>
    if !(comps.length == expected) then .ok (e1 ++ [VErr.missingAlternativeComparisons ai])
    else
      match csOpt with
      | none => .ok e1
      | some cs =>
        match validateAltCriteria ai comps (alts.enum.filter (fun p => !(p.2.id == a.id))) cs.enum with
        | .error u => .error u
        | .ok es => .ok (e1 ++ es)

def validateAlternatives (csOpt : Option (List Item)) (alts : List Item) :
    List (Nat × Item) → Except Unit (List VErr)
  | [] => .ok []
  | p :: rest =>
    match validateAlternative csOpt alts p.1 p.2 with
    | .error u => .error u
    | .ok e =>
      match validateAlternatives csOpt alts rest with
      | .error u => .error u
      | .ok es => .ok (e ++ es)

/-- The decision-level and criteria-level error blocks of validate,
named for the report characterization (they are verbatim the e0 and e1 of
the validate body below). -/
def vE0 (d : Decision) : List VErr :=
  (if !(truthyS d.id) then [VErr.missingDecisionId] else [])
    ++ (if strTooShort d.goal then [VErr.missingDecisionGoal] else [])
    ++ (match d.criteria with
        | none => [VErr.insufficientCriteria]
        | some cs => if cs.length < 2 then [VErr.insufficientCriteria] else [])
    ++ (match d.alternatives with
        | none => [VErr.insufficientAlternatives]
        | some alts => if alts.length < 2 then [VErr.insufficientAlternatives] else [])

/-- Classification of validation error kinds by the object they concern:
0 decision-level, 1 criterion-level, 2 alternative-level. -/
def VErr.level : VErr → Nat
  | .missingDecisionId => 0
  | .missingDecisionGoal => 0
  | .insufficientCriteria => 0
  | .insufficientAlternatives => 0
  | .missingCriterionId _ => 1
  | .missingCriterionName _ => 1
  | .missingCriterionComparisons _ => 1
  | .missingCriterionMeasurement _ _ => 1
  | .missingAlternativeId _ => 2
  | .missingAlternativeName _ => 2
  | .missingAlternativeComparisons _ => 2
  | .missingAlternativeComparison _ _ => 2
  | .missingAlternativeMeasurement _ _ _ => 2

def vE1 (d : Decision) : List VErr :=
  match d.criteria with
  | none => []
  | some cs => (cs.enum.map (fun q => validateCriterion cs q.1 q.2)).flatten

structure VReport where
  errors : List VErr
  valid : Bool
deriving DecidableEq, Repr

/-- Decision.validate (decision.ts 582-761).  .error () models the
TypeError described at validateAltPairs; otherwise the report accumulates
every defect, and valid is errors.isEmpty (JS: !errors.length). -/
def validate (d : Decision) : Except Unit VReport :=
  let e0 := (if !(truthyS d.id) then [VErr.missingDecisionId] else [])
    ++ (if strTooShort d.goal then [VErr.missingDecisionGoal] else [])
    ++ (match d.criteria with
        | none => [VErr.insufficientCriteria]
        | some cs => if cs.length < 2 then [VErr.insufficientCriteria] else [])
    ++ (match d.alternatives with
        | none => [VErr.insufficientAlternatives]
        | some alts => if alts.length < 2 then [VErr.insufficientAlternatives] else [])
  let e1 := match d.criteria with
    | none => []
    | some cs => (cs.enum.map (fun q => validateCriterion cs q.1 q.2)).flatten
  let e2res : Except Unit (List VErr) := match d.alternatives with
    | none => .ok []
    | some alts => validateAlternatives d.criteria alts alts.enum
  match e2res with
  | .error u => .error u
  | .ok e2 =>
    let errors := e0 ++ e1 ++ e2
    .ok { errors := errors, valid := errors.isEmpty }

inductive MatrixErr
  | typeError
  | missingWeight
deriving DecidableEq, Repr

/-- The weight thing's own comparison stores against pair, as read by
getWeigthsMatrix: .error .typeError models the TypeError when comparisons
(or a found comparison's measurements) is missing; .ok none an absent
weight. -/
def storedWeight (thing pair : Item) (criterionId : Option String) : Except MatrixErr (Option Rat) :=
  match thing.comparisons with
  | none => .error .typeError
  | some comps =>
    match comps.find? (fun comp => comp.criterionId == criterionId) with
    | none => .ok none
    | some comp =>
      match comp.measurements with
      | none => .error .typeError
      | some ms => .ok ((ms.find? (fun m => some m.pairId == pair.id)).bind (fun m => m.weight))

/-- Decision.getWeigthsMatrix (decision.ts 932-967): entry 1 when the two
ids are ===-equal, otherwise the ratio of the two stored weights;
ValidationError (missingWeight) when either stored weight is absent. -/
def getWeigthsMatrix (data : List Item) (criterionId : Option String) :
    Except MatrixErr (List (List Rat)) :=
  mapE (fun thing => mapE (fun pair =>
    if thing.id == pair.id then .ok 1
    else
      match storedWeight thing pair criterionId, storedWeight pair thing criterionId with
      | .error e, _ => .error e
      | _, .error e => .error e
      | .ok (some tw), .ok (some pw) => .ok (tw / pw)
      | _, _ => .error .missingWeight) data) data

/-- Decision.getRightEigenvector (decision.ts 992-999); eigFn stands for
the external solver's eigenvectors.right buffer; slice(0, n) is take n and
the reduce-sum plus 1/sum scaling are exact here. -/
def getRightEigenvector (eigFn : List (List Rat) → List Rat) (matrix : List (List Rat)) : List Rat :=
  let vector := (eigFn matrix).take matrix.length
  let scale := 1 / vector.sum
  vector.map (fun p => p * scale)

inductive EvalErr
  | validationThrew
  | invalid (errors : List VErr)
  | matrixError (e : MatrixErr)
  | typeError
  | missingPriority
  | eigTooShort
deriving DecidableEq, Repr

/-- The inner alternative loop of evaluate (decision.ts 873-891): store the
local priority on the comparison for the current criterion, reset the
overall priority to 0 on the first criterion, then accumulate local
priority times criterion priority.  .eigTooShort marks an out-of-range
eigenvector read (JS would poison the accumulation with NaN); no claim
depends on that state. -/
def evalAlts (cid : Option String) (cp : Option Rat) (localvec : List Rat) (isFirst : Bool) :
    Nat → List Item → Except EvalErr (List Item)
  | _, [] => .ok []
  | j, a :: rest =>
    match a.comparisons with
    | none => .error .typeError
    | some comps =>
      match comps.find? (fun c => c.criterionId == cid) with
      | none => .error .typeError
      | some _ =>
        let lp := localvec.get? j
        let comps1 := updFirst (fun c => c.criterionId == cid) (fun c => { c with priority := lp }) comps
        let p0 := if isFirst then some (0 : Rat) else a.priority
        match p0 with
        | none => .error .missingPriority
        | some p =>
          match lp, cp with
          | some x, some y =>
            match evalAlts cid cp localvec isFirst (j + 1) rest with
            | .error e => .error e
            | .ok rest1 => .ok ({ a with comparisons := some comps1, priority := some (p + x * y) } :: rest1)
          | _, _ => .error .eigTooShort

/-- The criteria loop of evaluate (decision.ts 864-892). -/
def evalCriteria (eigFn : List (List Rat) → List Rat) (critvec : List Rat) :
    Nat → List Item → List Item → Except EvalErr (List Item × List Item)
  | _, [], alts => .ok ([], alts)
  | i, c :: rest, alts =>
    let cp := critvec.get? i
    let c1 := { c with priority := cp }
    match getWeigthsMatrix alts c.id with
    | .error e => .error (.matrixError e)
    | .ok m =>
      let localvec := getRightEigenvector eigFn m
      match evalAlts c.id cp localvec (i == 0) 0 alts with
      | .error e => .error e
      | .ok alts1 =>
        match evalCriteria eigFn critvec (i + 1) rest alts1 with
        | .error e => .error e
        | .ok (rest1, alts2) => .ok (c1 :: rest1, alts2)

/-- summary.recommendedChoice: name of the first element of the
alternatives sorted by descending priority (toSorted with comparator
b.priority - a.priority is stable, as is mergeSort). -/
def recommendedChoice (alts : List Item) : Except EvalErr (Option String) :=
  match (alts.mergeSort (fun a b => decide ((b.priority.getD 0) ≤ (a.priority.getD 0)))).head? with
  | none => .error .typeError
  | some a => .ok a.name

/-- Decision.evaluate (decision.ts 858-901).  The returned decision is the
post-call state; on the assertValid gate failure it is the unmodified
input (assertValid runs before any matrix is built). -/
def evaluate (eigFn : List (List Rat) → List Rat) (d : Decision) :
    Except EvalErr Unit × Decision :=
  match validate d with
  | .error _ => (.error .validationThrew, d)
  | .ok r =>
    if !r.valid then (.error (.invalid r.errors), d)
    else
      match getWeigthsMatrix (d.criteria.getD []) none with
      | .error e => (.error (.matrixError e), d)
      | .ok m =>
        let critvec := getRightEigenvector eigFn m
        match evalCriteria eigFn critvec 0 (d.criteria.getD []) (d.alternatives.getD []) with
        | .error e => (.error e, d)
        | .ok (cs1, alts1) =>
          match recommendedChoice alts1 with
          | .error e => (.error e, { d with criteria := some cs1, alternatives := some alts1 })
          | .ok nm =>
            (.ok (), { d with
                        criteria := some cs1
                        alternatives := some alts1
                        summary := some { recommendedChoice := nm } })

/-- The comparison selected by a read dimension: the first one in
criterion mode, the one keyed by the criterion id in alternative mode. -/
def keyMatch (key : Option String) (c : Cmp) : Bool :=
  match key with
  | none => true
  | some cid => c.criterionId == some cid

/-- Weight read-back on one item list. -/
def readList (list : List Item) (key : Option String) (aId bId : String) : Option Rat :=
  ((list.find? (fun it => it.id == some aId)).bind (fun it =>
    (it.comparisons.getD []).find? (keyMatch key))).bind
    (fun c => ((c.measurements.getD []).find? (fun m => m.pairId == bId)).bind (fun m => m.weight))

/-- Slot presence (regardless of a stored weight) on one item list. -/
def slotPresent (list : List Item) (key : Option String) (aId bId : String) : Bool :=
  (((list.find? (fun it => it.id == some aId)).bind (fun it =>
    (it.comparisons.getD []).find? (keyMatch key))).bind
    (fun c => (c.measurements.getD []).find? (fun m => m.pairId == bId))).isSome

/-- Weight read-back: the weight currently stored in the slot of the item
with id aId against pair id bId, in the dimension key (none = the criteria
comparison, some cid = the alternatives comparison for criterion cid). -/
def readW (d : Decision) (key : Option String) (aId bId : String) : Option Rat :=
  readList (match key with | none => d.criteria.getD [] | some _ => d.alternatives.getD []) key aId bId

/-- The slot a criterion stores against peer key j in its first
comparison (through the same comparisons defaulting fill applies), as
some (stored weight option); none when no such slot exists.  Used to
state fill's weight preservation. -/
def slotW (it : Item) (j : Option String) : Option (Option Rat) :=
  Option.map (fun s => s.weight)
    (Option.bind (List.head? (match it.comparisons with
      | none => [({ criterionId := none, measurements := some [], priority := none } : Cmp)]
      | some l => l)) (fun c0 =>
        (c0.measurements.getD []).find? (fun s => some s.pairId == j)))

/-- The slot an alternative stores against peer key j in its comparison
for the criterion key, as some (stored weight option); none when the
comparison or the slot is missing. -/
def slotWC (it : Item) (key : Option String) (j : Option String) : Option (Option Rat) :=
  (((it.comparisons.getD []).find? (fun comp => comp.criterionId == key)).bind (fun comp =>
    (comp.measurements.getD []).find? (fun s => some s.pairId == j))).map (fun s => s.weight)

/-- All ids present, truthy and pairwise distinct. -/
def idsOk (l : List Item) : Bool :=
  l.all (fun it => truthyS it.id) && decide (l.map (fun it => it.id)).Nodup

/-- The criterion comparison skeleton fill builds from scratch: exactly
one comparison, no criterionId, one slot per other criterion in order. -/
def critShape (cs : List Item) (c : Item) : Bool :=
  match c.comparisons with
  | some [c0] =>
    c0.criterionId == none &&
    (match c0.measurements with
     | none => false
     | some ms => ms.map (fun m => m.pairId) ==
         (cs.filter (fun cr => !(cr.id == c.id))).map (fun cr => cr.id.getD ""))
  | _ => false

/-- The alternative comparison skeleton fill builds from scratch: one
comparison per criterion in order, each with one slot per other
alternative in order. -/
def altShape (cs : List Item) (alts : List Item) (a : Item) : Bool :=
  match a.comparisons with
  | none => false
  | some comps =>
    comps.length == cs.length &&
    (comps.zip cs).all (fun pc =>
      pc.1.criterionId == pc.2.id &&
      (match pc.1.measurements with
       | none => false
       | some ms => ms.map (fun m => m.pairId) ==
           (alts.filter (fun al => !(al.id == a.id))).map (fun al => al.id.getD "")))

/-- A decision carrying the canonical freshly-filled structure: truthy
decision id and goal, both lists present, items with truthy pairwise
distinct ids, and exactly the comparison skeletons fill builds. -/
def goodStruct (d : Decision) : Bool :=
  truthyS d.id && truthyS d.goal && d.criteria.isSome && d.alternatives.isSome &&
  idsOk (d.criteria.getD []) && idsOk (d.alternatives.getD []) &&
  (d.criteria.getD []).all (critShape (d.criteria.getD [])) &&
  (d.alternatives.getD []).all (altShape (d.criteria.getD []) (d.alternatives.getD []))

/-- No measurement anywhere stores a weight yet. -/
def noWeights (d : Decision) : Bool :=
  ((d.criteria.getD []) ++ (d.alternatives.getD [])).all (fun it =>
    (it.comparisons.getD []).all (fun c => (c.measurements.getD []).all (fun m => m.weight == none)))

/-- Reciprocal invariant: in every dimension, for every ordered pair of
distinct ids whose two directions both store weights, at most one of the
two stored weights differs from Equal(1). -/
def ReciprocalOk (d : Decision) : Prop :=
  ∀ key : Option String, ∀ a b : String, a ≠ b →
    ∀ w, readW d key a b = some w → w ≠ 1 →
    ∀ v, readW d key b a = some v → v = 1

/-- The ids item and pair resolve to and the dimension key compare's
lookups select (used to state the protocol effect). -/
def resolveCompare (args : CompareArgs) (d : Decision) : Option (String × String × Option String) :=
  let cs := d.criteria.getD []
  let alts := d.alternatives.getD []
  match args.criterion with
  | some cref =>
    match cs.find? (matchesRef cref) with
    | none => none
    | some cr =>
      match alts.find? (matchesRef args.item), alts.find? (matchesRef args.pair), cr.id with
      | some item, some pair, some cid =>
        match item.id, pair.id with
        | some iid, some pid => some (iid, pid, some cid)
        | _, _ => none
      | _, _, _ => none
  | none =>
    match cs.find? (matchesRef args.item), cs.find? (matchesRef args.pair) with
    | some item, some pair =>
      match item.id, pair.id with
      | some iid, some pid => some (iid, pid, none)
      | _, _ => none
    | _, _ => none

/-! ### Concrete instances used by witnesses and counterexamples -/

/-- A deterministic id generator (the class allows injecting one). -/
def uid0 : Nat → String := fun k => "u" ++ toString k

/-- An item as the add operation creates it from data with ids present. -/
def mkItem (i nm : String) : Item :=
  { id := some i, name := some nm, comparisons := none, priority := none }

/-- A small decision before structure completion. -/
def dFresh : Decision :=
  { id := some "d0", goal := some "goal", summary := none,
    criteria := some [mkItem "c1" "Cost", mkItem "c2" "Fun"],
    alternatives := some [mkItem "a1" "Rome", mkItem "a2" "Oslo"] }

/-- Concrete compare calls used by witnesses: criteria c1 vs c2 at 3,
alternatives a1 vs a2 under c1 at 5, and a criteria self-compare. -/
def argsC12 : CompareArgs :=
  { item := { id := some "c1" }, pair := { id := some "c2" }, criterion := none, weight := 3 }

def argsA12 : CompareArgs :=
  { item := { id := some "a1" }, pair := { id := some "a2" },
    criterion := some { id := some "c1" }, weight := 5 }

def argsSelfC1 : CompareArgs :=
  { item := { id := some "c1" }, pair := { id := some "c1" }, criterion := none, weight := 3 }

def argsBad : CompareArgs :=
  { item := { id := some "c1" }, pair := { id := some "c2" }, criterion := none, weight := 10 }

/-- dFresh after structure completion. -/
def dFilled : Decision := ((fill uid0 0 dFresh).getD (dFresh, 0)).1

/-- Solver stand-in mapping every matrix to the all-ones vector (length =
matrix size, positive sum), an admissible eigenvector buffer shape. -/
def eigOnes : List (List Rat) → List Rat := fun m => List.replicate m.length 1

/-- The projection of a comparison getWeigthsMatrix reads (criterion key
and measurements); evaluate's priority writes leave it unchanged. -/
def cmpProj (c : Cmp) : Option String × Option (List Measurement) :=
  (c.criterionId, c.measurements)

/-- The projection of an item getWeigthsMatrix reads. -/
def itemProj (it : Item) :
    Option String × Option (List (Option String × Option (List Measurement))) :=
  (it.id, it.comparisons.map (fun l => l.map cmpProj))

/-- compare call: a1 vs a2 under criterion c2 at 7. -/
def argsA12c2 : CompareArgs :=
  { item := { id := some "a1" }, pair := { id := some "a2" },
    criterion := some { id := some "c2" }, weight := 7 }

/-- dFilled with all three pairwise judgements recorded: c1 vs c2 at 3,
a1 vs a2 under c1 at 5 and under c2 at 7. -/
def dCmp : Decision :=
  (compare uid0 0 argsA12c2
    ((compare uid0 0 argsA12 ((compare uid0 0 argsC12 dFilled).2.1)).2.1)).2.1

/-- The items dCmp's lists hold (dFilled after the three compares,
before evaluation). -/
def cF1 : Item :=
  { id := some "c1", name := some "Cost",
    comparisons := some [
      { criterionId := none,
        measurements := some [{ pairId := "c2", weight := some 3 }],
        priority := none }],
    priority := none }

def cF2 : Item :=
  { id := some "c2", name := some "Fun",
    comparisons := some [
      { criterionId := none,
        measurements := some [{ pairId := "c1", weight := some 1 }],
        priority := none }],
    priority := none }

def aF1 : Item :=
  { id := some "a1", name := some "Rome",
    comparisons := some [
      { criterionId := some "c1",
        measurements := some [{ pairId := "a2", weight := some 5 }],
        priority := none },
      { criterionId := some "c2",
        measurements := some [{ pairId := "a2", weight := some 7 }],
        priority := none }],
    priority := none }

def aF2 : Item :=
  { id := some "a2", name := some "Oslo",
    comparisons := some [
      { criterionId := some "c1",
        measurements := some [{ pairId := "a1", weight := some 1 }],
        priority := none },
      { criterionId := some "c2",
        measurements := some [{ pairId := "a1", weight := some 1 }],
        priority := none }],
    priority := none }

/-- The items and decision evaluate produces from dCmp with eigOnes
(priorities 1/2 everywhere, recommendation Rome). -/
def cEv1 : Item :=
  { id := some "c1", name := some "Cost",
    comparisons := some [
      { criterionId := none,
        measurements := some [{ pairId := "c2", weight := some 3 }],
        priority := none }],
    priority := some (1/2 : Rat) }

def cEv2 : Item :=
  { id := some "c2", name := some "Fun",
    comparisons := some [
      { criterionId := none,
        measurements := some [{ pairId := "c1", weight := some 1 }],
        priority := none }],
    priority := some (1/2 : Rat) }

def aEv1 : Item :=
  { id := some "a1", name := some "Rome",
    comparisons := some [
      { criterionId := some "c1",
        measurements := some [{ pairId := "a2", weight := some 5 }],
        priority := some (1/2 : Rat) },
      { criterionId := some "c2",
        measurements := some [{ pairId := "a2", weight := some 7 }],
        priority := some (1/2 : Rat) }],
    priority := some (1/2 : Rat) }

def aEv2 : Item :=
  { id := some "a2", name := some "Oslo",
    comparisons := some [
      { criterionId := some "c1",
        measurements := some [{ pairId := "a1", weight := some 1 }],
        priority := some (1/2 : Rat) },
      { criterionId := some "c2",
        measurements := some [{ pairId := "a1", weight := some 1 }],
        priority := some (1/2 : Rat) }],
    priority := some (1/2 : Rat) }

def dEvald : Decision :=
  { id := some "d0", goal := some "goal",
    summary := some { recommendedChoice := some "Rome" },
    criteria := some [cEv1, cEv2],
    alternatives := some [aEv1, aEv2] }

/-- Compact constructors for concrete instances. -/
def mSlot (p : String) (w : Option Rat) : Measurement :=
  { pairId := p, weight := w }

def cCmp (ms : List Measurement) : Cmp :=
  { criterionId := none, measurements := some ms, priority := none }

def aCmp (cid : String) (ms : List Measurement) : Cmp :=
  { criterionId := some cid, measurements := some ms, priority := none }

def aCmpNoMs (cid : String) : Cmp :=
  { criterionId := some cid, measurements := none, priority := none }

def itemC (i nm : String) (ms : List Measurement) : Item :=
  { id := some i, name := some nm, comparisons := some [cCmp ms], priority := none }

def itemA (i nm : String) (comps : List Cmp) : Item :=
  { id := some i, name := some nm, comparisons := some comps, priority := none }

def decOf (i g : String) (cs alts : List Item) : Decision :=
  { id := some i, goal := some g, criteria := some cs, alternatives := some alts, summary := none }

/-- An imported decision in which an alternative comparison holds a
dangling measurement slot (pairId "ghost", no such alternative) whose
count happens to equal alternatives-1, so fill keeps it verbatim. -/
def dGhost : Decision :=
  decOf "d" "ggg" [itemC "c1" "Crit" []]
    [itemA "xa" "AltX" [aCmp "c1" [mSlot "ghost" none]],
     itemA "ya" "AltY" [aCmp "c1" [mSlot "xa" none]]]

/-- An imported decision in which an alternative carries a measurement
slot whose pairId is its own id; the slot count equals alternatives-1, so
fill keeps it. -/
def dSelf : Decision :=
  decOf "d" "ggg" [itemC "c1" "Crit" []]
    [itemA "xa" "AltX" [aCmp "c1" [mSlot "xa" none]],
     itemA "ya" "AltY" [aCmp "c1" [mSlot "xa" none]]]

/-- The state the self-comparison call on dSelf leaves behind: the
self-referencing slot got written (weight 3, then the reciprocal branch
overwrote the same slot with 1). -/
def dSelfAfter : Decision :=
  decOf "d" "ggg" [itemC "c1" "Crit" []]
    [itemA "xa" "AltX" [aCmp "c1" [mSlot "xa" (some 1)]],
     itemA "ya" "AltY" [aCmp "c1" [mSlot "xa" none]]]

def selfArgs : CompareArgs :=
  { item := { id := some "xa" }, pair := { id := some "xa" },
    criterion := some { id := some "c1" }, weight := 3 }

/-- A decision whose first alternative's comparison survives the count
check but has no measurements array: validate's inner pair loop then
accesses .find on undefined and throws. -/
def dThrow : Decision :=
  decOf "d" "ggg" [itemC "c" "ccc" []]
    [itemA "a" "aaa" [aCmpNoMs "c"],
     itemA "b" "bbb" [aCmp "c" [mSlot "a" (some 3)]]]

/-- Two distinct items that share an id and store no weights at all. -/
def dupA : Item := itemC "x" "AAA" []

def dupB : Item := itemC "x" "BBB" []

/-- The comparisons-shape test of validate's criterion loop (decision.ts
647-651): comparisons missing, not an array, or of length other than 1. -/
def critCompsBad (c : Item) : Bool :=
  match c.comparisons with
  | none => true
  | some comps => !(comps.length == 1)

/-- The comparisons-shape test of validate's alternative loop (decision.ts
706-710): comparisons missing, not an array, or of length other than the
criteria count. -/
def altCompsBad (expected : Nat) (a : Item) : Bool :=
  match a.comparisons with
  | none => true
  | some comps => !(comps.length == expected)

/-- The optional-chained measurement lookup of validate's criterion loop
(decision.ts 661-665) followed by the weight access: the weight the
criterion stores against the given peer id, none when any link of the
chain is absent. -/
def critPairWeight (c : Item) (pid : Option String) : Option Rat :=
  (((c.comparisons.getD []).head?.bind (fun c0 => c0.measurements)).bind
    (fun ms => ms.find? (fun w => some w.pairId == pid))).bind (fun mm => mm.weight)

/-- The measurement lookup of validate's alternative pair loop
(decision.ts 732-733) followed by the weight access. -/
def altPairWeight (comparison : Cmp) (pid : Option String) : Option Rat :=
  ((comparison.measurements.getD []).find? (fun w => some w.pairId == pid)).bind
    (fun mm => mm.weight)

/-- compare call on dGhost: AltX vs AltY under criterion c1 at the
in-scale weight 5. -/
def ghostArgs : CompareArgs :=
  { item := { id := some "xa" }, pair := { id := some "ya" },
    criterion := some { id := some "c1" }, weight := 5 }

end Ahp

namespace Ahp

/-! ### Theorems -/

/-! #### Generic list lemmas -/

theorem find?_cons_eq {α : Type _} (p : α → Bool) (a : α) (l : List α) :
    (a :: l).find? p = cond (p a) (some a) (l.find? p) := by
  cases h : p a
  · simp [List.find?, h]
  · simp [List.find?, h]

theorem map_congr_mem {α β : Type _} {f g : α → β} :
    ∀ {l : List α}, (∀ a ∈ l, f a = g a) → l.map f = l.map g := by
  intro l
  induction l with
  | nil => intro _; rfl
  | cons x xs ih =>
    intro h
    simp only [List.map_cons]
    rw [h x (List.mem_cons_self x xs), ih (fun a ha => h a (List.mem_cons_of_mem x ha))]

/-- Finding by key in a list generated by a key-determined function hits
the generator's value for that key (duplicates included). -/
theorem find?_map_keyfun {α β K : Type _} [BEq K] [LawfulBEq K] (F0 : K → α) (keyOf : β → K)
    (pk : α → K) :
    ∀ (os : List β), (∀ o ∈ os, pk (F0 (keyOf o)) = keyOf o) →
    ∀ b ∈ os, (os.map (fun o => F0 (keyOf o))).find? (fun x => pk x == keyOf b) = some (F0 (keyOf b)) := by
  intro os
  induction os with
  | nil => intro _ b hb; cases hb
  | cons o rest ih =>
    intro hF b hb
    simp only [List.map_cons]
    rw [find?_cons_eq]
    by_cases h : (pk (F0 (keyOf o)) == keyOf b) = true
    · rw [h]
      have hok : keyOf o = keyOf b := by
        have := hF o (List.mem_cons_self o rest)
        rw [this] at h
        exact eq_of_beq h
      rw [hok]
      rfl
    · rw [Bool.of_not_eq_true h]
      simp only [cond_false]
      cases hb with
      | head =>
        exfalso
        apply h
        rw [hF o (List.mem_cons_self o rest)]
        exact beq_self_eq_true (keyOf o)
      | tail _ hb2 =>
        exact ih (fun x hx => hF x (List.mem_cons_of_mem o hx)) b hb2

/-- Rebuilding a key-generated list by key lookup reproduces it. -/
theorem keyfun_rebuild {α β K : Type _} [BEq K] [LawfulBEq K] (F0 : K → α) (keyOf : β → K)
    (pk : α → K) (D : β → α) (os : List β) (hF : ∀ o ∈ os, pk (F0 (keyOf o)) = keyOf o) :
    os.map (fun o => ((os.map (fun o2 => F0 (keyOf o2))).find? (fun x => pk x == keyOf o)).getD (D o))
      = os.map (fun o => F0 (keyOf o)) := by
  apply map_congr_mem
  intro o ho
  rw [find?_map_keyfun F0 keyOf pk os hF o ho]
  rfl

/-- With pairwise-distinct keys, finding by the key of the partner of a
zip-aligned list returns that partner. -/
theorem find?_of_zip_aligned {α β K : Type _} [BEq K] [LawfulBEq K] (pk : α → K) (keyOf : β → K) :
    ∀ (ms : List α) (os : List β), ms.map pk = os.map keyOf → (os.map keyOf).Nodup →
    ∀ p ∈ ms.zip os, ms.find? (fun x => pk x == keyOf p.2) = some p.1 := by
  intro ms
  induction ms with
  | nil => intro os _ _ p hp; cases hp
  | cons m ms' ih =>
    intro os hmap hnd p hp
    cases os with
    | nil => simp at hmap
    | cons o os' =>
      simp only [List.map_cons, List.cons.injEq] at hmap
      obtain ⟨hmo, hrest⟩ := hmap
      simp only [List.map_cons, List.nodup_cons] at hnd
      obtain ⟨hnotin, hnd'⟩ := hnd
      simp only [List.zip_cons_cons, List.mem_cons] at hp
      cases hp with
      | inl heq =>
        subst heq
        rw [find?_cons_eq]
        have : (pk m == keyOf o) = true := by rw [hmo]; exact beq_self_eq_true (keyOf o)
        rw [this]
        rfl
      | inr hmem =>
        have hne : keyOf o ≠ keyOf p.2 := by
          intro hco
          apply hnotin
          rw [hco]
          exact List.mem_map_of_mem keyOf (List.of_mem_zip hmem).2
        rw [find?_cons_eq]
        have : (pk m == keyOf p.2) = false := by simp [hmo, hne]
        rw [this]
        simp only [cond_false]
        exact ih os' hrest hnd' p hmem

/-- With pairwise-distinct keys, rebuilding a zip-aligned list by key
lookup reproduces it exactly. -/
theorem map_zip_rebuild {α β K : Type _} [BEq K] [LawfulBEq K] (pk : α → K) (keyOf : β → K)
    (D : β → α) :
    ∀ (ms : List α) (os : List β), ms.map pk = os.map keyOf → (os.map keyOf).Nodup →
    os.map (fun o => (ms.find? (fun x => pk x == keyOf o)).getD (D o)) = ms := by
  intro ms
  induction ms with
  | nil =>
    intro os hmap _
    cases os with
    | nil => rfl
    | cons o os' => simp at hmap
  | cons m ms' ih =>
    intro os hmap hnd
    cases os with
    | nil => simp at hmap
    | cons o os' =>
      simp only [List.map_cons, List.cons.injEq] at hmap
      obtain ⟨hmo, hrest⟩ := hmap
      simp only [List.map_cons, List.nodup_cons] at hnd
      obtain ⟨hnotin, hnd'⟩ := hnd
      simp only [List.map_cons]
      have hhead : (List.find? (fun x => pk x == keyOf o) (m :: ms')).getD (D o) = m := by
        rw [find?_cons_eq]
        have : (pk m == keyOf o) = true := by rw [hmo]; exact beq_self_eq_true (keyOf o)
        rw [this]
        rfl
      rw [hhead]
      have htail : ∀ o2 ∈ os',
          ((m :: ms').find? (fun x => pk x == keyOf o2)).getD (D o2)
            = (ms'.find? (fun x => pk x == keyOf o2)).getD (D o2) := by
        intro o2 ho2
        have hne : keyOf o ≠ keyOf o2 := by
          intro hco
          exact hnotin (hco ▸ List.mem_map_of_mem keyOf ho2)
        rw [find?_cons_eq]
        have : (pk m == keyOf o2) = false := by simp [hmo, hne]
        rw [this]
        simp only [cond_false]
      rw [map_congr_mem htail, ih os' hrest hnd']

/-- mapO succeeds exactly on pointwise successes. -/
theorem mapO_eq_some_iff {α β : Type _} {f : α → Option β} :
    ∀ {l : List α} {r : List β}, mapO f l = some r ↔ List.Forall₂ (fun a b => f a = some b) l r := by
  intro l
  induction l with
  | nil =>
    intro r
    constructor
    · intro h
      cases h
      exact List.Forall₂.nil
    · intro h
      cases h
      rfl
  | cons x xs ih =>
    intro r
    constructor
    · intro h
      unfold mapO at h
      cases hfx : f x with
      | none => rw [hfx] at h; simp at h
      | some y =>
        rw [hfx] at h
        cases hrest : mapO f xs with
        | none => rw [hrest] at h; simp at h
        | some ys =>
          rw [hrest] at h
          simp only [Option.some.injEq] at h
          subst h
          exact List.Forall₂.cons hfx (ih.mp hrest)
    · intro h
      cases h with
      | cons hxy hrest =>
        unfold mapO
        rw [hxy, ih.mpr hrest]

theorem mapO_some_length {α β : Type _} {f : α → Option β} {l : List α} {r : List β}
    (h : mapO f l = some r) : r.length = l.length :=
  (List.Forall₂.length_eq (mapO_eq_some_iff.mp h)).symm

/-- Build a mapO success from a zip-aligned pointwise description. -/
theorem mapO_eq_some_of_zip {α β : Type _} {f : α → Option β} :
    ∀ {l : List α} {r : List β}, r.length = l.length → (∀ p ∈ l.zip r, f p.1 = some p.2) →
    mapO f l = some r := by
  intro l
  induction l with
  | nil =>
    intro r hlen _
    cases r with
    | nil => rfl
    | cons y ys => simp at hlen
  | cons x xs ih =>
    intro r hlen hp
    cases r with
    | nil => simp at hlen
    | cons y ys =>
      unfold mapO
      rw [hp (x, y) (by simp [List.zip_cons_cons]),
        ih (by simpa using hlen) (fun q hq => hp q (by simp [List.zip_cons_cons, hq]))]

/-- Filtering out the element with a given id drops exactly one element
when ids are pairwise distinct. -/
theorem filter_ne_id_length :
    ∀ (alts : List Item) (a : Item), (alts.map (fun it => it.id)).Nodup → a ∈ alts →
    (alts.filter (fun al => !(al.id == a.id))).length + 1 = alts.length := by
  intro alts
  induction alts with
  | nil => intro a _ ha; cases ha
  | cons x rest ih =>
    intro a hnd ha
    simp only [List.map_cons, List.nodup_cons] at hnd
    obtain ⟨hnotin, hnd'⟩ := hnd
    cases ha with
    | head =>
      have hx : (!(x.id == x.id)) = false := by simp
      rw [List.filter_cons_of_neg (by simp [hx])]
      have hkeep : rest.filter (fun al => !(al.id == x.id)) = rest := by
        apply List.filter_eq_self.mpr
        intro al hal
        have : al.id ≠ x.id := by
          intro he
          exact hnotin (he ▸ List.mem_map_of_mem (fun it => it.id) hal)
        simp [this]
      rw [hkeep]
      simp
    | tail _ hmem =>
      have hxa : x.id ≠ a.id := by
        intro he
        exact hnotin (he ▸ List.mem_map_of_mem (fun it => it.id) hmem)
      rw [List.filter_cons_of_pos (by simp [hxa])]
      simp only [List.length_cons]
      rw [← ih a hnd' hmem]

/-- assignIds leaves a list of items with truthy ids unchanged. -/
theorem assignIds_of_truthy {uid : Nat → String} :
    ∀ {l : List Item} {n : Nat}, (∀ it ∈ l, truthyS it.id = true) → assignIds uid n l = (l, n) := by
  intro l
  induction l with
  | nil => intro n _; rfl
  | cons x xs ih =>
    intro n h
    unfold assignIds
    rw [if_pos (h x (List.mem_cons_self x xs))]
    simp only
    rw [ih (fun it hit => h it (List.mem_cons_of_mem x hit))]

/-- With a generator that never returns the empty string, every item
assignIds produces has a truthy id. -/
theorem assignIds_truthy_out {uid : Nat → String} (huid : ∀ k, uid k ≠ "") :
    ∀ (l : List Item) (n : Nat), ∀ it ∈ (assignIds uid n l).1, truthyS it.id = true := by
  intro l
  induction l with
  | nil => intro n it hit; cases hit
  | cons x xs ih =>
    intro n it hit
    unfold assignIds at hit
    by_cases hx : truthyS x.id = true
    · rw [if_pos hx] at hit
      simp only [List.mem_cons] at hit
      cases hit with
      | inl he => rw [he]; exact hx
      | inr hm => exact ih n it hm
    · rw [if_neg hx] at hit
      simp only [List.mem_cons] at hit
      cases hit with
      | inl he =>
        rw [he]
        simp only [truthyS]
        simpa using huid n
      | inr hm => exact ih (n + 1) it hm

/-- Record eta helpers: overwriting a field with its own value. -/
theorem Cmp_set_measurements (c : Cmp) {v : Option (List Measurement)} (h : c.measurements = v) :
    ({ c with measurements := v } : Cmp) = c := by
  cases c
  cases h
  rfl

theorem Item_set_comparisons (a : Item) {v : Option (List Cmp)} (h : a.comparisons = v) :
    ({ a with comparisons := v } : Item) = a := by
  cases a
  cases h
  rfl

theorem Decision_eta (d : Decision) {i g : Option String} {cv av : Option (List Item)}
    (hi : d.id = i) (hg : d.goal = g) (hc : d.criteria = cv) (ha : d.alternatives = av) :
    ({ d with id := i, goal := g, criteria := cv, alternatives := av } : Decision) = d := by
  cases d
  cases hi
  cases hg
  cases hc
  cases ha
  rfl

/-! #### Option and Forall2 helpers -/

theorem truthyS_isSome {o : Option String} (h : truthyS o = true) : o.isSome = true := by
  cases o with
  | none => simp [truthyS] at h
  | some s => rfl

theorem some_getD_of_isSome {o : Option String} (h : o.isSome = true) : some (o.getD "") = o := by
  cases o with
  | none => simp at h
  | some s => rfl

theorem filter_key_map {α K β : Type _} (key : α → K) (p : K → Bool) (f : K → β) :
    ∀ l : List α,
      (l.filter (fun x => p (key x))).map (fun x => f (key x)) = ((l.map key).filter p).map f := by
  intro l
  induction l with
  | nil => rfl
  | cons x xs ih =>
    simp only [List.filter_cons, List.map_cons]
    cases h : p (key x) with
    | true => simp only [if_true, List.map_cons, ih]
    | false => simp only [Bool.false_eq_true, if_false, ih]

theorem zip_self_eq {α : Type _} : ∀ {l : List α} {p : α × α}, p ∈ l.zip l → p.1 = p.2 := by
  intro l
  induction l with
  | nil => intro p hp; cases hp
  | cons x xs ih =>
    intro p hp
    simp only [List.zip_cons_cons, List.mem_cons] at hp
    cases hp with
    | inl h => rw [h]
    | inr h => exact ih h

theorem forall2_mem_left {α β : Type _} {R : α → β → Prop} :
    ∀ {l : List α} {r : List β}, List.Forall₂ R l r → ∀ a ∈ l, ∃ b ∈ r, R a b := by
  intro l r h
  induction h with
  | nil => intro a ha; cases ha
  | cons hab _ ih =>
    intro a ha
    cases ha with
    | head => exact ⟨_, List.mem_cons_self _ _, hab⟩
    | tail _ hm =>
      obtain ⟨b, hb, hr⟩ := ih a hm
      exact ⟨b, List.mem_cons_of_mem _ hb, hr⟩

theorem forall2_mem_right {α β : Type _} {R : α → β → Prop} :
    ∀ {l : List α} {r : List β}, List.Forall₂ R l r → ∀ b ∈ r, ∃ a ∈ l, R a b := by
  intro l r h
  induction h with
  | nil => intro b hb; cases hb
  | cons hab _ ih =>
    intro b hb
    cases hb with
    | head => exact ⟨_, List.mem_cons_self _ _, hab⟩
    | tail _ hm =>
      obtain ⟨a, ha, hr⟩ := ih b hm
      exact ⟨a, List.mem_cons_of_mem _ ha, hr⟩

theorem forall2_map_eq {α β K : Type _} {R : α → β → Prop} {key1 : α → K} {key2 : β → K}
    (hk : ∀ a b, R a b → key2 b = key1 a) :
    ∀ {l : List α} {r : List β}, List.Forall₂ R l r → r.map key2 = l.map key1 := by
  intro l r h
  induction h with
  | nil => rfl
  | cons hab _ ih =>
    simp only [List.map_cons]
    rw [hk _ _ hab, ih]

theorem forall2_eq_map_getD {α β : Type _} {f : α → Option β} (junk : β) :
    ∀ {l : List α} {r : List β}, List.Forall₂ (fun a b => f a = some b) l r →
      r = l.map (fun a => (f a).getD junk) := by
  intro l r h
  induction h with
  | nil => rfl
  | cons hab _ ih =>
    simp only [List.map_cons, hab, Option.getD_some]
    rw [ih]

theorem forall2_of_key {α β K : Type _} {Q : K → β → Prop} {key : α → K} :
    ∀ {l l' : List α} {r : List β}, l.map key = l'.map key →
      List.Forall₂ (fun a b => Q (key a) b) l r → List.Forall₂ (fun a b => Q (key a) b) l' r := by
  intro l
  induction l with
  | nil =>
    intro l' r hmap h
    cases h
    cases l' with
    | nil => exact List.Forall₂.nil
    | cons y ys => simp at hmap
  | cons x xs ih =>
    intro l' r hmap h
    cases h with
    | cons hab hrest =>
      cases l' with
      | nil => simp at hmap
      | cons y ys =>
        simp only [List.map_cons, List.cons.injEq] at hmap
        exact List.Forall₂.cons (hmap.1 ▸ hab) (ih hmap.2 hrest)

theorem map_key_comp {α K β : Type _} (key : α → K) (f : K → β) (l : List α) :
    l.map (fun x => f (key x)) = (l.map key).map f := by
  rw [List.map_map]
  rfl

/-! #### rebuildSlots facts -/

theorem rebuildSlots_eq_keys (peers : List Item) (ms : List Measurement) :
    rebuildSlots peers ms = (peers.map (fun p => p.id)).map (fun j =>
      (ms.find? (fun w => some w.pairId == j)).getD { pairId := j.getD "", weight := none }) := by
  unfold rebuildSlots
  rw [List.map_map]
  rfl

theorem rebuildSlots_key_eq {ms : List Measurement} {j : Option String} (h : j.isSome = true) :
    some ((ms.find? (fun w => some w.pairId == j)).getD { pairId := j.getD "", weight := none }).pairId = j := by
  cases hf : ms.find? (fun w => some w.pairId == j) with
  | none =>
    simp only [Option.getD_none]
    exact some_getD_of_isSome h
  | some w =>
    simp only [Option.getD_some]
    have hp := List.find?_some hf
    exact eq_of_beq hp

/-- Rebuilding a rebuilt slot list once more (over peers with the same
ids) changes nothing, duplicates included. -/
theorem rebuildSlots_stable {peers peersB : List Item} {ms : List Measurement}
    (hkeys : peers.map (fun x => x.id) = peersB.map (fun x => x.id))
    (hsome : ∀ x ∈ peers, x.id.isSome = true) :
    rebuildSlots peersB (rebuildSlots peers ms) = rebuildSlots peers ms := by
  rw [rebuildSlots_eq_keys peersB, rebuildSlots_eq_keys peers, ← hkeys]
  have hks : ∀ j ∈ peers.map (fun x => x.id), j.isSome = true := by
    intro j hj
    obtain ⟨y, hy, hxy⟩ := List.mem_map.mp hj
    rw [← hxy]
    exact hsome y hy
  have := keyfun_rebuild
    (fun j => (ms.find? (fun w => some w.pairId == j)).getD { pairId := j.getD "", weight := none })
    (fun j => j) (fun m => some m.pairId)
    (fun j => { pairId := j.getD "", weight := none })
    (peers.map (fun x => x.id))
    (fun j hj => rebuildSlots_key_eq (hks j hj))
  exact this

/-- With pairwise-distinct present ids, rebuilding an exactly-aligned slot
list reproduces it (weights untouched). -/
theorem rebuildSlots_aligned {peers : List Item} {ms : List Measurement}
    (hmap : ms.map (fun m => some m.pairId) = peers.map (fun p => p.id))
    (hnd : (peers.map (fun p => p.id)).Nodup) :
    rebuildSlots peers ms = ms := by
  have := map_zip_rebuild (fun m : Measurement => some m.pairId) (fun p : Item => p.id)
    (fun p : Item => { pairId := p.id.getD "", weight := none }) ms peers hmap hnd
  unfold rebuildSlots
  exact this

theorem freshSlots_length (peers : List Item) : (freshSlots peers).length = peers.length := by
  unfold freshSlots
  rw [List.length_map]

theorem rebuildSlots_length (peers : List Item) (ms : List Measurement) :
    (rebuildSlots peers ms).length = peers.length := by
  unfold rebuildSlots
  rw [List.length_map]

/-- ids with the same map have the same isSome facts. -/
theorem isSome_of_keys_eq {l l' : List Item} (hkeys : l.map (fun x => x.id) = l'.map (fun x => x.id))
    (h : ∀ x ∈ l, x.id.isSome = true) : ∀ x ∈ l', x.id.isSome = true := by
  intro x hx
  have hmem : x.id ∈ l'.map (fun y => y.id) := List.mem_map_of_mem _ hx
  rw [← hkeys] at hmem
  obtain ⟨y, hy, hxy⟩ := List.mem_map.mp hmem
  rw [← hxy]
  exact h y hy

/-- The ids of a filtered-by-id list only depend on the id map. -/
theorem filter_id_keys_eq {l l' : List Item} (j0 : Option String)
    (hkeys : l.map (fun x => x.id) = l'.map (fun x => x.id)) :
    (l.filter (fun cr => !(cr.id == j0))).map (fun x => x.id)
      = (l'.filter (fun cr => !(cr.id == j0))).map (fun x => x.id) := by
  have h1 := filter_key_map (fun x : Item => x.id) (fun j => !(j == j0)) (fun j => j) l
  have h2 := filter_key_map (fun x : Item => x.id) (fun j => !(j == j0)) (fun j => j) l'
  simp only at h1 h2
  rw [h1, h2, hkeys]

/-! #### fill building blocks: output shapes and idempotence -/

theorem fillCriterion_shape {cs : List Item} {c c' : Item}
    (h : fillCriterion cs c = some c') :
    ∃ c0 restC ms,
      (match c.comparisons with
        | none => [({ criterionId := none, measurements := some [], priority := none } : Cmp)]
        | some l => l) = c0 :: restC ∧
      (c0.measurements = some ms ∨
        (c0.measurements = none ∧ ms = [] ∧ cs.filter (fun cr => !(cr.id == c.id)) = [])) ∧
      c' = { c with comparisons := some ({ c0 with measurements := some (rebuildSlots (cs.filter (fun cr => !(cr.id == c.id))) ms) } :: restC) } := by
  unfold fillCriterion at h
  split at h
  · exact absurd h (by simp)
  next c0 restC heq =>
    split at h
    next hms =>
      by_cases hemp : (cs.filter (fun cr => !(cr.id == c.id))).isEmpty = true
      · rw [if_pos hemp] at h
        simp only [Option.some.injEq] at h
        have hnil : cs.filter (fun cr => !(cr.id == c.id)) = [] :=
          List.isEmpty_iff.mp hemp
        refine ⟨c0, restC, [], heq, .inr ⟨hms, rfl, hnil⟩, ?_⟩
        rw [hnil]
        exact h.symm
      · rw [if_neg hemp] at h
        exact absurd h (by simp)
    next ms hms =>
      simp only [Option.some.injEq] at h
      exact ⟨c0, restC, ms, heq, .inl hms, h.symm⟩

theorem fillCriterion_id {cs : List Item} {c c' : Item} (h : fillCriterion cs c = some c') :
    c'.id = c.id := by
  obtain ⟨c0, restC, ms, _, _, hc'⟩ := fillCriterion_shape h
  rw [hc']

/-- Running fillCriterion again on its own output (in any context with the
same criterion ids) changes nothing. -/
theorem fillCriterion_idem {cs csB : List Item} {c c' : Item}
    (hids : ∀ x ∈ cs, x.id.isSome = true)
    (hkeys : cs.map (fun x => x.id) = csB.map (fun x => x.id))
    (h : fillCriterion cs c = some c') :
    fillCriterion csB c' = some c' := by
  obtain ⟨c0, restC, ms, hcomp, hms, hc'⟩ := fillCriterion_shape h
  subst hc'
  simp only [fillCriterion]
  have hfsome : ∀ x ∈ cs.filter (fun cr => !(cr.id == c.id)), x.id.isSome = true :=
    fun x hx => hids x (List.mem_of_mem_filter hx)
  have hfkeys := filter_id_keys_eq c.id hkeys
  rw [rebuildSlots_stable hfkeys hfsome]

theorem fillAltBody_found_criterionId {comps0 : List Cmp} {others : List Item}
    {j : Option String} :
    ((comps0.find? (fun comp => comp.criterionId == j)).getD { criterionId := j, measurements := some (freshSlots others), priority := none }).criterionId = j := by
  cases hf : comps0.find? (fun comp => comp.criterionId == j) with
  | none => rfl
  | some fc =>
    simp only [Option.getD_some]
    have hp := List.find?_some hf
    exact eq_of_beq hp

/-- A fresh slot list is the rebuild of the empty slot list. -/
theorem freshSlots_eq_rebuild (others : List Item) :
    freshSlots others = rebuildSlots others [] := rfl

theorem fillAltBody_shape {comps0 : List Cmp} {others : List Item} {altsLen : Nat}
    {j : Option String} {out : Cmp} (h : fillAltBody comps0 others altsLen j = some out) :
    out.criterionId = j ∧
    ((∃ msOut, out.measurements = some msOut ∧
        ((msOut.length : Int) == (altsLen : Int) - 1) = true ∧ out ∈ comps0) ∨
     (∃ ms0, out.measurements = some (rebuildSlots others ms0))) := by
  simp only [fillAltBody] at h
  split at h
  · exact absurd h (by simp)
  next ms hms =>
    split at h
    next hchk =>
      simp only [Option.some.injEq] at h
      subst h
      refine ⟨fillAltBody_found_criterionId, ?_⟩
      cases hfc : comps0.find? (fun comp => comp.criterionId == j) with
      | none =>
        exact .inr ⟨[], rfl⟩
      | some c0 =>
        rw [hfc] at hms
        exact .inl ⟨ms, hms, hchk, List.mem_of_find?_eq_some hfc⟩
    next hchk =>
      simp only [Option.some.injEq] at h
      subst h
      exact ⟨fillAltBody_found_criterionId, .inr ⟨ms, rfl⟩⟩

/-- Running fillAltBody again, with the previous output list as the
comparison pool and peers with the same ids, reproduces the previous
output. -/
theorem fillAltBody_second {comps0 newComps : List Cmp} {others othersB : List Item}
    {altsLen : Nat} {j : Option String} {out : Cmp}
    (hkeys : others.map (fun x => x.id) = othersB.map (fun x => x.id))
    (hsome : ∀ x ∈ others, x.id.isSome = true)
    (h1 : fillAltBody comps0 others altsLen j = some out)
    (hfound : newComps.find? (fun c2 => c2.criterionId == j) = some out) :
    fillAltBody newComps othersB altsLen j = some out := by
  obtain ⟨hcid, hcase⟩ := fillAltBody_shape h1
  simp only [fillAltBody, hfound, Option.getD_some]
  cases hcase with
  | inl hkept =>
    obtain ⟨msOut, hmso, hchk, -⟩ := hkept
    rw [hmso]
    simp only [hchk, if_true]
  | inr hreb =>
    obtain ⟨ms0, hmso⟩ := hreb
    rw [hmso]
    by_cases hchk : (((rebuildSlots others ms0).length : Int) == (altsLen : Int) - 1) = true
    · simp only [hchk, if_true]
    · simp only [Bool.of_not_eq_true hchk, Bool.false_eq_true, if_false, Option.some.injEq]
      rw [rebuildSlots_stable hkeys hsome]
      exact Cmp_set_measurements out hmso

theorem fillAlternative_shape {cs alts : List Item} {a a' : Item}
    (h : fillAlternative cs alts a = some a') :
    ∃ newComps,
      mapO (fun criterion => fillAltBody (a.comparisons.getD []) (alts.filter (fun al => !(al.id == a.id))) alts.length criterion.id) cs = some newComps ∧
      a' = { a with comparisons := some newComps } := by
  simp only [fillAlternative] at h
  split at h
  · exact absurd h (by simp)
  next newComps heq =>
    simp only [Option.some.injEq] at h
    exact ⟨newComps, heq, h.symm⟩

theorem fillAlternative_id {cs alts : List Item} {a a' : Item}
    (h : fillAlternative cs alts a = some a') : a'.id = a.id := by
  obtain ⟨nc, _, ha'⟩ := fillAlternative_shape h
  rw [ha']

/-- Running fillAlternative again on its own output, with criteria and
alternatives carrying the same ids, changes nothing. -/
theorem fillAlternative_idem {cs csB alts altsB : List Item} {a a' : Item}
    (hcskeys : cs.map (fun x => x.id) = csB.map (fun x => x.id))
    (haltskeys : alts.map (fun x => x.id) = altsB.map (fun x => x.id))
    (haltsome : ∀ x ∈ alts, x.id.isSome = true)
    (h : fillAlternative cs alts a = some a') :
    fillAlternative csB altsB a' = some a' := by
  obtain ⟨newComps, hmap, ha'⟩ := fillAlternative_shape h
  have haltlen : altsB.length = alts.length := by
    have hh := congrArg List.length haltskeys
    simpa using hh.symm
  have hothkeys : (alts.filter (fun al => !(al.id == a.id))).map (fun x => x.id)
      = (altsB.filter (fun al => !(al.id == a.id))).map (fun x => x.id) :=
    filter_id_keys_eq a.id haltskeys
  have hothsome : ∀ x ∈ alts.filter (fun al => !(al.id == a.id)), x.id.isSome = true :=
    fun x hx => haltsome x (List.mem_of_mem_filter hx)
  have hF2 := mapO_eq_some_iff.mp hmap
  have hgen : newComps = cs.map (fun c =>
      (fillAltBody (a.comparisons.getD []) (alts.filter (fun al => !(al.id == a.id))) alts.length c.id).getD { criterionId := none, measurements := none, priority := none }) :=
    forall2_eq_map_getD _ hF2
  have hkeyprop : ∀ o ∈ cs,
      ((fillAltBody (a.comparisons.getD []) (alts.filter (fun al => !(al.id == a.id))) alts.length o.id).getD { criterionId := none, measurements := none, priority := none }).criterionId = o.id := by
    intro o ho
    obtain ⟨b, hb, hob⟩ := forall2_mem_left hF2 o ho
    rw [hob]
    simp only [Option.getD_some]
    exact (fillAltBody_shape hob).1
  have hkeypropB : ∀ o ∈ csB,
      ((fillAltBody (a.comparisons.getD []) (alts.filter (fun al => !(al.id == a.id))) alts.length o.id).getD { criterionId := none, measurements := none, priority := none }).criterionId = o.id := by
    intro o ho
    have hmem : o.id ∈ csB.map (fun x => x.id) := List.mem_map_of_mem _ ho
    rw [← hcskeys] at hmem
    obtain ⟨oc, hoc, he⟩ := List.mem_map.mp hmem
    rw [← he]
    exact hkeyprop oc hoc
  have hgenB : newComps = csB.map (fun c =>
      (fillAltBody (a.comparisons.getD []) (alts.filter (fun al => !(al.id == a.id))) alts.length c.id).getD { criterionId := none, measurements := none, priority := none }) := by
    rw [hgen]
    rw [map_key_comp (fun x : Item => x.id)
      (fun j => (fillAltBody (a.comparisons.getD []) (alts.filter (fun al => !(al.id == a.id))) alts.length j).getD { criterionId := none, measurements := none, priority := none }) cs]
    rw [map_key_comp (fun x : Item => x.id)
      (fun j => (fillAltBody (a.comparisons.getD []) (alts.filter (fun al => !(al.id == a.id))) alts.length j).getD { criterionId := none, measurements := none, priority := none }) csB]
    rw [hcskeys]
  have hF2B : List.Forall₂ (fun (c : Item) (comp : Cmp) =>
      fillAltBody (a.comparisons.getD []) (alts.filter (fun al => !(al.id == a.id))) alts.length c.id = some comp) csB newComps :=
    @forall2_of_key Item Cmp (Option String)
      (fun j comp => fillAltBody (a.comparisons.getD []) (alts.filter (fun al => !(al.id == a.id))) alts.length j = some comp)
      (fun x => x.id) cs csB newComps hcskeys hF2
  have hlenB := List.Forall₂.length_eq hF2B
  have hpoint : ∀ p ∈ csB.zip newComps,
      fillAltBody newComps (altsB.filter (fun al => !(al.id == a.id))) altsB.length p.1.id = some p.2 := by
    intro p hp
    have h1 : fillAltBody (a.comparisons.getD []) (alts.filter (fun al => !(al.id == a.id))) alts.length p.1.id = some p.2 := by
      cases p
      exact (List.forall₂_iff_zip.mp hF2B).2 hp
    have hfound : newComps.find? (fun c2 => c2.criterionId == p.1.id) = some p.2 := by
      have hmem1 : p.1 ∈ csB := (List.of_mem_zip hp).1
      have hff := find?_map_keyfun
        (fun j => (fillAltBody (a.comparisons.getD []) (alts.filter (fun al => !(al.id == a.id))) alts.length j).getD { criterionId := none, measurements := none, priority := none })
        (fun x : Item => x.id) (fun c2 : Cmp => c2.criterionId) csB hkeypropB p.1 hmem1
      rw [← hgenB] at hff
      rw [hff]
      simp only [h1, Option.getD_some]
    rw [haltlen]
    exact fillAltBody_second hothkeys hothsome h1 hfound
  have hm2 : mapO (fun criterion =>
      fillAltBody newComps (altsB.filter (fun al => !(al.id == a.id))) altsB.length criterion.id) csB = some newComps :=
    mapO_eq_some_of_zip hlenB.symm hpoint
  subst ha'
  simp only [fillAlternative, Option.getD_some]
  rw [hm2]

theorem forall2_same_of {α : Type _} {R : α → α → Prop} :
    ∀ {l : List α}, (∀ x ∈ l, R x x) → List.Forall₂ R l l := by
  intro l
  induction l with
  | nil => intro _; exact List.Forall₂.nil
  | cons x xs ih =>
    intro h
    exact List.Forall₂.cons (h x (List.mem_cons_self x xs))
      (ih (fun y hy => h y (List.mem_cons_of_mem x hy)))

theorem truthy_of_keys_eq {l l' : List Item}
    (hkeys : l.map (fun x => x.id) = l'.map (fun x => x.id))
    (h : ∀ x ∈ l, truthyS x.id = true) : ∀ x ∈ l', truthyS x.id = true := by
  intro x hx
  have hmem : x.id ∈ l'.map (fun y => y.id) := List.mem_map_of_mem _ hx
  rw [← hkeys] at hmem
  obtain ⟨y, hy, hxy⟩ := List.mem_map.mp hmem
  rw [← hxy]
  exact h y hy

/-- The core of fill idempotence: from a successful first pass over the
assigned lists, the second pass is the identity on both lists and on the
counter. -/
theorem fill_core_idem (uid : Nat → String) (huid : ∀ k, uid k ≠ "") (n1 : Nat)
    (cs0 as0 : List Item) {cs2 as2 : List Item}
    (hcs2 : mapO (fillCriterion (assignIds uid n1 cs0).1) (assignIds uid n1 cs0).1 = some cs2)
    (has2 : mapO (fillAlternative cs2 (assignIds uid (assignIds uid n1 cs0).2 as0).1)
      (assignIds uid (assignIds uid n1 cs0).2 as0).1 = some as2) :
    ∀ m : Nat, assignIds uid m cs2 = (cs2, m) ∧ mapO (fillCriterion cs2) cs2 = some cs2 ∧
      assignIds uid m as2 = (as2, m) ∧ mapO (fillAlternative cs2 as2) as2 = some as2 := by
  intro m
  have hcs1t : ∀ x ∈ (assignIds uid n1 cs0).1, truthyS x.id = true :=
    assignIds_truthy_out huid cs0 n1
  have has1t : ∀ x ∈ (assignIds uid (assignIds uid n1 cs0).2 as0).1, truthyS x.id = true :=
    assignIds_truthy_out huid as0 (assignIds uid n1 cs0).2
  have hF2c := mapO_eq_some_iff.mp hcs2
  have hckeys : cs2.map (fun x => x.id) = (assignIds uid n1 cs0).1.map (fun x => x.id) :=
    forall2_map_eq (fun a b hr => fillCriterion_id hr) hF2c
  have hcs2t : ∀ x ∈ cs2, truthyS x.id = true := truthy_of_keys_eq hckeys.symm hcs1t
  have hcs1some : ∀ x ∈ (assignIds uid n1 cs0).1, x.id.isSome = true :=
    fun x hx => truthyS_isSome (hcs1t x hx)
  have hF2a := mapO_eq_some_iff.mp has2
  have hakeys : as2.map (fun x => x.id)
      = (assignIds uid (assignIds uid n1 cs0).2 as0).1.map (fun x => x.id) :=
    forall2_map_eq (fun a b hr => fillAlternative_id hr) hF2a
  have has2t : ∀ x ∈ as2, truthyS x.id = true := truthy_of_keys_eq hakeys.symm has1t
  have has1some : ∀ x ∈ (assignIds uid (assignIds uid n1 cs0).2 as0).1, x.id.isSome = true :=
    fun x hx => truthyS_isSome (has1t x hx)
  refine ⟨assignIds_of_truthy hcs2t, ?_, assignIds_of_truthy has2t, ?_⟩
  · apply mapO_eq_some_iff.mpr
    apply forall2_same_of
    intro c2 hc2
    obtain ⟨c, hc, hrel⟩ := forall2_mem_right hF2c c2 hc2
    exact fillCriterion_idem hcs1some hckeys.symm hrel
  · apply mapO_eq_some_iff.mpr
    apply forall2_same_of
    intro a2 ha2
    obtain ⟨a, ha, hrel⟩ := forall2_mem_right hF2a a2 ha2
    exact fillAlternative_idem rfl hakeys.symm has1some hrel

/-- Assembly: a decision whose id/goal are truthy and whose lists are
fixpoints of both fill passes is a fill fixpoint. -/
theorem fill_of_parts {uid : Nat → String} {d2 : Decision} {m : Nat}
    (hIDt : truthyS d2.id = true) (hGt : truthyS d2.goal = true)
    {cs2 as2 : List Item} (hc : d2.criteria = some cs2) (ha : d2.alternatives = some as2)
    (h1 : assignIds uid m cs2 = (cs2, m)) (h2 : mapO (fillCriterion cs2) cs2 = some cs2)
    (h3 : assignIds uid m as2 = (as2, m)) (h4 : mapO (fillAlternative cs2 as2) as2 = some as2) :
    fill uid m d2 = some (d2, m) := by
  simp only [fill, hIDt, if_true, hGt, hc, ha, Option.getD_some, h1, h2, h3, h4]
  rw [Decision_eta d2 rfl rfl hc ha]

/-- C6: Structure Completion is idempotent: running fill again on the
decision a successful fill produced changes nothing -- no id is
regenerated, no slot is added, removed or reordered, and the id counter
does not even advance.  The injected generator is assumed never to return
the empty string (JS falsiness), as crypto.randomUUID never does. -/
theorem fill_idempotent (uid : Nat → String) (huid : ∀ k, uid k ≠ "") (n : Nat)
    {d d' : Decision} {n' : Nat} (h : fill uid n d = some (d', n')) :
    fill uid n' d' = some (d', n') := by
  have hID : truthyS (if truthyS d.id then d.id else some (uid n)) = true := by
    by_cases hid : truthyS d.id = true
    · rw [if_pos hid]
      exact hid
    · rw [if_neg hid]
      simp [truthyS, huid n]
  have hG : truthyS (if truthyS d.goal then d.goal else some "unknown") = true := by
    by_cases hg : truthyS d.goal = true
    · rw [if_pos hg]
      exact hg
    · rw [if_neg hg]
      decide
  simp only [fill] at h
  split at h
  · exact absurd h (by simp)
  next cs2 hcs2 =>
    split at h
    · exact absurd h (by simp)
    next as2 has2 =>
      simp only [Option.some.injEq, Prod.mk.injEq] at h
      obtain ⟨hd', hn'⟩ := h
      subst hd'
      subst hn'
      obtain ⟨h1, h2, h3, h4⟩ := fill_core_idem uid huid _
        (d.criteria.getD []) (d.alternatives.getD []) hcs2 has2 _
      exact fill_of_parts (by simpa using hID) (by simpa using hG) rfl rfl h1 h2 h3 h4

/-- The concrete generator uid0 never returns the empty string. -/
theorem uid0_ne_empty : ∀ k, uid0 k ≠ "" := by
  intro k h
  have hl := congrArg String.length h
  rw [uid0] at hl
  simp only [String.length_append] at hl
  simp at hl
  exact absurd hl.1 (by decide)

/-- Witness for fill_idempotent: refilling the filled dFresh is the
identity, counter included. -/
theorem fill_idempotent_witness : fill uid0 0 dFilled = some (dFilled, 0) :=
  fill_idempotent uid0 uid0_ne_empty 0
    (show fill uid0 0 dFresh = some (dFilled, 0) by decide)

/-! #### updFirst and find? interaction lemmas -/

theorem if_bool_pos {c : Bool} {α : Type _} (h : c = true) (a b : α) :
    (if c then a else b) = a := by
  rw [h]
  simp

theorem if_bool_neg {c : Bool} {α : Type _} (h : c = false) (a b : α) :
    (if c then a else b) = b := by
  rw [h]
  simp

theorem updFirst_pred_congr {α : Type _} {p p' : α → Bool} (g : α → α)
    (h : ∀ x, p x = p' x) : ∀ l : List α, updFirst p g l = updFirst p' g l := by
  intro l
  induction l with
  | nil => rfl
  | cons x xs ih =>
    unfold updFirst
    rw [h x, ih]

/-- With pairwise-distinct keys, updating the first key match is updating
every key match. -/
theorem updFirst_key_nodup {α K : Type _} [BEq K] [LawfulBEq K] (keyf : α → K) (g : α → α)
    (k : K) : ∀ l : List α, (l.map keyf).Nodup →
    updFirst (fun x => keyf x == k) g l = l.map (fun x => if keyf x == k then g x else x) := by
  intro l
  induction l with
  | nil => intro _; rfl
  | cons x xs ih =>
    intro hnd
    simp only [List.map_cons, List.nodup_cons] at hnd
    obtain ⟨hnotin, hnd'⟩ := hnd
    unfold updFirst
    simp only [List.map_cons]
    cases hx : (keyf x == k) with
    | true =>
      rw [if_pos rfl, if_pos rfl]
      have hpt : ∀ y ∈ xs, (if keyf y == k then g y else y) = y := by
        intro y hy
        have hne : (keyf y == k) = false := by
          have : keyf y ≠ k := by
            intro he
            apply hnotin
            rw [eq_of_beq hx, ← he]
            exact List.mem_map_of_mem keyf hy
          simp [this]
        rw [if_bool_neg hne]
      have hrest : xs.map (fun y => if keyf y == k then g y else y) = xs :=
        (map_congr_mem hpt).trans (List.map_id' xs)
      rw [hrest]
    | false =>
      rw [if_neg Bool.false_ne_true, if_neg Bool.false_ne_true]
      rw [ih hnd']

/-- Reading by key through a keyed pointwise update: the same slot is
found, with the update applied exactly when the keys coincide. -/
theorem find?_key_map_ite {α K : Type _} [BEq K] [LawfulBEq K] [DecidableEq K] (keyf : α → K) (g : α → α)
    (hkg : ∀ x, keyf (g x) = keyf x) (k b : K) :
    ∀ l : List α,
      (l.map (fun x => if keyf x == k then g x else x)).find? (fun x => keyf x == b)
        = if b = k then (l.find? (fun x => keyf x == b)).map g
          else l.find? (fun x => keyf x == b) := by
  intro l
  induction l with
  | nil => by_cases h : b = k <;> simp [h]
  | cons x xs ih =>
    simp only [List.map_cons]
    rw [find?_cons_eq]
    have hhead : keyf (if keyf x == k then g x else x) = keyf x := by
      cases hx : (keyf x == k) with
      | true => rw [if_pos rfl, hkg]
      | false => rw [if_neg Bool.false_ne_true]
    rw [hhead]
    cases hxb : (keyf x == b) with
    | true =>
      simp only [cond_true]
      by_cases hbk : b = k
      · have hxk : (keyf x == k) = true := by
          rw [eq_of_beq hxb, hbk]
          exact beq_self_eq_true k
        rw [if_pos hbk, find?_cons_eq, hxb]
        simp only [cond_true]
        rw [if_bool_pos hxk]
        rfl
      · have hxk : (keyf x == k) = false := by
          have : keyf x ≠ k := by
            rw [eq_of_beq hxb]
            exact hbk
          simp [this]
        rw [if_neg hbk, find?_cons_eq, hxb]
        simp only [cond_true]
        rw [if_bool_neg hxk]
    | false =>
      simp only [cond_false]
      rw [ih]
      by_cases hbk : b = k
      · rw [if_pos hbk, if_pos hbk, find?_cons_eq, hxb]
        simp only [cond_false]
      · rw [if_neg hbk, if_neg hbk, find?_cons_eq, hxb]
        simp only [cond_false]

/-- find? through a map whose function does not change the predicate. -/
theorem find?_map_of_pred_invariant {α : Type _} (p : α → Bool) (h : α → α)
    (hinv : ∀ x, p (h x) = p x) : ∀ l : List α, (l.map h).find? p = (l.find? p).map h := by
  intro l
  induction l with
  | nil => rfl
  | cons x xs ih =>
    simp only [List.map_cons]
    rw [find?_cons_eq, find?_cons_eq, hinv]
    cases hx : p x with
    | true =>
      simp only [cond_true]
      rfl
    | false => simp only [cond_false, ih]

theorem updFirst_map_eq {α β : Type _} {f : α → β} {g : α → α} {p : α → Bool}
    (hfg : ∀ x, f (g x) = f x) : ∀ l : List α, (updFirst p g l).map f = l.map f := by
  intro l
  induction l with
  | nil => rfl
  | cons x xs ih =>
    unfold updFirst
    cases hx : p x with
    | true =>
      rw [if_pos rfl]
      simp only [List.map_cons, hfg]
    | false =>
      rw [if_neg Bool.false_ne_true]
      simp only [List.map_cons, ih]

theorem updFirst_length {α : Type _} (p : α → Bool) (g : α → α) :
    ∀ l : List α, (updFirst p g l).length = l.length := by
  intro l
  induction l with
  | nil => rfl
  | cons x xs ih =>
    unfold updFirst
    cases hx : p x with
    | true =>
      rw [if_pos rfl]
      rfl
    | false =>
      rw [if_neg Bool.false_ne_true]
      simp only [List.length_cons, ih]

theorem mem_zip_of_mem_right {α β : Type _} :
    ∀ {ms : List α} {os : List β}, ms.length = os.length → ∀ o ∈ os, ∃ m, (m, o) ∈ ms.zip os := by
  intro ms
  induction ms with
  | nil =>
    intro os hlen o ho
    cases os with
    | nil => cases ho
    | cons y ys => simp at hlen
  | cons m ms' ih =>
    intro os hlen o ho
    cases os with
    | nil => cases ho
    | cons y ys =>
      simp only [List.length_cons, Nat.add_right_cancel_iff] at hlen
      cases ho with
      | head => exact ⟨m, by simp [List.zip_cons_cons]⟩
      | tail _ hm =>
        obtain ⟨m2, hm2⟩ := ih hlen o hm
        exact ⟨m2, by simp [List.zip_cons_cons, hm2]⟩

theorem forall2_of_map_eq {α β K : Type _} {f : α → K} {g : β → K} :
    ∀ {ms : List α} {os : List β}, ms.map f = os.map g →
      List.Forall₂ (fun m o => f m = g o) ms os := by
  intro ms
  induction ms with
  | nil =>
    intro os h
    cases os with
    | nil => exact List.Forall₂.nil
    | cons y ys => simp at h
  | cons m ms' ih =>
    intro os h
    cases os with
    | nil => simp at h
    | cons y ys =>
      simp only [List.map_cons, List.cons.injEq] at h
      exact List.Forall₂.cons h.1 (ih h.2)

/-- With pairwise-distinct ids, looking an item up by its id finds it. -/
theorem find?_by_id_of_mem {l : List Item} (hnd : (l.map (fun x => x.id)).Nodup) {it : Item}
    (hmem : it ∈ l) {iid : String} (hid : it.id = some iid) :
    l.find? (fun x => x.id == some iid) = some it := by
  induction l with
  | nil => cases hmem
  | cons x xs ih =>
    simp only [List.map_cons, List.nodup_cons] at hnd
    obtain ⟨hnotin, hnd'⟩ := hnd
    rw [find?_cons_eq]
    cases hmem with
    | head =>
      rw [hid]
      simp
    | tail _ hm =>
      have hxne : (x.id == some iid) = false := by
        have : x.id ≠ some iid := by
          intro he
          apply hnotin
          rw [he, ← hid]
          exact List.mem_map_of_mem _ hm
        simp [this]
      rw [hxne]
      simp only [cond_false]
      exact ih hnd' hm

/-- cmpPred agrees with keyMatch once the criterion's id is known. -/
theorem cmpPred_eq_keyMatch_some {critIt : Item} {cid : String} (hcid : critIt.id = some cid) :
    ∀ c : Cmp, cmpPred (some critIt) c = keyMatch (some cid) c := by
  intro c
  show (c.criterionId.isSome && c.criterionId == critIt.id) = (c.criterionId == some cid)
  rw [hcid]
  cases hc : c.criterionId with
  | none => simp
  | some x => simp

/-- Bridging: with pairwise-distinct ids, updating the first reference
match is a pointwise update keyed on that item's id. -/
theorem updFirst_matches_map_ite {l : List Item} {ref : ItemRef} {it : Item} {iid : String}
    (g : Item → Item) (hnd : (l.map (fun x => x.id)).Nodup)
    (hfind : l.find? (matchesRef ref) = some it) (hid : it.id = some iid) :
    updFirst (matchesRef ref) g l = l.map (fun x => if x.id == some iid then g x else x) := by
  induction l with
  | nil => cases hfind
  | cons x xs ih =>
    simp only [List.map_cons, List.nodup_cons] at hnd
    obtain ⟨hnotin, hnd'⟩ := hnd
    rw [find?_cons_eq] at hfind
    unfold updFirst
    simp only [List.map_cons]
    cases hx : matchesRef ref x with
    | true =>
      rw [hx] at hfind
      simp only [cond_true, Option.some.injEq] at hfind
      subst hfind
      rw [if_pos rfl, if_bool_pos (by rw [hid]; exact beq_self_eq_true _)]
      have hpt : ∀ y ∈ xs, (if y.id == some iid then g y else y) = y := by
        intro y hy
        have hne : (y.id == some iid) = false := by
          have : y.id ≠ some iid := by
            intro he
            apply hnotin
            rw [hid, ← he]
            exact List.mem_map_of_mem _ hy
          simp [this]
        rw [if_bool_neg hne]
      have hrest : xs.map (fun y => if y.id == some iid then g y else y) = xs :=
        (map_congr_mem hpt).trans (List.map_id' xs)
      rw [hrest]
    | false =>
      rw [hx] at hfind
      simp only [cond_false] at hfind
      have hitmem : it ∈ xs := List.mem_of_find?_eq_some hfind
      have hxne : (x.id == some iid) = false := by
        have : x.id ≠ some iid := by
          intro he
          apply hnotin
          rw [he, ← hid]
          exact List.mem_map_of_mem _ hitmem
        simp [this]
      rw [if_neg Bool.false_ne_true, if_bool_neg hxne]
      rw [ih hnd' hfind]

/-! #### goodStruct decisions are fill fixpoints -/

theorem mem_zip_comm {α β : Type _} {a : α} {b : β} :
    ∀ {l : List α} {r : List β}, (a, b) ∈ l.zip r → (b, a) ∈ r.zip l := by
  intro l
  induction l with
  | nil => intro r h; cases h
  | cons x xs ih =>
    intro r h
    cases r with
    | nil => cases h
    | cons y ys =>
      simp only [List.zip_cons_cons, List.mem_cons, Prod.mk.injEq] at h ⊢
      cases h with
      | inl he => exact .inl ⟨he.2, he.1⟩
      | inr hm => exact .inr (ih hm)

theorem map_eq_of_zip {α β K : Type _} (f : α → K) (g : β → K) :
    ∀ {l : List α} {r : List β}, l.length = r.length →
      (∀ p ∈ l.zip r, f p.1 = g p.2) → l.map f = r.map g := by
  intro l
  induction l with
  | nil =>
    intro r hlen _
    cases r with
    | nil => rfl
    | cons y ys => simp at hlen
  | cons x xs ih =>
    intro r hlen hp
    cases r with
    | nil => simp at hlen
    | cons y ys =>
      simp only [List.length_cons, Nat.add_right_cancel_iff] at hlen
      simp only [List.map_cons]
      rw [hp (x, y) (by simp [List.zip_cons_cons]),
        ih hlen (fun q hq => hp q (by simp [List.zip_cons_cons, hq]))]

theorem nodup_filter_ids {cs : List Item} (p : Item → Bool)
    (hnd : (cs.map (fun x => x.id)).Nodup) :
    ((cs.filter p).map (fun x => x.id)).Nodup :=
  List.Nodup.sublist (List.Sublist.map (fun x => x.id) (List.filter_sublist cs)) hnd

/-- Slot keys given by getD lift to option keys when the peer ids are present. -/
theorem keys_some_of_getD {ms : List Measurement} {peers : List Item}
    (h : ms.map (fun m => m.pairId) = peers.map (fun p => p.id.getD ""))
    (hs : ∀ p ∈ peers, p.id.isSome = true) :
    ms.map (fun m => some m.pairId) = peers.map (fun p => p.id) := by
  have h1 : ms.map (fun m => some m.pairId)
      = (ms.map (fun m => m.pairId)).map some := by
    rw [List.map_map]
    rfl
  rw [h1, h, List.map_map]
  apply map_congr_mem
  intro p hp
  show some (p.id.getD "") = p.id
  exact some_getD_of_isSome (hs p hp)

/-- An item already carrying the criterion skeleton is a fillCriterion
fixpoint. -/
theorem critShape_fix {cs : List Item} {c : Item}
    (hnd : (cs.map (fun x => x.id)).Nodup)
    (hsome : ∀ x ∈ cs, x.id.isSome = true)
    (hsh : critShape cs c = true) :
    fillCriterion cs c = some c := by
  unfold critShape at hsh
  split at hsh
  next c0 hcomp =>
    rw [Bool.and_eq_true] at hsh
    obtain ⟨hcid, hmsB⟩ := hsh
    cases hpm : c0.measurements with
    | none =>
      rw [hpm] at hmsB
      simp at hmsB
    | some ms =>
      rw [hpm] at hmsB
      have hmsmap : ms.map (fun m => m.pairId)
          = (cs.filter (fun cr => !(cr.id == c.id))).map (fun cr => cr.id.getD "") :=
        eq_of_beq hmsB
      have hfsome : ∀ x ∈ cs.filter (fun cr => !(cr.id == c.id)), x.id.isSome = true :=
        fun x hx => hsome x (List.mem_of_mem_filter hx)
      have halign := keys_some_of_getD hmsmap hfsome
      have hndf := nodup_filter_ids (fun cr => !(cr.id == c.id)) hnd
      simp only [fillCriterion, hcomp]
      rw [hpm]
      simp only [rebuildSlots_aligned halign hndf, Option.some.injEq]
      rw [Cmp_set_measurements c0 hpm]
      exact Item_set_comparisons c hcomp
  next hne =>
    simp at hsh

/-- An item already carrying the alternative skeleton is a
fillAlternative fixpoint. -/
theorem altShape_fix {cs alts : List Item} {a : Item}
    (hcnd : (cs.map (fun x => x.id)).Nodup)
    (hand : (alts.map (fun x => x.id)).Nodup)
    (hmem : a ∈ alts)
    (hsh : altShape cs alts a = true) :
    fillAlternative cs alts a = some a := by
  unfold altShape at hsh
  split at hsh
  · simp at hsh
  next comps hcomp =>
    rw [Bool.and_eq_true] at hsh
    obtain ⟨hlenB, hallB⟩ := hsh
    have hlen : comps.length = cs.length := eq_of_beq hlenB
    have hall := List.all_eq_true.mp hallB
    have hcid : ∀ p ∈ comps.zip cs, p.1.criterionId = p.2.id := by
      intro p hp
      have h := hall p hp
      rw [Bool.and_eq_true] at h
      exact eq_of_beq h.1
    have hkeys : comps.map (fun c2 => c2.criterionId) = cs.map (fun x => x.id) :=
      map_eq_of_zip _ _ hlen hcid
    have hmsfact : ∀ p ∈ comps.zip cs, ∃ ms, p.1.measurements = some ms ∧
        ms.map (fun m => m.pairId)
          = (alts.filter (fun al => !(al.id == a.id))).map (fun al => al.id.getD "") := by
      intro p hp
      have h := hall p hp
      rw [Bool.and_eq_true] at h
      have h2 := h.2
      cases hpm : p.1.measurements with
      | none =>
        rw [hpm] at h2
        simp at h2
      | some ms =>
        rw [hpm] at h2
        simp only at h2
        exact ⟨ms, rfl, eq_of_beq h2⟩
    have hothlen : (alts.filter (fun al => !(al.id == a.id))).length + 1 = alts.length :=
      filter_ne_id_length alts a hand hmem
    have hpoint : ∀ p ∈ cs.zip comps,
        fillAltBody comps (alts.filter (fun al => !(al.id == a.id))) alts.length p.1.id
          = some p.2 := by
      intro p hp
      have hswap : (p.2, p.1) ∈ comps.zip cs := by
        obtain ⟨x, y⟩ := p
        exact mem_zip_comm hp
      have hfind : comps.find? (fun comp => comp.criterionId == p.1.id) = some p.2 :=
        find?_of_zip_aligned (fun c2 : Cmp => c2.criterionId) (fun x : Item => x.id)
          comps cs hkeys hcnd (p.2, p.1) hswap
      obtain ⟨ms, hpm, hmsmap⟩ := hmsfact (p.2, p.1) hswap
      have hmslen : ms.length = (alts.filter (fun al => !(al.id == a.id))).length := by
        have hl := congrArg List.length hmsmap
        simpa using hl
      have hchk : ((ms.length : Int) == (alts.length : Int) - 1) = true := by
        apply beq_iff_eq.mpr
        rw [hmslen]
        omega
      simp only [fillAltBody, hfind, Option.getD_some]
      rw [hpm]
      simp only [hchk, if_true]
    have hm2 : mapO (fun criterion =>
        fillAltBody comps (alts.filter (fun al => !(al.id == a.id))) alts.length criterion.id)
          cs = some comps :=
      mapO_eq_some_of_zip hlen hpoint
    simp only [fillAlternative, hcomp, Option.getD_some, hm2, Option.some.injEq]
    exact Item_set_comparisons a hcomp

/-- A structurally canonical decision is a fill fixpoint: fill returns it
unchanged without consuming ids. -/
theorem goodStruct_fillFix (uid : Nat → String) (n : Nat) {d : Decision}
    (hg : goodStruct d = true) : fill uid n d = some (d, n) := by
  simp only [goodStruct, Bool.and_eq_true] at hg
  obtain ⟨⟨⟨⟨⟨⟨⟨hid, hgoal⟩, hcsome⟩, hasome⟩, hcok⟩, haok⟩, hcshape⟩, hashape⟩ := hg
  cases hcs : d.criteria with
  | none => rw [hcs] at hcsome; simp at hcsome
  | some cs =>
    cases has : d.alternatives with
    | none => rw [has] at hasome; simp at hasome
    | some alts =>
      rw [hcs] at hcok hcshape hashape
      rw [has] at haok hashape
      simp only [Option.getD_some] at hcok haok hcshape hashape
      simp only [idsOk, Bool.and_eq_true, decide_eq_true_eq] at hcok haok
      obtain ⟨hctruthyB, hcnd⟩ := hcok
      obtain ⟨hatruthyB, hand⟩ := haok
      have hctruthy : ∀ x ∈ cs, truthyS x.id = true := List.all_eq_true.mp hctruthyB
      have hatruthy : ∀ x ∈ alts, truthyS x.id = true := List.all_eq_true.mp hatruthyB
      have hcsome2 : ∀ x ∈ cs, x.id.isSome = true :=
        fun x hx => truthyS_isSome (hctruthy x hx)
      have h2 : mapO (fillCriterion cs) cs = some cs := by
        apply mapO_eq_some_iff.mpr
        apply forall2_same_of
        intro c hc
        exact critShape_fix hcnd hcsome2 (List.all_eq_true.mp hcshape c hc)
      have h4 : mapO (fillAlternative cs alts) alts = some alts := by
        apply mapO_eq_some_iff.mpr
        apply forall2_same_of
        intro a ha
        exact altShape_fix hcnd hand ha (List.all_eq_true.mp hashape a ha)
      exact fill_of_parts hid hgoal hcs has
        (assignIds_of_truthy hctruthy) h2 (assignIds_of_truthy hatruthy) h4

/-! #### structural facts about goodStruct states -/

theorem find?_pred_congr {α : Type _} {p q : α → Bool} (h : ∀ x, p x = q x) :
    ∀ l : List α, l.find? p = l.find? q := by
  intro l
  induction l with
  | nil => rfl
  | cons x xs ih =>
    rw [find?_cons_eq, find?_cons_eq, h x, ih]

theorem mem_key_unique {α K : Type _} [BEq K] [LawfulBEq K] (keyf : α → K) :
    ∀ {l : List α}, (l.map keyf).Nodup → ∀ {x y : α}, x ∈ l → y ∈ l → keyf x = keyf y → x = y := by
  intro l
  induction l with
  | nil => intro _ x y hx; cases hx
  | cons z zs ih =>
    intro hnd x y hx hy he
    simp only [List.map_cons, List.nodup_cons] at hnd
    obtain ⟨hnotin, hnd'⟩ := hnd
    cases hx with
    | head =>
      cases hy with
      | head => rfl
      | tail _ hym =>
        exact absurd (he ▸ List.mem_map_of_mem keyf hym) hnotin
    | tail _ hxm =>
      cases hy with
      | head => exact absurd (he ▸ List.mem_map_of_mem keyf hxm) hnotin
      | tail _ hym => exact ih hnd' hxm hym he

theorem mem_zip_of_mem_left {α β : Type _} :
    ∀ {ms : List α} {os : List β}, ms.length = os.length → ∀ m ∈ ms, ∃ o, (m, o) ∈ ms.zip os := by
  intro ms
  induction ms with
  | nil => intro os _ m hm; cases hm
  | cons x xs ih =>
    intro os hlen m hm
    cases os with
    | nil => simp at hlen
    | cons y ys =>
      simp only [List.length_cons, Nat.add_right_cancel_iff] at hlen
      cases hm with
      | head => exact ⟨y, by simp [List.zip_cons_cons]⟩
      | tail _ hmm =>
        obtain ⟨o, ho⟩ := ih hlen m hmm
        exact ⟨o, by simp [List.zip_cons_cons, ho]⟩

theorem beq_some_some {a b : String} : (some a == some b) = (a == b) := rfl

theorem nodup_getD_ids {l : List Item} (hs : ∀ x ∈ l, x.id.isSome = true)
    (hnd : (l.map (fun x => x.id)).Nodup) :
    (l.map (fun x => x.id.getD "")).Nodup := by
  have h1 : l.map (fun x => x.id.getD "") = (l.map (fun x => x.id)).map (fun o => o.getD "") := by
    rw [List.map_map]
    rfl
  rw [h1]
  apply List.Nodup.map_on ?inj hnd
  intro o1 ho1 o2 ho2 he
  obtain ⟨x1, hx1, he1⟩ := List.mem_map.mp ho1
  obtain ⟨x2, hx2, he2⟩ := List.mem_map.mp ho2
  subst he1
  subst he2
  have h1s := hs x1 hx1
  have h2s := hs x2 hx2
  cases o1' : x1.id with
  | none => rw [o1'] at h1s; simp at h1s
  | some s1 =>
    cases o2' : x2.id with
    | none => rw [o2'] at h2s; simp at h2s
    | some s2 =>
      simp only [o1', o2', Option.getD_some] at he
      rw [he]

theorem all_key_congr {α K : Type _} (keyf : α → K) (p : K → Bool) :
    ∀ {l l' : List α}, l.map keyf = l'.map keyf →
      l.all (fun x => p (keyf x)) = l'.all (fun x => p (keyf x)) := by
  intro l
  induction l with
  | nil =>
    intro l' h
    cases l' with
    | nil => rfl
    | cons y ys => simp at h
  | cons x xs ih =>
    intro l' h
    cases l' with
    | nil => simp at h
    | cons y ys =>
      simp only [List.map_cons, List.cons.injEq] at h
      simp only [List.all_cons, h.1, ih h.2]

theorem idsOk_keys_congr {l l' : List Item}
    (h : l.map (fun x => x.id) = l'.map (fun x => x.id)) : idsOk l = idsOk l' := by
  unfold idsOk
  rw [h, all_key_congr (fun x : Item => x.id) truthyS h]

theorem filtered_getD_congr {l l' : List Item} (j : Option String)
    (hkeys : l.map (fun x => x.id) = l'.map (fun x => x.id)) :
    (l.filter (fun cr => !(cr.id == j))).map (fun cr => cr.id.getD "")
      = (l'.filter (fun cr => !(cr.id == j))).map (fun cr => cr.id.getD "") := by
  have h1 := filter_key_map (fun x : Item => x.id) (fun k => !(k == j)) (fun k => k.getD "") l
  have h2 := filter_key_map (fun x : Item => x.id) (fun k => !(k == j)) (fun k => k.getD "") l'
  simp only at h1 h2
  rw [h1, h2, hkeys]

theorem zip_all_key_congr {α β K : Type _} (keyf : β → K) (Q : α → K → Bool) :
    ∀ (l : List α) (r r' : List β), r.map keyf = r'.map keyf →
      (l.zip r).all (fun pc => Q pc.1 (keyf pc.2)) = (l.zip r').all (fun pc => Q pc.1 (keyf pc.2)) := by
  intro l
  induction l with
  | nil => intro r r' _; rfl
  | cons x xs ih =>
    intro r r' hkeys
    cases r with
    | nil =>
      cases r' with
      | nil => rfl
      | cons y ys => simp at hkeys
    | cons y ys =>
      cases r' with
      | nil => simp at hkeys
      | cons y' ys' =>
        simp only [List.map_cons, List.cons.injEq] at hkeys
        simp only [List.zip_cons_cons, List.all_cons, hkeys.1, ih ys ys' hkeys.2]

theorem goodStruct_parts {d : Decision} (hg : goodStruct d = true) :
    truthyS d.id = true ∧ truthyS d.goal = true ∧
    ∃ cs alts, d.criteria = some cs ∧ d.alternatives = some alts ∧
      (∀ x ∈ cs, truthyS x.id = true) ∧ (cs.map (fun x => x.id)).Nodup ∧
      (∀ x ∈ alts, truthyS x.id = true) ∧ (alts.map (fun x => x.id)).Nodup ∧
      (∀ c ∈ cs, critShape cs c = true) ∧ (∀ a ∈ alts, altShape cs alts a = true) := by
  simp only [goodStruct, Bool.and_eq_true] at hg
  obtain ⟨⟨⟨⟨⟨⟨⟨hid, hgoal⟩, hcsome⟩, hasome⟩, hcok⟩, haok⟩, hcshape⟩, hashape⟩ := hg
  cases hcs : d.criteria with
  | none => rw [hcs] at hcsome; simp at hcsome
  | some cs =>
    cases has : d.alternatives with
    | none => rw [has] at hasome; simp at hasome
    | some alts =>
      rw [hcs] at hcok hcshape hashape
      rw [has] at haok hashape
      simp only [Option.getD_some] at hcok haok hcshape hashape
      simp only [idsOk, Bool.and_eq_true, decide_eq_true_eq] at hcok haok
      exact ⟨hid, hgoal, cs, alts, rfl, rfl,
        List.all_eq_true.mp hcok.1, hcok.2,
        List.all_eq_true.mp haok.1, haok.2,
        List.all_eq_true.mp hcshape, List.all_eq_true.mp hashape⟩

theorem goodStruct_build {d : Decision} {cs alts : List Item}
    (hid : truthyS d.id = true) (hgoal : truthyS d.goal = true)
    (hc : d.criteria = some cs) (ha : d.alternatives = some alts)
    (h1 : ∀ x ∈ cs, truthyS x.id = true) (h2 : (cs.map (fun x => x.id)).Nodup)
    (h3 : ∀ x ∈ alts, truthyS x.id = true) (h4 : (alts.map (fun x => x.id)).Nodup)
    (h5 : ∀ c ∈ cs, critShape cs c = true) (h6 : ∀ a ∈ alts, altShape cs alts a = true) :
    goodStruct d = true := by
  have hidsc : idsOk cs = true := by
    simp only [idsOk, Bool.and_eq_true, decide_eq_true_eq]
    exact ⟨List.all_eq_true.mpr h1, h2⟩
  have hidsa : idsOk alts = true := by
    simp only [idsOk, Bool.and_eq_true, decide_eq_true_eq]
    exact ⟨List.all_eq_true.mpr h3, h4⟩
  simp only [goodStruct, hc, ha, Option.getD_some]
  rw [hid, hgoal, hidsc, hidsa, List.all_eq_true.mpr h5, List.all_eq_true.mpr h6]
  rfl

theorem critShape_parts {cs : List Item} {c : Item} (h : critShape cs c = true) :
    ∃ c0 ms, c.comparisons = some [c0] ∧ c0.criterionId = none ∧ c0.measurements = some ms ∧
      ms.map (fun m => m.pairId)
        = (cs.filter (fun cr => !(cr.id == c.id))).map (fun cr => cr.id.getD "") := by
  unfold critShape at h
  split at h
  next c0 hcomp =>
    rw [Bool.and_eq_true] at h
    obtain ⟨hcid, hmsB⟩ := h
    cases hpm : c0.measurements with
    | none => rw [hpm] at hmsB; simp at hmsB
    | some ms =>
      rw [hpm] at hmsB
      exact ⟨c0, ms, hcomp, eq_of_beq hcid, hpm, eq_of_beq hmsB⟩
  next => simp at h

theorem altShape_parts {cs alts : List Item} {a : Item} (h : altShape cs alts a = true) :
    ∃ comps, a.comparisons = some comps ∧ comps.length = cs.length ∧
      comps.map (fun c => c.criterionId) = cs.map (fun x => x.id) ∧
      (∀ p ∈ comps.zip cs, p.1.criterionId = p.2.id ∧ ∃ ms, p.1.measurements = some ms ∧
        ms.map (fun m => m.pairId)
          = (alts.filter (fun al => !(al.id == a.id))).map (fun al => al.id.getD "")) := by
  unfold altShape at h
  split at h
  · simp at h
  next comps hcomp =>
    rw [Bool.and_eq_true] at h
    obtain ⟨hlenB, hallB⟩ := h
    have hlen : comps.length = cs.length := eq_of_beq hlenB
    have hall := List.all_eq_true.mp hallB
    have hpt : ∀ p ∈ comps.zip cs, p.1.criterionId = p.2.id ∧ ∃ ms, p.1.measurements = some ms ∧
        ms.map (fun m => m.pairId)
          = (alts.filter (fun al => !(al.id == a.id))).map (fun al => al.id.getD "") := by
      intro p hp
      have h2 := hall p hp
      rw [Bool.and_eq_true] at h2
      refine ⟨eq_of_beq h2.1, ?_⟩
      have h3 := h2.2
      cases hpm : p.1.measurements with
      | none => rw [hpm] at h3; simp at h3
      | some ms =>
        rw [hpm] at h3
        simp only at h3
        exact ⟨ms, rfl, eq_of_beq h3⟩
    exact ⟨comps, hcomp, hlen,
      map_eq_of_zip _ _ hlen (fun p hp => (hpt p hp).1), hpt⟩

/-- Every peer slot exists in a key-complete slot list. -/
theorem slot_exists_of_peer {alts : List Item} {a p : Item} {ms : List Measurement} {pidStr : String}
    (hkeys : ms.map (fun m => m.pairId)
      = (alts.filter (fun al => !(al.id == a.id))).map (fun al => al.id.getD ""))
    (hp : p ∈ alts) (hpid : p.id = some pidStr) (hne : p.id ≠ a.id) :
    (ms.find? (fun m => m.pairId == pidStr)).isSome = true := by
  have hpf : p ∈ alts.filter (fun al => !(al.id == a.id)) := by
    apply List.mem_filter.mpr
    refine ⟨hp, ?_⟩
    simp [hne]
  have hmemk : pidStr ∈ ms.map (fun m => m.pairId) := by
    rw [hkeys]
    have : p.id.getD "" = pidStr := by rw [hpid]; rfl
    rw [← this]
    exact List.mem_map_of_mem _ hpf
  obtain ⟨m, hm, hmk⟩ := List.mem_map.mp hmemk
  apply List.find?_isSome.mpr
  exact ⟨m, hm, by simp [hmk]⟩

/-- No slot carries the owner's own id in a key-complete slot list. -/
theorem no_self_slot {alts : List Item} {a : Item} {ms : List Measurement} {iid : String}
    (hkeys : ms.map (fun m => m.pairId)
      = (alts.filter (fun al => !(al.id == a.id))).map (fun al => al.id.getD ""))
    (hsome : ∀ x ∈ alts, x.id.isSome = true)
    (haid : a.id = some iid) :
    ms.find? (fun m => m.pairId == iid) = none := by
  apply List.find?_eq_none.mpr
  intro m hm hbeq
  have hmk : m.pairId = iid := eq_of_beq hbeq
  have hmemk : m.pairId ∈ ms.map (fun m2 => m2.pairId) := List.mem_map_of_mem _ hm
  rw [hkeys] at hmemk
  obtain ⟨f, hf, hfk⟩ := List.mem_map.mp hmemk
  have hff := List.mem_filter.mp hf
  have hfsome := hsome f hff.1
  have hfid : f.id = some iid := by
    cases hfo : f.id with
    | none => rw [hfo] at hfsome; simp at hfsome
    | some s =>
      rw [hfo] at hfk
      simp only [Option.getD_some] at hfk
      rw [hfk, hmk]
  have := hff.2
  rw [hfid, haid] at this
  simp at this

/-! #### the write path of compare: pointwise characterization -/

theorem setSlot_eq (pid : Option String) (w : Option Rat) (ms : List Measurement) :
    setSlot pid w ms = updFirst (fun m => some m.pairId == pid) (wSlot w) ms := rfl

theorem setInCmps_eq (crit : Option Item) (pid : Option String) (w : Option Rat)
    (comps : List Cmp) :
    setInCmps crit pid w comps = updFirst (cmpPred crit) (wCmp pid w) comps := rfl

theorem writeList_eq (crit : Option Item) (ref : ItemRef) (pid : Option String) (w : Option Rat)
    (list : List Item) :
    writeList crit ref pid w list = updFirst (matchesRef ref) (wItem crit pid w) list := rfl

theorem wSlot_pairId (w : Option Rat) (m : Measurement) : (wSlot w m).pairId = m.pairId := rfl

theorem wCmp_criterionId (pid : Option String) (w : Option Rat) (c : Cmp) :
    (wCmp pid w c).criterionId = c.criterionId := rfl

theorem wItem_id (crit : Option Item) (pid : Option String) (w : Option Rat) (it : Item) :
    (wItem crit pid w it).id = it.id := rfl

theorem setSlot_keys (pid : Option String) (w : Option Rat) (ms : List Measurement) :
    (setSlot pid w ms).map (fun m => m.pairId) = ms.map (fun m => m.pairId) := by
  rw [setSlot_eq]
  exact @updFirst_map_eq Measurement String (fun m => m.pairId) (wSlot w)
    (fun m => some m.pairId == pid) (fun m => rfl) ms

theorem setInCmps_keys (crit : Option Item) (pid : Option String) (w : Option Rat)
    (comps : List Cmp) :
    (setInCmps crit pid w comps).map (fun c => c.criterionId)
      = comps.map (fun c => c.criterionId) := by
  rw [setInCmps_eq]
  exact @updFirst_map_eq Cmp (Option String) (fun c => c.criterionId) (wCmp pid w)
    (cmpPred crit) (fun c => rfl) comps

theorem writeList_keys (crit : Option Item) (ref : ItemRef) (pid : Option String)
    (w : Option Rat) (list : List Item) :
    (writeList crit ref pid w list).map (fun x => x.id) = list.map (fun x => x.id) := by
  rw [writeList_eq]
  exact @updFirst_map_eq Item (Option String) (fun x => x.id) (wItem crit pid w)
    (matchesRef ref) (fun x => rfl) list

theorem writeList_map {list : List Item} {ref : ItemRef} {item : Item} {iid : String}
    (crit : Option Item) (pid : Option String) (w : Option Rat)
    (hnd : (list.map (fun x => x.id)).Nodup)
    (hfind : list.find? (matchesRef ref) = some item)
    (hiid : item.id = some iid) :
    writeList crit ref pid w list
      = list.map (fun it => if it.id == some iid then wItem crit pid w it else it) := by
  rw [writeList_eq]
  exact updFirst_matches_map_ite (wItem crit pid w) hnd hfind hiid

theorem find?_id_writeList {list : List Item} {ref : ItemRef} {item : Item} {iid : String}
    (crit : Option Item) (pid : Option String) (w : Option Rat)
    (hnd : (list.map (fun x => x.id)).Nodup)
    (hfind : list.find? (matchesRef ref) = some item)
    (hiid : item.id = some iid) (b : String) :
    (writeList crit ref pid w list).find? (fun it => it.id == some b)
      = if b = iid then (list.find? (fun it => it.id == some b)).map (wItem crit pid w)
        else list.find? (fun it => it.id == some b) := by
  rw [writeList_map crit pid w hnd hfind hiid]
  have h := find?_key_map_ite (fun it : Item => it.id) (wItem crit pid w)
    (fun it => rfl) (some iid) (some b) list
  rw [h]
  by_cases hb : b = iid
  · rw [if_pos (by rw [hb]), if_pos hb]
  · rw [if_neg (by simp [hb]), if_neg hb]

theorem find?_ref_writeList {list : List Item} {ref : ItemRef} {item : Item} {iid : String}
    (crit : Option Item) (pid : Option String) (w : Option Rat)
    (hnd : (list.map (fun x => x.id)).Nodup)
    (hfind : list.find? (matchesRef ref) = some item)
    (hiid : item.id = some iid) (r2 : ItemRef) :
    (writeList crit ref pid w list).find? (matchesRef r2)
      = (list.find? (matchesRef r2)).map
          (fun it => if it.id == some iid then wItem crit pid w it else it) := by
  rw [writeList_map crit pid w hnd hfind hiid]
  apply find?_map_of_pred_invariant
  intro x
  cases hx : (x.id == some iid) with
  | true => rw [if_pos rfl]; rfl
  | false => rw [if_neg Bool.false_ne_true]

theorem readList_cons_known {list : List Item} {aId : String} {it : Item}
    (hf : list.find? (fun x => x.id == some aId) = some it) (key : Option String) (bId : String) :
    readList list key aId bId = ((it.comparisons.getD []).find? (keyMatch key)).bind
      (fun c => ((c.measurements.getD []).find? (fun m => m.pairId == bId)).bind
        (fun m => m.weight)) := by
  unfold readList
  rw [hf]
  rfl

theorem readList_none_item {list : List Item} {aId : String} (key : Option String) (bId : String)
    (hf : list.find? (fun x => x.id == some aId) = none) : readList list key aId bId = none := by
  unfold readList
  rw [hf]
  rfl

theorem setInCmps_none_cons (pid : Option String) (w : Option Rat) (c0 : Cmp) (rest : List Cmp) :
    setInCmps none pid w (c0 :: rest) = wCmp pid w c0 :: rest := by
  rw [setInCmps_eq]
  unfold updFirst
  rw [if_pos (show cmpPred none c0 = true from rfl)]

theorem find?_keyMatch_none_cons (x : Cmp) (xs : List Cmp) :
    (x :: xs).find? (keyMatch none) = some x := by
  rw [find?_cons_eq]
  rfl

theorem keyMatch_some (cid : String) (c : Cmp) :
    keyMatch (some cid) c = (c.criterionId == some cid) := rfl

theorem find?_setSlot {ms : List Measurement} (hmsnd : (ms.map (fun m => m.pairId)).Nodup)
    (pidStr : String) (w : Option Rat) (b : String) :
    (setSlot (some pidStr) w ms).find? (fun m => m.pairId == b)
      = if b = pidStr then (ms.find? (fun m => m.pairId == b)).map (wSlot w)
        else ms.find? (fun m => m.pairId == b) := by
  rw [setSlot_eq, updFirst_pred_congr (wSlot w) (fun m => beq_some_some) ms]
  rw [updFirst_key_nodup (fun m : Measurement => m.pairId) (wSlot w) pidStr ms hmsnd]
  exact find?_key_map_ite (fun m : Measurement => m.pairId) (wSlot w) (fun m => rfl) pidStr b ms

theorem find?_keyMatch_setInCmps {cr : Item} {cid : String} {comps : List Cmp}
    (hcid : cr.id = some cid)
    (hcnd : (comps.map (fun c => c.criterionId)).Nodup)
    (pid : Option String) (w : Option Rat) (j : String) :
    (setInCmps (some cr) pid w comps).find? (keyMatch (some j))
      = if j = cid then (comps.find? (keyMatch (some j))).map (wCmp pid w)
        else comps.find? (keyMatch (some j)) := by
  rw [setInCmps_eq, updFirst_pred_congr (wCmp pid w) (cmpPred_eq_keyMatch_some hcid) comps]
  rw [updFirst_pred_congr (wCmp pid w) (keyMatch_some cid) comps]
  rw [updFirst_key_nodup (fun c : Cmp => c.criterionId) (wCmp pid w) (some cid) comps hcnd]
  rw [find?_pred_congr (keyMatch_some j)]
  have h := find?_key_map_ite (fun c : Cmp => c.criterionId) (wCmp pid w)
    (fun c => rfl) (some cid) (some j) comps
  rw [h]
  by_cases hj : j = cid
  · rw [if_pos (by rw [hj]), if_pos hj, find?_pred_congr (keyMatch_some j)]
  · rw [if_neg (by simp [hj]), if_neg hj, find?_pred_congr (keyMatch_some j)]

/-- What a criteria-dimension write does to every read coordinate: the
addressed slot now stores w, everything else reads as before. -/
theorem readList_writeList_none {cs : List Item} {ref : ItemRef} {item : Item}
    {iid pidStr : String} {c0 : Cmp} {ms : List Measurement} {m0 : Measurement} {w : Option Rat}
    (hnd : (cs.map (fun x => x.id)).Nodup)
    (hfind : cs.find? (matchesRef ref) = some item)
    (hiid : item.id = some iid)
    (hcomp : item.comparisons = some [c0])
    (hms : c0.measurements = some ms)
    (hmsnd : (ms.map (fun m => m.pairId)).Nodup)
    (hslot : ms.find? (fun m => m.pairId == pidStr) = some m0) :
    ∀ a b : String, readList (writeList none ref (some pidStr) w cs) none a b
      = if a = iid ∧ b = pidStr then w else readList cs none a b := by
  intro a b
  have hitemmem : item ∈ cs := List.mem_of_find?_eq_some hfind
  have hfw := find?_id_writeList none (some pidStr) w hnd hfind hiid a
  by_cases ha : a = iid
  · have hfid : cs.find? (fun it => it.id == some a) = some item := by
      rw [ha]
      exact find?_by_id_of_mem hnd hitemmem hiid
    rw [if_pos ha, hfid] at hfw
    simp only [Option.map_some'] at hfw
    rw [readList_cons_known hfw none b]
    have hwc : (wItem none (some pidStr) w item).comparisons.getD []
        = [wCmp (some pidStr) w c0] := by
      show (some (setInCmps none (some pidStr) w (item.comparisons.getD []))).getD []
        = [wCmp (some pidStr) w c0]
      rw [hcomp]
      simp only [Option.getD_some]
      exact setInCmps_none_cons (some pidStr) w c0 []
    rw [hwc, find?_keyMatch_none_cons]
    simp only [Option.some_bind]
    have hwm : (wCmp (some pidStr) w c0).measurements.getD [] = setSlot (some pidStr) w ms := by
      show (some (setSlot (some pidStr) w (c0.measurements.getD []))).getD []
        = setSlot (some pidStr) w ms
      rw [hms]
      simp only [Option.getD_some]
    rw [hwm, find?_setSlot hmsnd pidStr w b]
    by_cases hb : b = pidStr
    · have hslotb : ms.find? (fun m => m.pairId == b) = some m0 := by
        rw [hb]
        exact hslot
      rw [if_pos hb, if_pos ⟨ha, hb⟩, hslotb]
      rfl
    · rw [if_neg hb, if_neg (fun hcon => hb hcon.2)]
      rw [readList_cons_known hfid none b]
      rw [hcomp]
      simp only [Option.getD_some]
      rw [find?_keyMatch_none_cons]
      simp only [Option.some_bind]
      rw [hms]
      rfl
  · rw [if_neg ha] at hfw
    rw [if_neg (fun hcon => ha hcon.1)]
    cases hfa : cs.find? (fun it => it.id == some a) with
    | none =>
      rw [hfa] at hfw
      rw [readList_none_item none b hfw, readList_none_item none b hfa]
    | some it =>
      rw [hfa] at hfw
      rw [readList_cons_known hfw none b, readList_cons_known hfa none b]

/-- What an alternatives-dimension write does to every read coordinate. -/
theorem readList_writeList_some {alts : List Item} {cr : Item} {cid : String} {ref : ItemRef}
    {item : Item} {iid pidStr : String} {comps : List Cmp} {cmp : Cmp} {ms : List Measurement}
    {m0 : Measurement} {w : Option Rat}
    (hnd : (alts.map (fun x => x.id)).Nodup)
    (hfind : alts.find? (matchesRef ref) = some item)
    (hiid : item.id = some iid)
    (hcid : cr.id = some cid)
    (hcomp : item.comparisons = some comps)
    (hcnd : (comps.map (fun c => c.criterionId)).Nodup)
    (hcfind : comps.find? (keyMatch (some cid)) = some cmp)
    (hms : cmp.measurements = some ms)
    (hmsnd : (ms.map (fun m => m.pairId)).Nodup)
    (hslot : ms.find? (fun m => m.pairId == pidStr) = some m0) :
    ∀ (j a b : String), readList (writeList (some cr) ref (some pidStr) w alts) (some j) a b
      = if j = cid ∧ a = iid ∧ b = pidStr then w else readList alts (some j) a b := by
  intro j a b
  have hitemmem : item ∈ alts := List.mem_of_find?_eq_some hfind
  have hfw := find?_id_writeList (some cr) (some pidStr) w hnd hfind hiid a
  by_cases ha : a = iid
  · have hfid : alts.find? (fun it => it.id == some a) = some item := by
      rw [ha]
      exact find?_by_id_of_mem hnd hitemmem hiid
    rw [if_pos ha, hfid] at hfw
    simp only [Option.map_some'] at hfw
    rw [readList_cons_known hfw (some j) b]
    have hwc : (wItem (some cr) (some pidStr) w item).comparisons.getD []
        = setInCmps (some cr) (some pidStr) w comps := by
      show (some (setInCmps (some cr) (some pidStr) w (item.comparisons.getD []))).getD []
        = setInCmps (some cr) (some pidStr) w comps
      rw [hcomp]
      simp only [Option.getD_some]
    rw [hwc, find?_keyMatch_setInCmps hcid hcnd (some pidStr) w j]
    by_cases hj : j = cid
    · have hcfindj : comps.find? (keyMatch (some j)) = some cmp := by
        rw [hj]
        exact hcfind
      rw [if_pos hj, hcfindj]
      simp only [Option.map_some', Option.some_bind]
      have hwm : (wCmp (some pidStr) w cmp).measurements.getD [] = setSlot (some pidStr) w ms := by
        show (some (setSlot (some pidStr) w (cmp.measurements.getD []))).getD []
          = setSlot (some pidStr) w ms
        rw [hms]
        simp only [Option.getD_some]
      rw [hwm, find?_setSlot hmsnd pidStr w b]
      by_cases hb : b = pidStr
      · have hslotb : ms.find? (fun m => m.pairId == b) = some m0 := by
          rw [hb]
          exact hslot
        rw [if_pos hb, if_pos ⟨hj, ha, hb⟩, hslotb]
        rfl
      · rw [if_neg hb, if_neg (fun hcon => hb hcon.2.2)]
        rw [readList_cons_known hfid (some j) b, hcomp]
        simp only [Option.getD_some]
        rw [hcfindj]
        simp only [Option.some_bind]
        rw [hms]
        rfl
    · rw [if_neg hj, if_neg (fun hcon => hj hcon.1)]
      rw [readList_cons_known hfid (some j) b, hcomp]
      simp only [Option.getD_some]
  · rw [if_neg ha] at hfw
    rw [if_neg (fun hcon => ha hcon.2.1)]
    cases hfa : alts.find? (fun it => it.id == some a) with
    | none =>
      rw [hfa] at hfw
      rw [readList_none_item (some j) b hfw, readList_none_item (some j) b hfa]
    | some it =>
      rw [hfa] at hfw
      rw [readList_cons_known hfw (some j) b, readList_cons_known hfa (some j) b]

/-! #### the write path preserves the canonical structure -/

theorem all_pred_congr {α : Type _} {p q : α → Bool} :
    ∀ {l : List α}, (∀ x ∈ l, p x = q x) → l.all p = l.all q := by
  intro l
  induction l with
  | nil => intro _; rfl
  | cons x xs ih =>
    intro h
    simp only [List.all_cons, h x (List.mem_cons_self x xs),
      ih (fun y hy => h y (List.mem_cons_of_mem x hy))]

theorem mem_updFirst {α : Type _} (p : α → Bool) (g : α → α) :
    ∀ {l : List α} {y : α}, y ∈ updFirst p g l → y ∈ l ∨ ∃ x, x ∈ l ∧ y = g x := by
  intro l
  induction l with
  | nil => intro y hy; cases hy
  | cons x xs ih =>
    intro y hy
    unfold updFirst at hy
    cases hx : p x with
    | true =>
      rw [hx, if_pos rfl] at hy
      cases hy with
      | head => exact .inr ⟨x, List.mem_cons_self x xs, rfl⟩
      | tail _ hm => exact .inl (List.mem_cons_of_mem x hm)
    | false =>
      rw [hx, if_neg Bool.false_ne_true] at hy
      cases hy with
      | head => exact .inl (List.mem_cons_self x xs)
      | tail _ hm =>
        cases ih hm with
        | inl h1 => exact .inl (List.mem_cons_of_mem x h1)
        | inr h2 =>
          obtain ⟨z, hz, he⟩ := h2
          exact .inr ⟨z, List.mem_cons_of_mem x hz, he⟩

theorem critShape_singleton (cs : List Item) (c : Item) (c0 : Cmp)
    (hc : c.comparisons = some [c0]) :
    critShape cs c = (c0.criterionId == none &&
      (match c0.measurements with
       | none => false
       | some ms => ms.map (fun m => m.pairId) ==
           (cs.filter (fun cr => !(cr.id == c.id))).map (fun cr => cr.id.getD ""))) := by
  unfold critShape
  rw [hc]

theorem critShape_not_singleton (cs : List Item) (c : Item)
    (hc : ∀ c0 : Cmp, c.comparisons ≠ some [c0]) : critShape cs c = false := by
  unfold critShape
  cases hcc : c.comparisons with
  | none => rfl
  | some l =>
    cases l with
    | nil => rfl
    | cons c0 rest =>
      cases rest with
      | nil => exact absurd hcc (hc c0)
      | cons c1 rest2 => rfl

theorem altShape_some (cs alts : List Item) (a : Item) (comps : List Cmp)
    (hc : a.comparisons = some comps) :
    altShape cs alts a = (comps.length == cs.length && (comps.zip cs).all (fun pc =>
      pc.1.criterionId == pc.2.id &&
      (match pc.1.measurements with
       | none => false
       | some ms => ms.map (fun m => m.pairId) ==
           (alts.filter (fun al => !(al.id == a.id))).map (fun al => al.id.getD "")))) := by
  unfold altShape
  rw [hc]

theorem critShape_keys_congr {cs cs' : List Item}
    (hkeys : cs.map (fun x => x.id) = cs'.map (fun x => x.id)) (c : Item) :
    critShape cs c = critShape cs' c := by
  cases hcc : c.comparisons with
  | none =>
    rw [critShape_not_singleton cs c (by rw [hcc]; intro c0 h; cases h),
      critShape_not_singleton cs' c (by rw [hcc]; intro c0 h; cases h)]
  | some l =>
    cases l with
    | nil =>
      rw [critShape_not_singleton cs c (by rw [hcc]; intro c0 h; simp at h),
        critShape_not_singleton cs' c (by rw [hcc]; intro c0 h; simp at h)]
    | cons c0 rest =>
      cases rest with
      | nil =>
        rw [critShape_singleton cs c c0 hcc, critShape_singleton cs' c c0 hcc]
        cases hm : c0.measurements with
        | none => rfl
        | some ms0 =>
          show (c0.criterionId == none && (ms0.map (fun m => m.pairId) ==
              (cs.filter (fun cr => !(cr.id == c.id))).map (fun cr => cr.id.getD "")))
            = (c0.criterionId == none && (ms0.map (fun m => m.pairId) ==
              (cs'.filter (fun cr => !(cr.id == c.id))).map (fun cr => cr.id.getD "")))
          rw [filtered_getD_congr c.id hkeys]
      | cons c1 rest2 =>
        rw [critShape_not_singleton cs c (by rw [hcc]; intro c2 h; simp at h),
          critShape_not_singleton cs' c (by rw [hcc]; intro c2 h; simp at h)]

theorem altShape_cs_keys_congr {cs cs' alts : List Item}
    (hkeys : cs.map (fun x => x.id) = cs'.map (fun x => x.id)) (a : Item) :
    altShape cs alts a = altShape cs' alts a := by
  cases hcc : a.comparisons with
  | none =>
    unfold altShape
    rw [hcc]
  | some comps =>
    rw [altShape_some cs alts a comps hcc, altShape_some cs' alts a comps hcc]
    have hl : cs.length = cs'.length := by
      have h := congrArg List.length hkeys
      simpa using h
    rw [hl]
    congr 1
    exact zip_all_key_congr (fun x : Item => x.id)
      (fun c1 j => c1.criterionId == j &&
        (match c1.measurements with
         | none => false
         | some ms => ms.map (fun m => m.pairId) ==
             (alts.filter (fun al => !(al.id == a.id))).map (fun al => al.id.getD "")))
      comps cs cs' hkeys

theorem altShape_alts_keys_congr {cs alts alts' : List Item}
    (hkeys : alts.map (fun x => x.id) = alts'.map (fun x => x.id)) (a : Item) :
    altShape cs alts a = altShape cs alts' a := by
  cases hcc : a.comparisons with
  | none =>
    unfold altShape
    rw [hcc]
  | some comps =>
    rw [altShape_some cs alts a comps hcc, altShape_some cs alts' a comps hcc]
    congr 1
    apply all_pred_congr
    intro pc hpc
    congr 1
    cases hm : pc.1.measurements with
    | none => rfl
    | some ms =>
      show (ms.map (fun m => m.pairId) ==
          (alts.filter (fun al => !(al.id == a.id))).map (fun al => al.id.getD ""))
        = (ms.map (fun m => m.pairId) ==
          (alts'.filter (fun al => !(al.id == a.id))).map (fun al => al.id.getD ""))
      rw [filtered_getD_congr a.id hkeys]

/-- Writing a weight into a criterion item keeps the criterion skeleton. -/
theorem critShape_wItem {cs : List Item} {item : Item}
    (hsh : critShape cs item = true) (pid : Option String) (w : Option Rat) :
    critShape cs (wItem none pid w item) = true := by
  obtain ⟨c0, ms, hcomp, hcid, hms, hkeys⟩ := critShape_parts hsh
  have hwc : (wItem none pid w item).comparisons = some [wCmp pid w c0] := by
    show some (setInCmps none pid w (item.comparisons.getD [])) = some [wCmp pid w c0]
    rw [hcomp]
    simp only [Option.getD_some]
    rw [setInCmps_none_cons pid w c0 []]
  have hwm : (wCmp pid w c0).measurements = some (setSlot pid w ms) := by
    show some (setSlot pid w (c0.measurements.getD [])) = some (setSlot pid w ms)
    rw [hms]
    simp only [Option.getD_some]
  rw [critShape_singleton cs (wItem none pid w item) (wCmp pid w c0) hwc]
  show (c0.criterionId == none &&
    (match (wCmp pid w c0).measurements with
     | none => false
     | some ms2 => ms2.map (fun m => m.pairId) ==
         (cs.filter (fun cr => !(cr.id == item.id))).map (fun cr => cr.id.getD ""))) = true
  rw [hwm]
  show (c0.criterionId == none &&
    ((setSlot pid w ms).map (fun m => m.pairId) ==
      (cs.filter (fun cr => !(cr.id == item.id))).map (fun cr => cr.id.getD ""))) = true
  rw [hcid, setSlot_keys, hkeys]
  simp

theorem all_zip_updFirst {α β : Type _} (p : α → Bool) (g : α → α) (Q : α → β → Bool)
    (hQ : ∀ a b, Q a b = true → Q (g a) b = true) :
    ∀ (l : List α) (r : List β), (l.zip r).all (fun pc => Q pc.1 pc.2) = true →
      ((updFirst p g l).zip r).all (fun pc => Q pc.1 pc.2) = true := by
  intro l
  induction l with
  | nil => intro r h; exact h
  | cons x xs ih =>
    intro r h
    cases r with
    | nil =>
      rw [List.zip_nil_right]
      rfl
    | cons y ys =>
      simp only [List.zip_cons_cons, List.all_cons, Bool.and_eq_true] at h
      unfold updFirst
      cases hx : p x with
      | true =>
        rw [if_pos rfl]
        simp only [List.zip_cons_cons, List.all_cons, Bool.and_eq_true]
        exact ⟨hQ x y h.1, h.2⟩
      | false =>
        rw [if_neg Bool.false_ne_true]
        simp only [List.zip_cons_cons, List.all_cons, Bool.and_eq_true]
        exact ⟨h.1, ih ys h.2⟩

/-- Writing a weight into an alternative item keeps the alternative
skeleton. -/
theorem altShape_wItem {cs alts : List Item} {item : Item}
    (hsh : altShape cs alts item = true) (cr : Item) (pid : Option String) (w : Option Rat) :
    altShape cs alts (wItem (some cr) pid w item) = true := by
  obtain ⟨comps, hcomp, hlen, hckeys, hpt⟩ := altShape_parts hsh
  have hwc : (wItem (some cr) pid w item).comparisons
      = some (setInCmps (some cr) pid w comps) := by
    show some (setInCmps (some cr) pid w (item.comparisons.getD []))
      = some (setInCmps (some cr) pid w comps)
    rw [hcomp]
    simp only [Option.getD_some]
  rw [altShape_some cs alts (wItem (some cr) pid w item)
    (setInCmps (some cr) pid w comps) hwc]
  show ((setInCmps (some cr) pid w comps).length == cs.length &&
    ((setInCmps (some cr) pid w comps).zip cs).all (fun pc =>
      pc.1.criterionId == pc.2.id &&
      (match pc.1.measurements with
       | none => false
       | some ms => ms.map (fun m => m.pairId) ==
           (alts.filter (fun al => !(al.id == item.id))).map (fun al => al.id.getD "")))) = true
  rw [Bool.and_eq_true]
  constructor
  · rw [setInCmps_eq, updFirst_length, hlen]
    exact beq_self_eq_true _
  · rw [setInCmps_eq]
    have hQ : ∀ (c : Cmp) (it2 : Item),
        (c.criterionId == it2.id &&
          (match c.measurements with
           | none => false
           | some ms => ms.map (fun m => m.pairId) ==
               (alts.filter (fun al => !(al.id == item.id))).map (fun al => al.id.getD ""))) = true →
        ((wCmp pid w c).criterionId == it2.id &&
          (match (wCmp pid w c).measurements with
           | none => false
           | some ms => ms.map (fun m => m.pairId) ==
               (alts.filter (fun al => !(al.id == item.id))).map (fun al => al.id.getD ""))) = true := by
      intro c it2 hq
      rw [Bool.and_eq_true] at hq
      obtain ⟨h1, h2⟩ := hq
      rw [Bool.and_eq_true, wCmp_criterionId]
      refine ⟨h1, ?_⟩
      show ((setSlot pid w (c.measurements.getD [])).map (fun m => m.pairId) ==
        (alts.filter (fun al => !(al.id == item.id))).map (fun al => al.id.getD "")) = true
      rw [setSlot_keys]
      cases hm : c.measurements with
      | none =>
        rw [hm] at h2
        exact absurd h2 (by simp)
      | some msc =>
        rw [hm] at h2
        exact h2
    have hall : (comps.zip cs).all (fun pc =>
        pc.1.criterionId == pc.2.id &&
        (match pc.1.measurements with
         | none => false
         | some ms => ms.map (fun m => m.pairId) ==
             (alts.filter (fun al => !(al.id == item.id))).map (fun al => al.id.getD ""))) = true := by
      apply List.all_eq_true.mpr
      intro pc hpc
      obtain ⟨h1, ms2, hm2, hk2⟩ := hpt pc hpc
      rw [Bool.and_eq_true]
      refine ⟨by rw [h1]; exact beq_self_eq_true _, ?_⟩
      rw [hm2]
      show (ms2.map (fun m => m.pairId) ==
        (alts.filter (fun al => !(al.id == item.id))).map (fun al => al.id.getD "")) = true
      rw [hk2]
      exact beq_self_eq_true _
    exact all_zip_updFirst (cmpPred (some cr)) (wCmp pid w)
      (fun c1 it2 => c1.criterionId == it2.id &&
        (match c1.measurements with
         | none => false
         | some ms => ms.map (fun m => m.pairId) ==
             (alts.filter (fun al => !(al.id == item.id))).map (fun al => al.id.getD "")))
      hQ comps cs hall

/-- A criteria-dimension write preserves the canonical structure. -/
theorem goodStruct_write_crit {e : Decision} (hg : goodStruct e = true)
    (ref : ItemRef) (pid : Option String) (w : Option Rat) :
    goodStruct (writeWeight none ref pid w e) = true := by
  obtain ⟨hid, hgoal, cs, alts, hc, ha, hct, hcnd, hat, hand, hcsh, hash⟩ := goodStruct_parts hg
  have hkeys : (writeList none ref pid w cs).map (fun x => x.id) = cs.map (fun x => x.id) :=
    writeList_keys none ref pid w cs
  apply @goodStruct_build (writeWeight none ref pid w e) (writeList none ref pid w cs) alts
  · exact hid
  · exact hgoal
  · show some (writeList none ref pid w (e.criteria.getD [])) = _
    rw [hc]
    simp only [Option.getD_some]
  · exact ha
  · exact truthy_of_keys_eq hkeys.symm hct
  · rw [hkeys]
    exact hcnd
  · exact hat
  · exact hand
  · intro c' hc'
    rw [critShape_keys_congr hkeys c']
    rw [writeList_eq] at hc'
    cases mem_updFirst (matchesRef ref) (wItem none pid w) hc' with
    | inl hm => exact hcsh c' hm
    | inr hm =>
      obtain ⟨c, hcm, he⟩ := hm
      rw [he]
      exact critShape_wItem (hcsh c hcm) pid w
  · intro a ha2
    rw [altShape_cs_keys_congr hkeys a]
    exact hash a ha2

/-- An alternatives-dimension write preserves the canonical structure. -/
theorem goodStruct_write_alt {e : Decision} (hg : goodStruct e = true)
    (cr : Item) (ref : ItemRef) (pid : Option String) (w : Option Rat) :
    goodStruct (writeWeight (some cr) ref pid w e) = true := by
  obtain ⟨hid, hgoal, cs, alts, hc, ha, hct, hcnd, hat, hand, hcsh, hash⟩ := goodStruct_parts hg
  have hkeys : (writeList (some cr) ref pid w alts).map (fun x => x.id)
      = alts.map (fun x => x.id) :=
    writeList_keys (some cr) ref pid w alts
  apply @goodStruct_build (writeWeight (some cr) ref pid w e) cs (writeList (some cr) ref pid w alts)
  · exact hid
  · exact hgoal
  · exact hc
  · show some (writeList (some cr) ref pid w (e.alternatives.getD [])) = _
    rw [ha]
    simp only [Option.getD_some]
  · exact hct
  · exact hcnd
  · exact truthy_of_keys_eq hkeys.symm hat
  · rw [hkeys]
    exact hand
  · exact hcsh
  · intro a' ha'
    rw [altShape_alts_keys_congr hkeys a']
    rw [writeList_eq] at ha'
    cases mem_updFirst (matchesRef ref) (wItem (some cr) pid w) ha' with
    | inl hm => exact hash a' hm
    | inr hm =>
      obtain ⟨a, ham, he⟩ := hm
      rw [he]
      exact altShape_wItem (hash a ham) cr pid w

/-! #### compare: the success path under the canonical structure -/

theorem find?_cmpPred_none_cons (c0 : Cmp) (rest : List Cmp) :
    (c0 :: rest).find? (cmpPred none) = some c0 := by
  rw [find?_cons_eq]
  rfl

theorem weight_ne_zero {w : Rat} (hwval : intensityVals.contains w = true) :
    (w == 0) = false := by
  have hmem : w ∈ intensityVals := List.elem_iff.mp hwval
  have hne : ∀ x ∈ intensityVals, x ≠ (0 : Rat) := by decide
  exact beq_eq_false_iff_ne.mpr (hne w hmem)

/-- Decision-level form of the criteria-dimension write/read lemma. -/
theorem readW_write_crit {e : Decision} {cs : List Item} {ref : ItemRef} {item : Item}
    {iid pidStr : String} {c0 : Cmp} {ms : List Measurement} {m0 : Measurement} {w : Option Rat}
    (hc : e.criteria = some cs)
    (hnd : (cs.map (fun x => x.id)).Nodup)
    (hfind : cs.find? (matchesRef ref) = some item)
    (hiid : item.id = some iid)
    (hcomp : item.comparisons = some [c0])
    (hms : c0.measurements = some ms)
    (hmsnd : (ms.map (fun m => m.pairId)).Nodup)
    (hslot : ms.find? (fun m => m.pairId == pidStr) = some m0) :
    ∀ (key' : Option String) (a b : String),
      readW (writeWeight none ref (some pidStr) w e) key' a b
        = if key' = (none : Option String) ∧ a = iid ∧ b = pidStr then w
          else readW e key' a b := by
  intro key' a b
  cases key' with
  | none =>
    show readList ((writeWeight none ref (some pidStr) w e).criteria.getD []) none a b = _
    have hcrit2 : (writeWeight none ref (some pidStr) w e).criteria
        = some (writeList none ref (some pidStr) w cs) := by
      show some (writeList none ref (some pidStr) w (e.criteria.getD []))
        = some (writeList none ref (some pidStr) w cs)
      rw [hc]
      simp only [Option.getD_some]
    rw [hcrit2]
    simp only [Option.getD_some]
    rw [readList_writeList_none hnd hfind hiid hcomp hms hmsnd hslot a b]
    by_cases hcond : a = iid ∧ b = pidStr
    · simp [hcond.1, hcond.2]
    · rw [if_neg hcond, if_neg (fun hx => hcond ⟨hx.2.1, hx.2.2⟩)]
      show readList cs none a b = readList (e.criteria.getD []) none a b
      rw [hc]
      simp only [Option.getD_some]
  | some j =>
    have halts : (writeWeight none ref (some pidStr) w e).alternatives = e.alternatives := rfl
    show readList ((writeWeight none ref (some pidStr) w e).alternatives.getD []) (some j) a b
      = _
    rw [halts, if_neg (fun hx => Option.noConfusion hx.1)]
    rfl

/-- Decision-level form of the alternatives-dimension write/read lemma. -/
theorem readW_write_alt {e : Decision} {alts : List Item} {cr : Item} {cid : String}
    {ref : ItemRef} {item : Item} {iid pidStr : String} {comps : List Cmp} {cmp : Cmp}
    {ms : List Measurement} {m0 : Measurement} {w : Option Rat}
    (ha : e.alternatives = some alts)
    (hnd : (alts.map (fun x => x.id)).Nodup)
    (hfind : alts.find? (matchesRef ref) = some item)
    (hiid : item.id = some iid)
    (hcid : cr.id = some cid)
    (hcomp : item.comparisons = some comps)
    (hcnd : (comps.map (fun c => c.criterionId)).Nodup)
    (hcfind : comps.find? (keyMatch (some cid)) = some cmp)
    (hms : cmp.measurements = some ms)
    (hmsnd : (ms.map (fun m => m.pairId)).Nodup)
    (hslot : ms.find? (fun m => m.pairId == pidStr) = some m0) :
    ∀ (key' : Option String) (a b : String),
      readW (writeWeight (some cr) ref (some pidStr) w e) key' a b
        = if key' = some cid ∧ a = iid ∧ b = pidStr then w
          else readW e key' a b := by
  intro key' a b
  cases key' with
  | none =>
    have hcrit2 : (writeWeight (some cr) ref (some pidStr) w e).criteria = e.criteria := rfl
    show readList ((writeWeight (some cr) ref (some pidStr) w e).criteria.getD []) none a b = _
    rw [hcrit2, if_neg (fun hx => Option.noConfusion hx.1)]
    rfl
  | some j =>
    show readList ((writeWeight (some cr) ref (some pidStr) w e).alternatives.getD [])
      (some j) a b = _
    have halts2 : (writeWeight (some cr) ref (some pidStr) w e).alternatives
        = some (writeList (some cr) ref (some pidStr) w alts) := by
      show some (writeList (some cr) ref (some pidStr) w (e.alternatives.getD []))
        = some (writeList (some cr) ref (some pidStr) w alts)
      rw [ha]
      simp only [Option.getD_some]
    rw [halts2]
    simp only [Option.getD_some]
    rw [readList_writeList_some hnd hfind hiid hcid hcomp hcnd hcfind hms hmsnd hslot j a b]
    by_cases hcond : j = cid ∧ a = iid ∧ b = pidStr
    · simp [hcond.1, hcond.2.1, hcond.2.2]
    · rw [if_neg hcond, if_neg (fun hx => hcond ⟨by injection hx.1, hx.2⟩)]
      show readList alts (some j) a b = readList (e.alternatives.getD []) (some j) a b
      rw [ha]
      simp only [Option.getD_some]

/-- Criteria-mode compare on a canonical decision with resolvable distinct
item and pair and an in-scale weight: the call succeeds and the state
change is exactly the forward write plus, unless the weight is 1, the
reciprocal write. -/
theorem compare_spec_none (uid : Nat → String) (n : Nat) {args : CompareArgs} {e : Decision}
    {cs : List Item} {item pair : Item} {iid pidStr : String}
    (hg : goodStruct e = true)
    (hc : e.criteria = some cs)
    (hcrit : args.criterion = none)
    (hitem : cs.find? (matchesRef args.item) = some item)
    (hpair : cs.find? (matchesRef args.pair) = some pair)
    (hiid : item.id = some iid) (hpid : pair.id = some pidStr)
    (hwval : intensityVals.contains args.weight = true)
    (hne : iid ≠ pidStr) :
    ∃ d', compare uid n args e = (.ok (), (d', n)) ∧ goodStruct d' = true ∧
      ∀ (key' : Option String) (a b : String), readW d' key' a b
        = if key' = (none : Option String) ∧ a = iid ∧ b = pidStr then some args.weight
          else if args.weight ≠ 1 ∧ key' = (none : Option String) ∧ a = pidStr ∧ b = iid
            then some 1
          else readW e key' a b := by
  obtain ⟨hdid, hdgoal, cs2, alts2, hc2, ha2, hct, hcnd, hat, hand, hcsh, hash⟩ :=
    goodStruct_parts hg
  rw [hc] at hc2
  injection hc2 with hcseq
  rw [← hcseq] at hct hcnd hcsh hash
  have hfill : fill uid n e = some (e, n) := goodStruct_fillFix uid n hg
  have hitemmem : item ∈ cs := List.mem_of_find?_eq_some hitem
  have hpairmem : pair ∈ cs := List.mem_of_find?_eq_some hpair
  obtain ⟨c0, ms, hicomp, hicid, hims, hikeys⟩ := critShape_parts (hcsh item hitemmem)
  obtain ⟨p0, pms, hpcomp, hpcid, hpms, hpkeys⟩ := critShape_parts (hcsh pair hpairmem)
  have hcsome : ∀ x ∈ cs, x.id.isSome = true := fun x hx => truthyS_isSome (hct x hx)
  have hidne : item.id ≠ pair.id := by
    rw [hiid, hpid]
    intro hcon
    exact hne (by injection hcon)
  have hmsnd : (ms.map (fun m => m.pairId)).Nodup := by
    rw [hikeys]
    exact nodup_getD_ids (fun x hx => hcsome x (List.mem_of_mem_filter hx))
      (nodup_filter_ids _ hcnd)
  have hpmsnd : (pms.map (fun m => m.pairId)).Nodup := by
    rw [hpkeys]
    exact nodup_getD_ids (fun x hx => hcsome x (List.mem_of_mem_filter hx))
      (nodup_filter_ids _ hcnd)
  have hfwd0 : (ms.find? (fun m => m.pairId == pidStr)).isSome = true :=
    slot_exists_of_peer hikeys hpairmem hpid (fun hcon => hidne hcon.symm)
  obtain ⟨m0, hfwd⟩ := Option.isSome_iff_exists.mp hfwd0
  have hfwdS : ms.find? (fun m => some m.pairId == some pidStr) = some m0 := by
    rw [find?_pred_congr (fun m => rfl) ms]
    exact hfwd
  have hrev0 : (pms.find? (fun m => m.pairId == iid)).isSome = true :=
    slot_exists_of_peer hpkeys hitemmem hiid hidne
  obtain ⟨m1, hrev⟩ := Option.isSome_iff_exists.mp hrev0
  have hrevS : pms.find? (fun m => some m.pairId == some iid) = some m1 := by
    rw [find?_pred_congr (fun m => rfl) pms]
    exact hrev
  have hw0 : (args.weight == 0) = false := weight_ne_zero hwval
  have hbad : (!(!(args.weight == 0) && intensityVals.contains args.weight)) = false := by
    rw [hw0, hwval]
    rfl
  have hg1 : goodStruct (writeWeight none args.item (some pidStr) (some args.weight) e)
      = true :=
    goodStruct_write_crit hg args.item (some pidStr) (some args.weight)
  have hread1 := @readW_write_crit e cs args.item item iid pidStr c0 ms m0
    (some args.weight) hc hcnd hitem hiid hicomp hims hmsnd hfwd
  by_cases hw1 : args.weight = 1
  · have hW1 : (args.weight == 1) = true := by rw [hw1]; exact beq_self_eq_true _
    refine ⟨writeWeight none args.item (some pidStr) (some args.weight) e, ?_, hg1, ?_⟩
    · simp only [compare, hfill, hc, ha2, Option.getD_some, hcrit, hitem, hpair, hbad,
        if_neg Bool.false_ne_true, hicomp, find?_cmpPred_none_cons, hims, hpid, hfwdS, hW1,
        if_pos rfl, if_true, if_false]
    · intro key' a b
      rw [hread1 key' a b]
      by_cases h1 : key' = (none : Option String) ∧ a = iid ∧ b = pidStr
      · rw [if_pos h1, if_pos h1]
      · rw [if_neg h1, if_neg h1, if_neg (fun hcon => hcon.1 hw1)]
  · have hW1 : (args.weight == 1) = false := beq_eq_false_iff_ne.mpr hw1
    have hwl1 : (writeWeight none args.item (some pidStr) (some args.weight) e).criteria
        = some (writeList none args.item (some pidStr) (some args.weight) cs) := by
      show some (writeList none args.item (some pidStr) (some args.weight)
        (e.criteria.getD []))
        = some (writeList none args.item (some pidStr) (some args.weight) cs)
      rw [hc]
      simp only [Option.getD_some]
    have hpairne : (pair.id == some iid) = false := by
      rw [hpid]
      simp [Ne.symm hne]
    have hfpair1 : (writeList none args.item (some pidStr) (some args.weight) cs).find?
        (matchesRef args.pair) = some pair := by
      rw [find?_ref_writeList none (some pidStr) (some args.weight) hcnd hitem hiid args.pair,
        hpair]
      simp only [Option.map_some']
      rw [if_bool_neg hpairne]
    have hnd1 : ((writeList none args.item (some pidStr) (some args.weight) cs).map
        (fun x => x.id)).Nodup := by
      rw [writeList_keys]
      exact hcnd
    have hg2 : goodStruct (writeWeight none args.pair (some iid) (some 1)
        (writeWeight none args.item (some pidStr) (some args.weight) e)) = true :=
      goodStruct_write_crit hg1 args.pair (some iid) (some 1)
    have hread2 := @readW_write_crit
      (writeWeight none args.item (some pidStr) (some args.weight) e)
      (writeList none args.item (some pidStr) (some args.weight) cs)
      args.pair pair pidStr iid p0 pms m1 (some 1)
      hwl1 hnd1 hfpair1 hpid hpcomp hpms hpmsnd hrev
    refine ⟨writeWeight none args.pair (some iid) (some 1)
      (writeWeight none args.item (some pidStr) (some args.weight) e), ?_, hg2, ?_⟩
    · simp only [compare, hfill, hc, ha2, Option.getD_some, hcrit, hitem, hpair, hbad,
        if_neg Bool.false_ne_true, hicomp, find?_cmpPred_none_cons, hims, hpid, hfwdS, hW1,
        hwl1, hfpair1, hpcomp, hpms, hiid, hrevS, if_true, if_false]
    · intro key' a b
      rw [hread2 key' a b, hread1 key' a b]
      by_cases h2 : key' = (none : Option String) ∧ a = pidStr ∧ b = iid
      · have hn1 : ¬(key' = (none : Option String) ∧ a = iid ∧ b = pidStr) := by
          intro hcon
          exact hne (by rw [← hcon.2.1, h2.2.1])
        rw [if_pos h2, if_neg hn1, if_pos ⟨hw1, h2⟩]
      · rw [if_neg h2]
        by_cases h1 : key' = (none : Option String) ∧ a = iid ∧ b = pidStr
        · rw [if_pos h1, if_pos h1]
        · rw [if_neg h1, if_neg h1, if_neg (fun hcon => h2 hcon.2)]

/-- Alternatives-mode compare on a canonical decision: same success and
effect characterization, in the dimension of the resolved criterion. -/
theorem compare_spec_some (uid : Nat → String) (n : Nat) {args : CompareArgs} {e : Decision}
    {cs alts : List Item} {cref : ItemRef} {cr item pair : Item} {cid iid pidStr : String}
    (hg : goodStruct e = true)
    (hc : e.criteria = some cs) (ha : e.alternatives = some alts)
    (hcrit : args.criterion = some cref)
    (hcrfind : cs.find? (matchesRef cref) = some cr)
    (hcid : cr.id = some cid)
    (hitem : alts.find? (matchesRef args.item) = some item)
    (hpair : alts.find? (matchesRef args.pair) = some pair)
    (hiid : item.id = some iid) (hpid : pair.id = some pidStr)
    (hwval : intensityVals.contains args.weight = true)
    (hne : iid ≠ pidStr) :
    ∃ d', compare uid n args e = (.ok (), (d', n)) ∧ goodStruct d' = true ∧
      ∀ (key' : Option String) (a b : String), readW d' key' a b
        = if key' = some cid ∧ a = iid ∧ b = pidStr then some args.weight
          else if args.weight ≠ 1 ∧ key' = some cid ∧ a = pidStr ∧ b = iid
            then some 1
          else readW e key' a b := by
  obtain ⟨hdid, hdgoal, cs2, alts2, hc2, ha2, hct, hcnd, hat, hand, hcsh, hash⟩ :=
    goodStruct_parts hg
  rw [hc] at hc2
  injection hc2 with hcseq
  rw [ha] at ha2
  injection ha2 with haseq
  rw [← hcseq] at hct hcnd hcsh hash
  rw [← haseq] at hat hand hash
  have hfill : fill uid n e = some (e, n) := goodStruct_fillFix uid n hg
  have hcrmem : cr ∈ cs := List.mem_of_find?_eq_some hcrfind
  have hitemmem : item ∈ alts := List.mem_of_find?_eq_some hitem
  have hpairmem : pair ∈ alts := List.mem_of_find?_eq_some hpair
  obtain ⟨icomps, hicomp, hilen, hikmap, hipt⟩ := altShape_parts (hash item hitemmem)
  obtain ⟨pcomps, hpcomp, hplen, hpkmap, hppt⟩ := altShape_parts (hash pair hpairmem)
  have hasome : ∀ x ∈ alts, x.id.isSome = true := fun x hx => truthyS_isSome (hat x hx)
  have hidne : item.id ≠ pair.id := by
    rw [hiid, hpid]
    intro hcon
    exact hne (by injection hcon)
  have hicnd : (icomps.map (fun c => c.criterionId)).Nodup := by
    rw [hikmap]
    exact hcnd
  have hpcnd : (pcomps.map (fun c => c.criterionId)).Nodup := by
    rw [hpkmap]
    exact hcnd
  obtain ⟨cmpI, hzipI⟩ := mem_zip_of_mem_right hilen cr hcrmem
  obtain ⟨cmpP, hzipP⟩ := mem_zip_of_mem_right hplen cr hcrmem
  have hfcmpI : icomps.find? (fun c2 => c2.criterionId == cr.id) = some cmpI :=
    find?_of_zip_aligned (fun c2 : Cmp => c2.criterionId) (fun x : Item => x.id)
      icomps cs hikmap hcnd (cmpI, cr) hzipI
  have hfcmpP : pcomps.find? (fun c2 => c2.criterionId == cr.id) = some cmpP :=
    find?_of_zip_aligned (fun c2 : Cmp => c2.criterionId) (fun x : Item => x.id)
      pcomps cs hpkmap hcnd (cmpP, cr) hzipP
  have hpredc : ∀ c2 : Cmp, (c2.criterionId == some cid) = (c2.criterionId == cr.id) := by
    intro c2
    rw [hcid]
  have hfkmI : icomps.find? (keyMatch (some cid)) = some cmpI := by
    rw [find?_pred_congr (keyMatch_some cid) icomps, find?_pred_congr hpredc icomps]
    exact hfcmpI
  have hfkmP : pcomps.find? (keyMatch (some cid)) = some cmpP := by
    rw [find?_pred_congr (keyMatch_some cid) pcomps, find?_pred_congr hpredc pcomps]
    exact hfcmpP
  have hfcpI : icomps.find? (cmpPred (some cr)) = some cmpI := by
    rw [find?_pred_congr (cmpPred_eq_keyMatch_some hcid) icomps]
    exact hfkmI
  have hfcpP : pcomps.find? (cmpPred (some cr)) = some cmpP := by
    rw [find?_pred_congr (cmpPred_eq_keyMatch_some hcid) pcomps]
    exact hfkmP
  obtain ⟨_, ms, hims0, hikeys0⟩ := hipt (cmpI, cr) hzipI
  obtain ⟨_, pms, hpms0, hpkeys0⟩ := hppt (cmpP, cr) hzipP
  have hims : cmpI.measurements = some ms := hims0
  have hpms : cmpP.measurements = some pms := hpms0
  have hikeys : ms.map (fun m => m.pairId)
      = (alts.filter (fun al => !(al.id == item.id))).map (fun al => al.id.getD "") := hikeys0
  have hpkeys : pms.map (fun m => m.pairId)
      = (alts.filter (fun al => !(al.id == pair.id))).map (fun al => al.id.getD "") := hpkeys0
  have hmsnd : (ms.map (fun m => m.pairId)).Nodup := by
    rw [hikeys]
    exact nodup_getD_ids (fun x hx => hasome x (List.mem_of_mem_filter hx))
      (nodup_filter_ids _ hand)
  have hpmsnd : (pms.map (fun m => m.pairId)).Nodup := by
    rw [hpkeys]
    exact nodup_getD_ids (fun x hx => hasome x (List.mem_of_mem_filter hx))
      (nodup_filter_ids _ hand)
  have hfwd0 : (ms.find? (fun m => m.pairId == pidStr)).isSome = true :=
    slot_exists_of_peer hikeys hpairmem hpid (fun hcon => hidne hcon.symm)
  obtain ⟨m0, hfwd⟩ := Option.isSome_iff_exists.mp hfwd0
  have hfwdS : ms.find? (fun m => some m.pairId == some pidStr) = some m0 := by
    rw [find?_pred_congr (fun m => rfl) ms]
    exact hfwd
  have hrev0 : (pms.find? (fun m => m.pairId == iid)).isSome = true :=
    slot_exists_of_peer hpkeys hitemmem hiid hidne
  obtain ⟨m1, hrev⟩ := Option.isSome_iff_exists.mp hrev0
  have hrevS : pms.find? (fun m => some m.pairId == some iid) = some m1 := by
    rw [find?_pred_congr (fun m => rfl) pms]
    exact hrev
  have hw0 : (args.weight == 0) = false := weight_ne_zero hwval
  have hbad : (!(!(args.weight == 0) && intensityVals.contains args.weight)) = false := by
    rw [hw0, hwval]
    rfl
  have hg1 : goodStruct (writeWeight (some cr) args.item (some pidStr) (some args.weight) e)
      = true :=
    goodStruct_write_alt hg cr args.item (some pidStr) (some args.weight)
  have hread1 := @readW_write_alt e alts cr cid args.item item iid pidStr icomps cmpI ms m0
    (some args.weight) ha hand hitem hiid hcid hicomp hicnd hfkmI hims hmsnd hfwd
  by_cases hw1 : args.weight = 1
  · have hW1 : (args.weight == 1) = true := by rw [hw1]; exact beq_self_eq_true _
    refine ⟨writeWeight (some cr) args.item (some pidStr) (some args.weight) e, ?_, hg1, ?_⟩
    · simp only [compare, hfill, hc, ha, Option.getD_some, hcrit, hcrfind, hitem, hpair,
        hbad, if_neg Bool.false_ne_true, hicomp, hfcpI, hims, hpid, hfwdS, hW1,
        if_pos rfl, if_true, if_false]
    · intro key' a b
      rw [hread1 key' a b]
      by_cases h1 : key' = some cid ∧ a = iid ∧ b = pidStr
      · rw [if_pos h1, if_pos h1]
      · rw [if_neg h1, if_neg h1, if_neg (fun hcon => hcon.1 hw1)]
  · have hW1 : (args.weight == 1) = false := beq_eq_false_iff_ne.mpr hw1
    have hwl1 : (writeWeight (some cr) args.item (some pidStr) (some args.weight) e).alternatives
        = some (writeList (some cr) args.item (some pidStr) (some args.weight) alts) := by
      show some (writeList (some cr) args.item (some pidStr) (some args.weight)
        (e.alternatives.getD []))
        = some (writeList (some cr) args.item (some pidStr) (some args.weight) alts)
      rw [ha]
      simp only [Option.getD_some]
    have hpairne : (pair.id == some iid) = false := by
      rw [hpid]
      simp [Ne.symm hne]
    have hfpair1 : (writeList (some cr) args.item (some pidStr) (some args.weight) alts).find?
        (matchesRef args.pair) = some pair := by
      rw [find?_ref_writeList (some cr) (some pidStr) (some args.weight) hand hitem hiid
        args.pair, hpair]
      simp only [Option.map_some']
      rw [if_bool_neg hpairne]
    have hnd1 : ((writeList (some cr) args.item (some pidStr) (some args.weight) alts).map
        (fun x => x.id)).Nodup := by
      rw [writeList_keys]
      exact hand
    have hg2 : goodStruct (writeWeight (some cr) args.pair (some iid) (some 1)
        (writeWeight (some cr) args.item (some pidStr) (some args.weight) e)) = true :=
      goodStruct_write_alt hg1 cr args.pair (some iid) (some 1)
    have hread2 := @readW_write_alt
      (writeWeight (some cr) args.item (some pidStr) (some args.weight) e)
      (writeList (some cr) args.item (some pidStr) (some args.weight) alts)
      cr cid args.pair pair pidStr iid pcomps cmpP pms m1 (some 1)
      hwl1 hnd1 hfpair1 hpid hcid hpcomp hpcnd hfkmP hpms hpmsnd hrev
    refine ⟨writeWeight (some cr) args.pair (some iid) (some 1)
      (writeWeight (some cr) args.item (some pidStr) (some args.weight) e), ?_, hg2, ?_⟩
    · simp only [compare, hfill, hc, ha, Option.getD_some, hcrit, hcrfind, hitem, hpair,
        hbad, if_neg Bool.false_ne_true, hicomp, hfcpI, hims, hpid, hfwdS, hW1,
        hwl1, hfpair1, hpcomp, hfcpP, hpms, hiid, hrevS, if_true, if_false]
    · intro key' a b
      rw [hread2 key' a b, hread1 key' a b]
      by_cases h2 : key' = some cid ∧ a = pidStr ∧ b = iid
      · have hn1 : ¬(key' = some cid ∧ a = iid ∧ b = pidStr) := by
          intro hcon
          exact hne (by rw [← hcon.2.1, h2.2.1])
        rw [if_pos h2, if_neg hn1, if_pos ⟨hw1, h2⟩]
      · rw [if_neg h2]
        by_cases h1 : key' = some cid ∧ a = iid ∧ b = pidStr
        · rw [if_pos h1, if_pos h1]
        · rw [if_neg h1, if_neg h1, if_neg (fun hcon => h2 hcon.2)]

/-! #### compare: error paths under the canonical structure -/

theorem compare_badWeight_none (uid : Nat → String) (n : Nat) {args : CompareArgs}
    {e : Decision} {cs : List Item} {item pair : Item}
    (hg : goodStruct e = true) (hc : e.criteria = some cs)
    (hcrit : args.criterion = none)
    (hitem : cs.find? (matchesRef args.item) = some item)
    (hpair : cs.find? (matchesRef args.pair) = some pair)
    (hwbad : intensityVals.contains args.weight = false) :
    compare uid n args e = (.error .badWeight, (e, n)) := by
  have hfill : fill uid n e = some (e, n) := goodStruct_fillFix uid n hg
  have hbadT : (!(!(args.weight == 0) && intensityVals.contains args.weight)) = true := by
    rw [hwbad]
    simp
  simp only [compare, hfill, hc, Option.getD_some, hcrit, hitem, hpair, hbadT,
    if_pos rfl, if_true]

theorem compare_badWeight_some (uid : Nat → String) (n : Nat) {args : CompareArgs}
    {e : Decision} {cs alts : List Item} {cref : ItemRef} {cr item pair : Item}
    (hg : goodStruct e = true) (hc : e.criteria = some cs) (ha : e.alternatives = some alts)
    (hcrit : args.criterion = some cref)
    (hcrfind : cs.find? (matchesRef cref) = some cr)
    (hitem : alts.find? (matchesRef args.item) = some item)
    (hpair : alts.find? (matchesRef args.pair) = some pair)
    (hwbad : intensityVals.contains args.weight = false) :
    compare uid n args e = (.error .badWeight, (e, n)) := by
  have hfill : fill uid n e = some (e, n) := goodStruct_fillFix uid n hg
  have hbadT : (!(!(args.weight == 0) && intensityVals.contains args.weight)) = true := by
    rw [hwbad]
    simp
  simp only [compare, hfill, hc, ha, Option.getD_some, hcrit, hcrfind, hitem, hpair, hbadT,
    if_pos rfl, if_true]

/-- Criteria-mode self-comparison: the item's own slot list never carries
its own id, so the measurement lookup fails and the state is untouched. -/
theorem compare_self_none (uid : Nat → String) (n : Nat) {args : CompareArgs}
    {e : Decision} {cs : List Item} {item pair : Item} {iid : String}
    (hg : goodStruct e = true) (hc : e.criteria = some cs)
    (hcrit : args.criterion = none)
    (hitem : cs.find? (matchesRef args.item) = some item)
    (hpair : cs.find? (matchesRef args.pair) = some pair)
    (hiid : item.id = some iid) (hpid : pair.id = some iid)
    (hwval : intensityVals.contains args.weight = true) :
    compare uid n args e = (.error .missingMeasurement, (e, n)) := by
  obtain ⟨hdid, hdgoal, cs2, alts2, hc2, ha2, hct, hcnd, hat, hand, hcsh, hash⟩ :=
    goodStruct_parts hg
  rw [hc] at hc2
  injection hc2 with hcseq
  rw [← hcseq] at hct hcnd hcsh hash
  have hfill : fill uid n e = some (e, n) := goodStruct_fillFix uid n hg
  have hitemmem : item ∈ cs := List.mem_of_find?_eq_some hitem
  obtain ⟨c0, ms, hicomp, hicid, hims, hikeys⟩ := critShape_parts (hcsh item hitemmem)
  have hcsome : ∀ x ∈ cs, x.id.isSome = true := fun x hx => truthyS_isSome (hct x hx)
  have hnull : ms.find? (fun m => m.pairId == iid) = none :=
    no_self_slot hikeys hcsome hiid
  have hnullS : ms.find? (fun m => some m.pairId == some iid) = none := by
    rw [find?_pred_congr (fun m => rfl) ms]
    exact hnull
  have hw0 : (args.weight == 0) = false := weight_ne_zero hwval
  have hbad : (!(!(args.weight == 0) && intensityVals.contains args.weight)) = false := by
    rw [hw0, hwval]
    rfl
  simp only [compare, hfill, hc, Option.getD_some, hcrit, hitem, hpair, hbad,
    if_neg Bool.false_ne_true, hicomp, find?_cmpPred_none_cons, hims, hpid, hnullS]

/-- Alternatives-mode self-comparison fails the same way. -/
theorem compare_self_some (uid : Nat → String) (n : Nat) {args : CompareArgs}
    {e : Decision} {cs alts : List Item} {cref : ItemRef} {cr item pair : Item} {cid iid : String}
    (hg : goodStruct e = true) (hc : e.criteria = some cs) (ha : e.alternatives = some alts)
    (hcrit : args.criterion = some cref)
    (hcrfind : cs.find? (matchesRef cref) = some cr)
    (hcid : cr.id = some cid)
    (hitem : alts.find? (matchesRef args.item) = some item)
    (hpair : alts.find? (matchesRef args.pair) = some pair)
    (hiid : item.id = some iid) (hpid : pair.id = some iid)
    (hwval : intensityVals.contains args.weight = true) :
    compare uid n args e = (.error .missingMeasurement, (e, n)) := by
  obtain ⟨hdid, hdgoal, cs2, alts2, hc2, ha2, hct, hcnd, hat, hand, hcsh, hash⟩ :=
    goodStruct_parts hg
  rw [hc] at hc2
  injection hc2 with hcseq
  rw [ha] at ha2
  injection ha2 with haseq
  rw [← hcseq] at hct hcnd hcsh hash
  rw [← haseq] at hat hand hash
  have hfill : fill uid n e = some (e, n) := goodStruct_fillFix uid n hg
  have hcrmem : cr ∈ cs := List.mem_of_find?_eq_some hcrfind
  have hitemmem : item ∈ alts := List.mem_of_find?_eq_some hitem
  obtain ⟨icomps, hicomp, hilen, hikmap, hipt⟩ := altShape_parts (hash item hitemmem)
  obtain ⟨cmpI, hzipI⟩ := mem_zip_of_mem_right hilen cr hcrmem
  have hfcmpI : icomps.find? (fun c2 => c2.criterionId == cr.id) = some cmpI :=
    find?_of_zip_aligned (fun c2 : Cmp => c2.criterionId) (fun x : Item => x.id)
      icomps cs hikmap hcnd (cmpI, cr) hzipI
  have hfcpI : icomps.find? (cmpPred (some cr)) = some cmpI := by
    rw [find?_pred_congr (cmpPred_eq_keyMatch_some hcid) icomps,
      find?_pred_congr (keyMatch_some cid) icomps,
      find?_pred_congr (fun c2 : Cmp => (by rw [hcid] :
        (c2.criterionId == some cid) = (c2.criterionId == cr.id))) icomps]
    exact hfcmpI
  obtain ⟨_, ms, hims0, hikeys0⟩ := hipt (cmpI, cr) hzipI
  have hims : cmpI.measurements = some ms := hims0
  have hikeys : ms.map (fun m => m.pairId)
      = (alts.filter (fun al => !(al.id == item.id))).map (fun al => al.id.getD "") := hikeys0
  have hasome : ∀ x ∈ alts, x.id.isSome = true := fun x hx => truthyS_isSome (hat x hx)
  have hnull : ms.find? (fun m => m.pairId == iid) = none :=
    no_self_slot hikeys hasome hiid
  have hnullS : ms.find? (fun m => some m.pairId == some iid) = none := by
    rw [find?_pred_congr (fun m => rfl) ms]
    exact hnull
  have hw0 : (args.weight == 0) = false := weight_ne_zero hwval
  have hbad : (!(!(args.weight == 0) && intensityVals.contains args.weight)) = false := by
    rw [hw0, hwval]
    rfl
  simp only [compare, hfill, hc, ha, Option.getD_some, hcrit, hcrfind, hitem, hpair, hbad,
    if_neg Bool.false_ne_true, hicomp, hfcpI, hims, hpid, hnullS]

theorem compare_noitem_none (uid : Nat → String) (n : Nat) {args : CompareArgs}
    {e : Decision} {cs : List Item}
    (hg : goodStruct e = true) (hc : e.criteria = some cs)
    (hcrit : args.criterion = none)
    (hmiss : cs.find? (matchesRef args.item) = none ∨ cs.find? (matchesRef args.pair) = none) :
    compare uid n args e = (.error .itemPairNotFound, (e, n)) := by
  have hfill : fill uid n e = some (e, n) := goodStruct_fillFix uid n hg
  cases hmiss with
  | inl h1 =>
    simp only [compare, hfill, hc, Option.getD_some, hcrit, h1]
  | inr h2 =>
    cases h1 : cs.find? (matchesRef args.item) with
    | none => simp only [compare, hfill, hc, Option.getD_some, hcrit, h1]
    | some it => simp only [compare, hfill, hc, Option.getD_some, hcrit, h1, h2]

theorem compare_nocrit (uid : Nat → String) (n : Nat) {args : CompareArgs}
    {e : Decision} {cs : List Item} {cref : ItemRef}
    (hg : goodStruct e = true) (hc : e.criteria = some cs)
    (hcrit : args.criterion = some cref)
    (hmiss : cs.find? (matchesRef cref) = none) :
    compare uid n args e = (.error .criterionNotFound, (e, n)) := by
  have hfill : fill uid n e = some (e, n) := goodStruct_fillFix uid n hg
  simp only [compare, hfill, hc, Option.getD_some, hcrit, hmiss]

theorem compare_noitem_some (uid : Nat → String) (n : Nat) {args : CompareArgs}
    {e : Decision} {cs alts : List Item} {cref : ItemRef} {cr : Item}
    (hg : goodStruct e = true) (hc : e.criteria = some cs) (ha : e.alternatives = some alts)
    (hcrit : args.criterion = some cref)
    (hcrfind : cs.find? (matchesRef cref) = some cr)
    (hmiss : alts.find? (matchesRef args.item) = none
      ∨ alts.find? (matchesRef args.pair) = none) :
    compare uid n args e = (.error .itemPairNotFound, (e, n)) := by
  have hfill : fill uid n e = some (e, n) := goodStruct_fillFix uid n hg
  cases hmiss with
  | inl h1 =>
    simp only [compare, hfill, hc, ha, Option.getD_some, hcrit, hcrfind, h1]
  | inr h2 =>
    cases h1 : alts.find? (matchesRef args.item) with
    | none => simp only [compare, hfill, hc, ha, Option.getD_some, hcrit, hcrfind, h1]
    | some it => simp only [compare, hfill, hc, ha, Option.getD_some, hcrit, hcrfind, h1, h2]

/-! #### resolution analysis and the total case split of compare -/

theorem resolveCompare_none_cases {args : CompareArgs} {e : Decision} {cs alts : List Item}
    (hg : goodStruct e = true)
    (hc : e.criteria = some cs) (ha : e.alternatives = some alts)
    (hres : resolveCompare args e = none) :
    (args.criterion = none ∧ (cs.find? (matchesRef args.item) = none
      ∨ cs.find? (matchesRef args.pair) = none))
    ∨ (∃ cref, args.criterion = some cref ∧
        (cs.find? (matchesRef cref) = none ∨
         (∃ cr, cs.find? (matchesRef cref) = some cr ∧
           (alts.find? (matchesRef args.item) = none
             ∨ alts.find? (matchesRef args.pair) = none)))) := by
  obtain ⟨hdid, hdgoal, cs2, alts2, hc2, ha2, hct, hcnd, hat, hand, hcsh, hash⟩ :=
    goodStruct_parts hg
  rw [hc] at hc2
  injection hc2 with hcseq
  rw [ha] at ha2
  injection ha2 with haseq
  rw [← hcseq] at hct
  rw [← haseq] at hat
  cases hcrit : args.criterion with
  | none =>
    left
    refine ⟨rfl, ?_⟩
    simp only [resolveCompare, hc, ha, Option.getD_some, hcrit] at hres
    cases hf1 : cs.find? (matchesRef args.item) with
    | none => exact .inl rfl
    | some item =>
      cases hf2 : cs.find? (matchesRef args.pair) with
      | none => exact .inr rfl
      | some pair =>
        exfalso
        obtain ⟨iid, hiid⟩ := Option.isSome_iff_exists.mp
          (truthyS_isSome (hct item (List.mem_of_find?_eq_some hf1)))
        obtain ⟨pid, hpid⟩ := Option.isSome_iff_exists.mp
          (truthyS_isSome (hct pair (List.mem_of_find?_eq_some hf2)))
        rw [hf1, hf2] at hres
        simp [hiid, hpid] at hres
  | some cref =>
    right
    refine ⟨cref, rfl, ?_⟩
    simp only [resolveCompare, hc, ha, Option.getD_some, hcrit] at hres
    cases hf0 : cs.find? (matchesRef cref) with
    | none => exact .inl rfl
    | some cr =>
      refine .inr ⟨cr, rfl, ?_⟩
      cases hf1 : alts.find? (matchesRef args.item) with
      | none => exact .inl rfl
      | some item =>
        cases hf2 : alts.find? (matchesRef args.pair) with
        | none => exact .inr rfl
        | some pair =>
          exfalso
          obtain ⟨cid, hcid⟩ := Option.isSome_iff_exists.mp
            (truthyS_isSome (hct cr (List.mem_of_find?_eq_some hf0)))
          obtain ⟨iid, hiid⟩ := Option.isSome_iff_exists.mp
            (truthyS_isSome (hat item (List.mem_of_find?_eq_some hf1)))
          obtain ⟨pid, hpid⟩ := Option.isSome_iff_exists.mp
            (truthyS_isSome (hat pair (List.mem_of_find?_eq_some hf2)))
          rw [hf0, hf1, hf2] at hres
          simp [hcid, hiid, hpid] at hres

theorem resolveCompare_some_cases {args : CompareArgs} {e : Decision} {cs alts : List Item}
    {iid pidStr : String} {key : Option String}
    (hc : e.criteria = some cs) (ha : e.alternatives = some alts)
    (hres : resolveCompare args e = some (iid, pidStr, key)) :
    (args.criterion = none ∧ key = none ∧ ∃ item pair,
      cs.find? (matchesRef args.item) = some item ∧
      cs.find? (matchesRef args.pair) = some pair ∧
      item.id = some iid ∧ pair.id = some pidStr)
    ∨ (∃ cref cr cid, args.criterion = some cref ∧
      cs.find? (matchesRef cref) = some cr ∧ cr.id = some cid ∧ key = some cid ∧
      ∃ item pair, alts.find? (matchesRef args.item) = some item ∧
        alts.find? (matchesRef args.pair) = some pair ∧
        item.id = some iid ∧ pair.id = some pidStr) := by
  cases hcrit : args.criterion with
  | none =>
    left
    simp only [resolveCompare, hc, ha, Option.getD_some, hcrit] at hres
    refine ⟨rfl, ?_⟩
    cases hf1 : cs.find? (matchesRef args.item) with
    | none => rw [hf1] at hres; simp at hres
    | some item =>
      cases hf2 : cs.find? (matchesRef args.pair) with
      | none => rw [hf1, hf2] at hres; simp at hres
      | some pair =>
        rw [hf1, hf2] at hres
        cases hiid : item.id with
        | none => simp [hiid] at hres
        | some iid2 =>
          cases hpid : pair.id with
          | none => simp [hiid, hpid] at hres
          | some pid2 =>
            simp only [hiid, hpid, Option.some.injEq, Prod.mk.injEq] at hres
            obtain ⟨h1, h2, h3⟩ := hres
            exact ⟨h3.symm, item, pair, rfl, rfl, by rw [hiid, h1], by rw [hpid, h2]⟩
  | some cref =>
    right
    simp only [resolveCompare, hc, ha, Option.getD_some, hcrit] at hres
    cases hf0 : cs.find? (matchesRef cref) with
    | none => rw [hf0] at hres; simp at hres
    | some cr =>
      cases hf1 : alts.find? (matchesRef args.item) with
      | none => rw [hf0, hf1] at hres; simp at hres
      | some item =>
        cases hf2 : alts.find? (matchesRef args.pair) with
        | none => rw [hf0, hf1, hf2] at hres; simp at hres
        | some pair =>
          rw [hf0, hf1, hf2] at hres
          cases hcid : cr.id with
          | none => simp [hcid] at hres
          | some cid2 =>
            cases hiid : item.id with
            | none => simp [hcid, hiid] at hres
            | some iid2 =>
              cases hpid : pair.id with
              | none => simp [hcid, hiid, hpid] at hres
              | some pid2 =>
                simp only [hcid, hiid, hpid, Option.some.injEq, Prod.mk.injEq] at hres
                obtain ⟨h1, h2, h3⟩ := hres
                exact ⟨cref, cr, cid2, rfl, hf0, hcid, h3.symm, item, pair, rfl, rfl,
                  by rw [hiid, h1], by rw [hpid, h2]⟩

theorem bool_false_of_not_true {b : Bool} (h : ¬(b = true)) : b = false := by
  cases hb : b with
  | false => rfl
  | true => exact absurd hb h

/-- Total behaviour of a compare call from a canonical state: either it
fails leaving the state exactly as it was, or it succeeds on a resolved
pair of distinct ids with the two-write effect. -/
theorem compare_cases (uid : Nat → String) (n : Nat) (args : CompareArgs) {e : Decision}
    (hg : goodStruct e = true) :
    (∃ err, compare uid n args e = (.error err, (e, n)))
    ∨ (∃ d' iid pidStr key, iid ≠ pidStr ∧
        compare uid n args e = (.ok (), (d', n)) ∧ goodStruct d' = true ∧
        resolveCompare args e = some (iid, pidStr, key) ∧
        ∀ (key' : Option String) (a b : String), readW d' key' a b
          = if key' = key ∧ a = iid ∧ b = pidStr then some args.weight
            else if args.weight ≠ 1 ∧ key' = key ∧ a = pidStr ∧ b = iid then some 1
            else readW e key' a b) := by
  obtain ⟨hdid, hdgoal, cs, alts, hc, ha, hct, hcnd, hat, hand, hcsh, hash⟩ :=
    goodStruct_parts hg
  cases hresO : resolveCompare args e with
  | none =>
    left
    rcases resolveCompare_none_cases hg hc ha hresO with ⟨hcrit, hmiss⟩ | ⟨cref, hcrit, hcase⟩
    · exact ⟨_, compare_noitem_none uid n hg hc hcrit hmiss⟩
    · cases hcase with
      | inl hm => exact ⟨_, compare_nocrit uid n hg hc hcrit hm⟩
      | inr hm =>
        obtain ⟨cr, hcr, hmiss⟩ := hm
        exact ⟨_, compare_noitem_some uid n hg hc ha hcrit hcr hmiss⟩
  | some trip =>
    obtain ⟨iid, pidStr, key⟩ := trip
    by_cases hwv : intensityVals.contains args.weight = true
    · rcases resolveCompare_some_cases hc ha hresO with
        ⟨hcrit, hkey, item, pair, hitem, hpair, hiid, hpid⟩ |
        ⟨cref, cr, cid, hcrit, hcr, hcid, hkey, item, pair, hitem, hpair, hiid, hpid⟩
      · by_cases hne : iid = pidStr
        · left
          exact ⟨_, compare_self_none uid n hg hc hcrit hitem hpair hiid
            (by rw [hpid, ← hne]) hwv⟩
        · right
          obtain ⟨d', hcompeq, hgd, hchar⟩ :=
            compare_spec_none uid n hg hc hcrit hitem hpair hiid hpid hwv hne
          refine ⟨d', iid, pidStr, key, hne, hcompeq, hgd, rfl, ?_⟩
          rw [hkey]
          exact hchar
      · by_cases hne : iid = pidStr
        · left
          exact ⟨_, compare_self_some uid n hg hc ha hcrit hcr hcid hitem hpair hiid
            (by rw [hpid, ← hne]) hwv⟩
        · right
          obtain ⟨d', hcompeq, hgd, hchar⟩ :=
            compare_spec_some uid n hg hc ha hcrit hcr hcid hitem hpair hiid hpid hwv hne
          refine ⟨d', iid, pidStr, key, hne, hcompeq, hgd, rfl, ?_⟩
          rw [hkey]
          exact hchar
    · left
      have hwb : intensityVals.contains args.weight = false := bool_false_of_not_true hwv
      rcases resolveCompare_some_cases hc ha hresO with
        ⟨hcrit, hkey, item, pair, hitem, hpair, hiid, hpid⟩ |
        ⟨cref, cr, cid, hcrit, hcr, hcid, hkey, item, pair, hitem, hpair, hiid, hpid⟩
      · exact ⟨_, compare_badWeight_none uid n hg hc hcrit hitem hpair hwb⟩
      · exact ⟨_, compare_badWeight_some uid n hg hc ha hcrit hcr hitem hpair hwb⟩

/-! #### the reciprocal invariant -/

/-- The two-write effect preserves the reciprocal invariant. -/
theorem ReciprocalOk_of_char {e d' : Decision} {iid pidStr : String} {key : Option String}
    {w : Rat} (hne : iid ≠ pidStr) (hr : ReciprocalOk e)
    (hchar : ∀ (key' : Option String) (a b : String), readW d' key' a b
      = if key' = key ∧ a = iid ∧ b = pidStr then some w
        else if w ≠ 1 ∧ key' = key ∧ a = pidStr ∧ b = iid then some 1
        else readW e key' a b) :
    ReciprocalOk d' := by
  intro k a b hab w2 hw2 hw2ne v hv
  rw [hchar k a b] at hw2
  rw [hchar k b a] at hv
  by_cases h1 : k = key ∧ a = iid ∧ b = pidStr
  · rw [if_pos h1] at hw2
    injection hw2 with hw2e
    have hn1 : ¬(k = key ∧ b = iid ∧ a = pidStr) :=
      fun hcon => hne (hcon.2.1.symm.trans h1.2.2)
    rw [if_neg hn1] at hv
    have h2f : w ≠ 1 ∧ k = key ∧ b = pidStr ∧ a = iid :=
      ⟨by rw [hw2e]; exact hw2ne, h1.1, h1.2.2, h1.2.1⟩
    rw [if_pos h2f] at hv
    injection hv with hve
    exact hve.symm
  · rw [if_neg h1] at hw2
    by_cases h2 : w ≠ 1 ∧ k = key ∧ a = pidStr ∧ b = iid
    · rw [if_pos h2] at hw2
      injection hw2 with hw2e
      exact absurd hw2e.symm hw2ne
    · rw [if_neg h2] at hw2
      by_cases h3 : k = key ∧ b = iid ∧ a = pidStr
      · have hw1 : w = 1 := by
          by_contra hwc
          exact h2 ⟨hwc, h3.1, h3.2.2, h3.2.1⟩
        rw [if_pos h3] at hv
        injection hv with hve
        exact hve.symm.trans hw1
      · by_cases h4 : w ≠ 1 ∧ k = key ∧ b = pidStr ∧ a = iid
        · rw [if_neg h3, if_pos h4] at hv
          injection hv with hve
          exact hve.symm
        · rw [if_neg h3, if_neg h4] at hv
          exact hr k a b hab w2 hw2 hw2ne v hv

theorem readList_noW {list : List Item}
    (h : ∀ it ∈ list, ((it.comparisons.getD []).all (fun c =>
      (c.measurements.getD []).all (fun m => m.weight == none))) = true)
    (key : Option String) (a b : String) : readList list key a b = none := by
  unfold readList
  cases hf : list.find? (fun it => it.id == some a) with
  | none => rfl
  | some it =>
    simp only [Option.some_bind]
    cases hcf : (it.comparisons.getD []).find? (keyMatch key) with
    | none => rfl
    | some c =>
      simp only [Option.some_bind]
      cases hmf : (c.measurements.getD []).find? (fun m => m.pairId == b) with
      | none => rfl
      | some m =>
        simp only [Option.some_bind]
        have h1 := List.all_eq_true.mp (h it (List.mem_of_find?_eq_some hf)) c
          (List.mem_of_find?_eq_some hcf)
        have h2 := List.all_eq_true.mp h1 m (List.mem_of_find?_eq_some hmf)
        exact eq_of_beq h2

/-- A decision with no stored weights satisfies the reciprocal invariant
vacuously. -/
theorem noWeights_reciprocalOk {d : Decision} (hw : noWeights d = true) : ReciprocalOk d := by
  unfold noWeights at hw
  have hall := List.all_eq_true.mp hw
  intro key a b hab w hwr hwne v hv
  exfalso
  have hnone : readW d key a b = none := by
    unfold readW
    apply readList_noW
    intro it hit
    cases key with
    | none => exact hall it (List.mem_append_left _ hit)
    | some j => exact hall it (List.mem_append_right _ hit)
  rw [hnone] at hwr
  exact Option.noConfusion hwr

/-- Every state reachable by compare calls from a canonical reciprocal
state is canonical and reciprocal. -/
theorem runCompares_invariant (uid : Nat → String) :
    ∀ (trace : List CompareArgs) (d : Decision) (n : Nat),
      goodStruct d = true → ReciprocalOk d →
      goodStruct (runCompares uid trace n d).1 = true ∧
      ReciprocalOk (runCompares uid trace n d).1 := by
  intro trace
  induction trace with
  | nil =>
    intro d n hg hr
    exact ⟨hg, hr⟩
  | cons a rest ih =>
    intro d n hg hr
    show goodStruct (runCompares uid rest (compare uid n a d).2.2 (compare uid n a d).2.1).1
      = true ∧ ReciprocalOk (runCompares uid rest (compare uid n a d).2.2
        (compare uid n a d).2.1).1
    cases compare_cases uid n a hg with
    | inl herr =>
      obtain ⟨err, he⟩ := herr
      rw [he]
      exact ih d n hg hr
    | inr hok =>
      obtain ⟨d', iid, pidStr, key, hne, he, hg', _, hchar⟩ := hok
      rw [he]
      exact ih d' n hg' (ReciprocalOk_of_char hne hr hchar)

/-- Helper: a report produced by validate has valid = errors.isEmpty. -/
theorem validate_ok_valid {d : Decision} {r : VReport} (hv : validate d = .ok r) :
    r.valid = r.errors.isEmpty := by
  unfold validate at hv
  set e2res := (match d.alternatives with
    | none => Except.ok []
    | some alts => validateAlternatives d.criteria alts alts.enum : Except Unit (List VErr)) with he2
  clear_value e2res
  cases e2res with
  | error u => simp at hv
  | ok e2 =>
    simp only [Except.ok.injEq] at hv
    subst hv
    rfl

/-- C5: on a decision whose validation reports at least one error,
evaluate fails with exactly the accumulated validation errors (the
aggregate assertValid raises), before any matrix is built, and the
decision state — every priority field and the summary — is unmodified. -/
theorem evaluate_invalid_gate (eigFn : List (List Rat) → List Rat) (d : Decision)
    (r : VReport) (hv : validate d = .ok r) (he : r.errors ≠ []) :
    evaluate eigFn d = (.error (.invalid r.errors), d) := by
  have hval : r.valid = false := by
    rw [validate_ok_valid hv]
    cases hre : r.errors with
    | nil => exact absurd hre he
    | cons x xs => rfl
  unfold evaluate
  rw [hv]
  simp only [hval, Bool.not_false, if_true]

/-- Witness for evaluate_invalid_gate at dFresh. -/
theorem evaluate_invalid_gate_witness :
    evaluate eigOnes dFresh =
      (.error (.invalid [VErr.missingCriterionComparisons 0, VErr.missingCriterionComparisons 1,
        VErr.missingAlternativeComparisons 0, VErr.missingAlternativeComparisons 1]), dFresh) :=
  evaluate_invalid_gate eigOnes dFresh
    { errors := [VErr.missingCriterionComparisons 0, VErr.missingCriterionComparisons 1,
        VErr.missingAlternativeComparisons 0, VErr.missingAlternativeComparisons 1],
      valid := false }
    (by rfl) (by decide)

/-- C10: add accepts a criterion and an alternative in one call; with both
names new it appends both and re-runs fill, but when the criterion name is
new while the alternative name duplicates an existing one, the error is
raised only after the criterion has been appended and before fill re-runs,
so the failed call leaves the decision mutated. -/
theorem add_nonatomic (uid : Nat → String) (n : Nat) (d : Decision) (cs alts : List Item)
    (c a : Item) (hc : d.criteria = some cs) (ha : d.alternatives = some alts)
    (hcname : truthyS c.name = true)
    (hcnew : (cs.find? (fun cr => cr.name == c.name)).isSome = false) :
    ((alts.find? (fun al => al.name == a.name)).isSome = true →
      add uid n (some (.inr c)) (some (.inr a)) d =
        (.error .duplicateAlternative, ({ d with criteria := some (cs ++ [c]) }, n)))
    ∧ ((alts.find? (fun al => al.name == a.name)).isSome = false →
      ∀ d3 n2, fill uid n { d with criteria := some (cs ++ [c]), alternatives := some (alts ++ [a]) } = some (d3, n2) →
      add uid n (some (.inr c)) (some (.inr a)) d = (.ok (), (d3, n2))) := by
  constructor
  · intro hdup
    simp [add, normalizeAddInput, hc, ha, hcname, hcnew, hdup]
  · intro hfresh d3 n2 hfill
    simp [add, normalizeAddInput, hc, ha, hcname, hcnew, hfresh, hfill]

/-- Witness for add_nonatomic at dFilled with a fresh criterion name and a
duplicated alternative name. -/
theorem add_nonatomic_witness :
    add uid0 0 (some (.inr (mkItem "c9" "Size"))) (some (.inr (mkItem "a9" "Rome"))) dFilled =
      (.error .duplicateAlternative,
        ({ dFilled with criteria := some ((dFilled.criteria.getD []) ++ [mkItem "c9" "Size"]) }, 0)) :=
  (add_nonatomic uid0 0 dFilled (dFilled.criteria.getD []) (dFilled.alternatives.getD [])
    (mkItem "c9" "Size") (mkItem "a9" "Rome") (by decide) (by decide) (by decide) (by decide)).1
    (by decide)

/-- C2 counterexample: fill keeps an alternative comparison verbatim
whenever its measurement count equals alternatives-1, so a dangling slot
(pairId "ghost", no such alternative) survives and the slot for the real
peer "ya" is missing: the completion postcondition fails on imported
data. -/
theorem fill_completion_counterexample :
    fill uid0 0 dGhost = some (dGhost, 0) ∧
    (∃ alt ∈ dGhost.alternatives.getD [], alt.id = some "xa" ∧
      ∃ cmp ∈ alt.comparisons.getD [],
        (∃ m ∈ cmp.measurements.getD [], ∀ b ∈ dGhost.alternatives.getD [], b.id ≠ some m.pairId) ∧
        (∀ m ∈ cmp.measurements.getD [], m.pairId ≠ "ya")) ∧
    (∃ b ∈ dGhost.alternatives.getD [], b.id = some "ya") := by
  decide

/-- C4 counterexample: with two distinct items sharing an id and storing
no weights, getWeigthsMatrix returns the all-ones matrix instead of
throwing, although the off-diagonal weights are absent; the diagonal test
is id equality, not positional equality. -/
theorem getWeigthsMatrix_counterexample :
    getWeigthsMatrix [dupA, dupB] none = .ok [[1, 1], [1, 1]] ∧
    dupA ≠ dupB ∧
    storedWeight dupA dupB none = .ok none ∧
    storedWeight dupB dupA none = .ok none := by
  refine ⟨by decide, by decide, by decide, by decide⟩

/-- C8 counterexample: validate throws (a TypeError) on a reachable
malformed graph — an alternative comparison that passes the count check
but has no measurements array, with another alternative present. -/
theorem validate_throws_counterexample : validate dThrow = .error () := by decide

/-- C9 counterexample: on a filled decision (a fill fixpoint) whose
alternative carries a measurement slot with its own id as pairId, compare
with item = pair succeeds instead of throwing, and mutates that weight. -/
theorem compare_self_counterexample :
    fill uid0 0 dSelf = some (dSelf, 0) ∧
    compare uid0 0 selfArgs dSelf = (.ok (), (dSelfAfter, 0)) ∧
    dSelfAfter ≠ dSelf ∧
    readW dSelfAfter (some "c1") "xa" "xa" = some 1 ∧
    readW dSelf (some "c1") "xa" "xa" = none := by
  refine ⟨by decide, by decide, by decide, by decide, by decide⟩

/-- C7 counterexample: on the imported fill fixpoint dGhost, item, pair
and criterion all resolve (to the distinct ids xa, ya under c1), the
weight 5 is in the 1..9 scale, and yet compare fails with the
missing-measurement ValidationError, because the alternative's
kept-verbatim slot list has no slot for the real peer: the frozen claim's
success half does not hold for every decision in which the three
references resolve. -/
theorem compare_scale_counterexample :
    fill uid0 0 dGhost = some (dGhost, 0) ∧
    resolveCompare ghostArgs dGhost = some ("xa", "ya", some "c1") ∧
    ghostArgs.weight ∈ intensityVals ∧
    compare uid0 0 ghostArgs dGhost = (.error .missingMeasurement, (dGhost, 0)) := by
  refine ⟨by decide, by decide, by decide, by decide⟩

/-- C1: Reciprocal invariant of the comparison protocol.  From a freshly
filled decision with no weights, every state reached by a sequence of
compare calls is structurally canonical and satisfies the reciprocal
invariant (at most one direction of any stored pair differs from 1); and
each successful call from such a state resolves item and pair to distinct
ids, stores the given weight on the item's slot for the pair, forces the
reverse slot to 1 when the weight is not 1, and leaves the reverse slot
untouched when the weight is 1. -/
theorem compare_reciprocal_protocol (uid : Nat → String) {d : Decision}
    (hg : goodStruct d = true) (hw : noWeights d = true) :
    (∀ (trace : List CompareArgs) (n : Nat),
      goodStruct (runCompares uid trace n d).1 = true ∧
      ReciprocalOk (runCompares uid trace n d).1)
    ∧ (∀ (e : Decision) (n : Nat) (args : CompareArgs) (iid pidStr : String)
        (key : Option String) (d' : Decision) (n' : Nat),
        goodStruct e = true → ReciprocalOk e →
        resolveCompare args e = some (iid, pidStr, key) →
        compare uid n args e = (.ok (), (d', n')) →
        iid ≠ pidStr ∧
        readW d' key iid pidStr = some args.weight ∧
        (args.weight ≠ 1 → readW d' key pidStr iid = some 1) ∧
        (args.weight = 1 → readW d' key pidStr iid = readW e key pidStr iid) ∧
        ReciprocalOk d') := by
  refine ⟨?_, ?_⟩
  · intro trace n
    exact runCompares_invariant uid trace d n hg (noWeights_reciprocalOk hw)
  · intro e n args iid pidStr key d' n' hge hre hres hcomp
    cases compare_cases uid n args hge with
    | inl herr =>
      obtain ⟨err, he⟩ := herr
      rw [he] at hcomp
      exact absurd hcomp (by simp)
    | inr hok =>
      obtain ⟨d2, iid2, pid2, key2, hne2, he2, hg2, hres2, hchar2⟩ := hok
      rw [hres] at hres2
      injection hres2 with htrip
      injection htrip with h1 hrest
      injection hrest with h2a h2b
      subst h1
      subst h2a
      subst h2b
      rw [he2] at hcomp
      have hd2 : d2 = d' := congrArg (fun p => p.2.1) hcomp
      subst hd2
      refine ⟨hne2, ?_, ?_, ?_, ReciprocalOk_of_char hne2 hre hchar2⟩
      · have h := hchar2 key iid pidStr
        have hcnd2 : key = key ∧ iid = iid ∧ pidStr = pidStr := ⟨rfl, rfl, rfl⟩
        rw [h, if_pos hcnd2]
      · intro hwne
        have h := hchar2 key pidStr iid
        have hn1 : ¬(key = key ∧ pidStr = iid ∧ iid = pidStr) :=
          fun hcon => hne2 hcon.2.1.symm
        have hcnd2 : args.weight ≠ 1 ∧ key = key ∧ pidStr = pidStr ∧ iid = iid :=
          ⟨hwne, rfl, rfl, rfl⟩
        rw [h, if_neg hn1, if_pos hcnd2]
      · intro hw1
        have h := hchar2 key pidStr iid
        have hn1 : ¬(key = key ∧ pidStr = iid ∧ iid = pidStr) :=
          fun hcon => hne2 hcon.2.1.symm
        have hn2 : ¬(args.weight ≠ 1 ∧ key = key ∧ pidStr = pidStr ∧ iid = iid) :=
          fun hcon => hcon.1 hw1
        rw [h, if_neg hn1, if_neg hn2]

/-- Witness for compare_reciprocal_protocol: a concrete two-call trace on
the filled small decision keeps the canonical structure and the
reciprocal invariant. -/
theorem compare_reciprocal_protocol_witness :
    goodStruct dFilled = true ∧ noWeights dFilled = true ∧
    goodStruct (runCompares uid0 [argsC12, argsA12] 0 dFilled).1 = true ∧
    ReciprocalOk (runCompares uid0 [argsC12, argsA12] 0 dFilled).1 :=
  ⟨by decide, by decide,
    ((compare_reciprocal_protocol uid0 (by decide) (by decide)).1 [argsC12, argsA12] 0).1,
    ((compare_reciprocal_protocol uid0 (by decide) (by decide)).1 [argsC12, argsA12] 0).2⟩

/-- C7 (amended): scale validation in compare.  On a decision carrying
fill's canonical structure, where item, pair (and criterion, when given)
resolve to distinct ids, the call fails with the scale ValidationError
exactly when the weight is outside the 1..9 Intensity scale, and for
every scale weight the call succeeds, recording the weight on the item's
slot for the pair, without consuming ids (on imported non-canonical data
an in-scale weight can instead hit the missing-measurement error, as
compare_scale_counterexample shows). -/
theorem compare_scale_validation (uid : Nat → String) (n : Nat) (args : CompareArgs)
    {e : Decision} {iid pidStr : String} {key : Option String}
    (hg : goodStruct e = true)
    (hres : resolveCompare args e = some (iid, pidStr, key))
    (hne : iid ≠ pidStr) :
    ((compare uid n args e).1 = .error .badWeight ↔ args.weight ∉ intensityVals)
    ∧ (args.weight ∈ intensityVals →
        (compare uid n args e).1 = .ok () ∧
        (compare uid n args e).2.2 = n ∧
        readW (compare uid n args e).2.1 key iid pidStr = some args.weight) := by
  obtain ⟨hdid, hdgoal, cs, alts, hc, ha, hct, hcnd, hat, hand, hcsh, hash⟩ :=
    goodStruct_parts hg
  have hsucc : args.weight ∈ intensityVals →
      ∃ d', compare uid n args e = (.ok (), (d', n)) ∧
        readW d' key iid pidStr = some args.weight := by
    intro hmem
    have hwv : intensityVals.contains args.weight = true := List.elem_iff.mpr hmem
    rcases resolveCompare_some_cases hc ha hres with
      ⟨hcrit, hkey, item, pair, hitem, hpair, hiid, hpid⟩ |
      ⟨cref, cr, cid, hcrit, hcr, hcid, hkey, item, pair, hitem, hpair, hiid, hpid⟩
    · obtain ⟨d', heq, _, hchar⟩ :=
        compare_spec_none uid n hg hc hcrit hitem hpair hiid hpid hwv hne
      refine ⟨d', heq, ?_⟩
      rw [hkey]
      have h := hchar none iid pidStr
      have hcnd2 : (none : Option String) = none ∧ iid = iid ∧ pidStr = pidStr :=
        ⟨rfl, rfl, rfl⟩
      rw [h, if_pos hcnd2]
    · obtain ⟨d', heq, _, hchar⟩ :=
        compare_spec_some uid n hg hc ha hcrit hcr hcid hitem hpair hiid hpid hwv hne
      refine ⟨d', heq, ?_⟩
      rw [hkey]
      have h := hchar (some cid) iid pidStr
      have hcnd2 : (some cid : Option String) = some cid ∧ iid = iid ∧ pidStr = pidStr :=
        ⟨rfl, rfl, rfl⟩
      rw [h, if_pos hcnd2]
  have hfail : args.weight ∉ intensityVals →
      compare uid n args e = (.error .badWeight, (e, n)) := by
    intro hnm
    have hwb : intensityVals.contains args.weight = false := by
      cases hcontains : intensityVals.contains args.weight with
      | false => rfl
      | true => exact absurd (List.elem_iff.mp hcontains) hnm
    rcases resolveCompare_some_cases hc ha hres with
      ⟨hcrit, hkey, item, pair, hitem, hpair, hiid, hpid⟩ |
      ⟨cref, cr, cid, hcrit, hcr, hcid, hkey, item, pair, hitem, hpair, hiid, hpid⟩
    · exact compare_badWeight_none uid n hg hc hcrit hitem hpair hwb
    · exact compare_badWeight_some uid n hg hc ha hcrit hcr hitem hpair hwb
  constructor
  · constructor
    · intro herr
      by_contra hmem2
      obtain ⟨d', heq, _⟩ := hsucc hmem2
      rw [heq] at herr
      exact absurd herr (by simp)
    · intro hnm
      rw [hfail hnm]
  · intro hmem
    obtain ⟨d', heq, hr⟩ := hsucc hmem
    rw [heq]
    exact ⟨rfl, rfl, hr⟩

/-- Witness for compare_scale_validation: weight 3 on c1 vs c2 succeeds
and is recorded; weight 10 is rejected with the scale error. -/
theorem compare_scale_validation_witness :
    goodStruct dFilled = true ∧
    resolveCompare argsC12 dFilled = some ("c1", "c2", none) ∧
    ("c1" : String) ≠ "c2" ∧ argsC12.weight ∈ intensityVals ∧
    ((compare uid0 0 argsC12 dFilled).1 = .ok () ∧
      (compare uid0 0 argsC12 dFilled).2.2 = 0 ∧
      readW (compare uid0 0 argsC12 dFilled).2.1 none "c1" "c2" = some argsC12.weight) ∧
    ((compare uid0 0 argsBad dFilled).1 = .error .badWeight ↔ argsBad.weight ∉ intensityVals) :=
  ⟨by decide, by decide, by decide, by decide,
    (compare_scale_validation uid0 0 argsC12 (show goodStruct dFilled = true by decide)
      (show resolveCompare argsC12 dFilled = some ("c1", "c2", none) by decide)
      (show ("c1" : String) ≠ "c2" by decide)).2 (by decide),
    (compare_scale_validation uid0 0 argsBad (show goodStruct dFilled = true by decide)
      (show resolveCompare argsBad dFilled = some ("c1", "c2", none) by decide)
      (show ("c1" : String) ≠ "c2" by decide)).1⟩

/-- C9 (amended): on a canonical (freshly filled) decision, whose slot
lists never carry their owner's id, compare with item and pair resolving
to the same id fails with the missing-measurement ValidationError and
leaves the decision exactly as it was. -/
theorem compare_self_missing (uid : Nat → String) (n : Nat) (args : CompareArgs)
    {e : Decision} {iid : String} {key : Option String}
    (hg : goodStruct e = true)
    (hres : resolveCompare args e = some (iid, iid, key))
    (hwmem : args.weight ∈ intensityVals) :
    compare uid n args e = (.error .missingMeasurement, (e, n)) := by
  obtain ⟨hdid, hdgoal, cs, alts, hc, ha, hct, hcnd, hat, hand, hcsh, hash⟩ :=
    goodStruct_parts hg
  have hwv : intensityVals.contains args.weight = true := List.elem_iff.mpr hwmem
  rcases resolveCompare_some_cases hc ha hres with
    ⟨hcrit, hkey, item, pair, hitem, hpair, hiid, hpid⟩ |
    ⟨cref, cr, cid, hcrit, hcr, hcid, hkey, item, pair, hitem, hpair, hiid, hpid⟩
  · exact compare_self_none uid n hg hc hcrit hitem hpair hiid hpid hwv
  · exact compare_self_some uid n hg hc ha hcrit hcr hcid hitem hpair hiid hpid hwv

/-- Witness for compare_self_missing: the self-compare of c1 on the
filled small decision throws missing measurement and changes nothing. -/
theorem compare_self_missing_witness :
    goodStruct dFilled = true ∧
    resolveCompare argsSelfC1 dFilled = some ("c1", "c1", none) ∧
    argsSelfC1.weight ∈ intensityVals ∧
    compare uid0 0 argsSelfC1 dFilled = (.error .missingMeasurement, (dFilled, 0)) :=
  ⟨by decide, by decide, by decide,
    compare_self_missing uid0 0 argsSelfC1 (show goodStruct dFilled = true by decide)
      (show resolveCompare argsSelfC1 dFilled = some ("c1", "c1", none) by decide)
      (show argsSelfC1.weight ∈ intensityVals by decide)⟩

/-! #### validate: report membership machinery -/

theorem mem_if_singleton {α : Type _} {c : Prop} [Decidable c] {x y : α} :
    x ∈ (if c then [y] else []) ↔ c ∧ x = y := by
  by_cases h : c
  · simp [h]
  · simp [h]

theorem mem_vc_id {cs : List Item} {ci : Nat} {c : Item} {j : Nat} :
    VErr.missingCriterionId j ∈ validateCriterion cs ci c
      ↔ (truthyS c.id = false ∧ j = ci) := by
  constructor
  · intro hx
    unfold validateCriterion at hx
    rcases List.mem_append.mp hx with h12 | h
    rcases List.mem_append.mp h12 with h | h
    · obtain ⟨h1, he⟩ := mem_if_singleton.mp h
      injection he with he2
      have h1f : truthyS c.id = false := by
        cases htr : truthyS c.id with
        | false => rfl
        | true =>
          rw [htr] at h1
          simp at h1
      exact ⟨h1f, he2⟩
    · obtain ⟨-, he⟩ := mem_if_singleton.mp h
      exact absurd he (by simp)
    · cases hcc : c.comparisons with
      | none => simp [hcc] at h
      | some comps =>
        by_cases hlen : (!(comps.length == 1)) = true
        · simp [hcc, hlen] at h
        · simp only [hcc, List.mem_flatten, List.mem_map, bool_false_of_not_true hlen,
            Bool.false_eq_true, if_false] at h
          obtain ⟨l, ⟨p, hp, hl⟩, hx2⟩ := h
          rw [← hl] at hx2
          obtain ⟨-, he⟩ := mem_if_singleton.mp hx2
          exact absurd he (by simp)
  · rintro ⟨h1, rfl⟩
    unfold validateCriterion
    apply List.mem_append.mpr
    left
    apply List.mem_append.mpr
    left
    apply mem_if_singleton.mpr
    exact ⟨by rw [h1]; rfl, rfl⟩

theorem mem_vc_name {cs : List Item} {ci : Nat} {c : Item} {j : Nat} :
    VErr.missingCriterionName j ∈ validateCriterion cs ci c
      ↔ (strTooShort c.name = true ∧ j = ci) := by
  constructor
  · intro hx
    unfold validateCriterion at hx
    rcases List.mem_append.mp hx with h12 | h
    rcases List.mem_append.mp h12 with h | h
    · obtain ⟨-, he⟩ := mem_if_singleton.mp h
      exact absurd he (by simp)
    · obtain ⟨h1, he⟩ := mem_if_singleton.mp h
      injection he with he2
      exact ⟨h1, he2⟩
    · cases hcc : c.comparisons with
      | none => simp [hcc] at h
      | some comps =>
        by_cases hlen : (!(comps.length == 1)) = true
        · simp [hcc, hlen] at h
        · simp only [hcc, List.mem_flatten, List.mem_map, bool_false_of_not_true hlen,
            Bool.false_eq_true, if_false] at h
          obtain ⟨l, ⟨p, hp, hl⟩, hx2⟩ := h
          rw [← hl] at hx2
          obtain ⟨-, he⟩ := mem_if_singleton.mp hx2
          exact absurd he (by simp)
  · rintro ⟨h1, rfl⟩
    unfold validateCriterion
    apply List.mem_append.mpr
    left
    apply List.mem_append.mpr
    right
    apply mem_if_singleton.mpr
    exact ⟨h1, rfl⟩

theorem vc_kinds {cs : List Item} {ci : Nat} {c : Item} :
    ∀ x ∈ validateCriterion cs ci c,
      (∃ i, x = .missingCriterionId i) ∨ (∃ i, x = .missingCriterionName i) ∨
      (∃ i, x = .missingCriterionComparisons i) ∨
      (∃ i pj, x = .missingCriterionMeasurement i pj) := by
  intro x hx
  unfold validateCriterion at hx
  rcases List.mem_append.mp hx with h12 | h
  rcases List.mem_append.mp h12 with h | h
  · obtain ⟨-, he⟩ := mem_if_singleton.mp h
    exact .inl ⟨ci, he⟩
  · obtain ⟨-, he⟩ := mem_if_singleton.mp h
    exact .inr (.inl ⟨ci, he⟩)
  cases hcc : c.comparisons with
  | none =>
    simp only [hcc, List.mem_singleton] at h
    exact .inr (.inr (.inl ⟨ci, h⟩))
  | some comps =>
    by_cases hlen : (!(comps.length == 1)) = true
    · simp only [hcc, hlen, if_true, List.mem_singleton] at h
      exact .inr (.inr (.inl ⟨ci, h⟩))
    · simp only [hcc, List.mem_flatten, List.mem_map, bool_false_of_not_true hlen,
        Bool.false_eq_true, if_false] at h
      obtain ⟨l, ⟨p, hp, hl⟩, hx2⟩ := h
      rw [← hl] at hx2
      obtain ⟨-, he⟩ := mem_if_singleton.mp hx2
      exact .inr (.inr (.inr ⟨ci, p.1, he⟩))

theorem vap_kinds {ai ci : Nat} {comparison : Cmp} :
    ∀ {l : List (Nat × Item)} {es : List VErr},
      validateAltPairs ai ci comparison l = .ok es →
      ∀ x ∈ es, ∃ pj, x = VErr.missingAlternativeMeasurement ai ci pj := by
  intro l
  induction l with
  | nil =>
    intro es h x hx
    injection h with h2
    rw [← h2] at hx
    cases hx
  | cons p rest ih =>
    intro es h x hx
    unfold validateAltPairs at h
    split at h
    · exact absurd h (by simp)
    next ms hms =>
      split at h
      · exact absurd h (by simp)
      next es2 hes2 =>
        injection h with h2
        rw [← h2] at hx
        rcases List.mem_append.mp hx with h1 | h1
        · obtain ⟨-, he⟩ := mem_if_singleton.mp h1
          exact ⟨p.1, he⟩
        · exact ih hes2 x h1

theorem vap_total {ai ci : Nat} {comparison : Cmp}
    (hms : comparison.measurements.isSome = true) :
    ∀ l : List (Nat × Item), ∃ es, validateAltPairs ai ci comparison l = .ok es := by
  intro l
  induction l with
  | nil => exact ⟨[], rfl⟩
  | cons p rest ih =>
    obtain ⟨ms, hm⟩ := Option.isSome_iff_exists.mp hms
    obtain ⟨es, hes⟩ := ih
    cases hv : validateAltPairs ai ci comparison (p :: rest) with
    | ok es2 => exact ⟨es2, rfl⟩
    | error u =>
      exfalso
      unfold validateAltPairs at hv
      simp [hm, hes] at hv

theorem vac_kinds {ai : Nat} {comps : List Cmp} {others : List (Nat × Item)} :
    ∀ {l : List (Nat × Item)} {es : List VErr},
      validateAltCriteria ai comps others l = .ok es →
      ∀ x ∈ es, (∃ ci, x = VErr.missingAlternativeComparison ai ci)
        ∨ (∃ ci pj, x = VErr.missingAlternativeMeasurement ai ci pj) := by
  intro l
  induction l with
  | nil =>
    intro es h x hx
    injection h with h2
    rw [← h2] at hx
    cases hx
  | cons q rest ih =>
    intro es h x hx
    unfold validateAltCriteria at h
    cases hrec : validateAltCriteria ai comps others rest with
    | error u =>
      exfalso
      cases hf : comps.find? (fun comp => comp.criterionId == q.2.id) with
      | none => simp [hf, hrec] at h
      | some comparison =>
        simp only [hf] at h
        cases hvp : validateAltPairs ai q.1 comparison others with
        | error u2 => simp [hvp] at h
        | ok e => simp [hvp, hrec] at h
    | ok es2 =>
      cases hf : comps.find? (fun comp => comp.criterionId == q.2.id) with
      | none =>
        simp only [hf, hrec] at h
        injection h with h2
        rw [← h2] at hx
        rcases List.mem_append.mp hx with h1 | h1
        · simp only [List.mem_singleton] at h1
          exact .inl ⟨q.1, h1⟩
        · exact ih hrec x h1
      | some comparison =>
        simp only [hf] at h
        cases hvp : validateAltPairs ai q.1 comparison others with
        | error u2 =>
          exfalso
          simp [hvp] at h
        | ok e =>
          simp only [hvp, hrec] at h
          injection h with h2
          rw [← h2] at hx
          rcases List.mem_append.mp hx with h1 | h1
          · obtain ⟨pj, hpj⟩ := vap_kinds hvp x h1
            exact .inr ⟨q.1, pj, hpj⟩
          · exact ih hrec x h1

theorem vac_total {ai : Nat} {comps : List Cmp} {others : List (Nat × Item)}
    (hms : ∀ c ∈ comps, c.measurements.isSome = true) :
    ∀ l : List (Nat × Item), ∃ es, validateAltCriteria ai comps others l = .ok es := by
  intro l
  induction l with
  | nil => exact ⟨[], rfl⟩
  | cons q rest ih =>
    obtain ⟨es, hes⟩ := ih
    cases hv : validateAltCriteria ai comps others (q :: rest) with
    | ok es2 => exact ⟨es2, rfl⟩
    | error u =>
      exfalso
      unfold validateAltCriteria at hv
      cases hf : comps.find? (fun comp => comp.criterionId == q.2.id) with
      | none => simp [hf, hes] at hv
      | some comparison =>
        obtain ⟨es1, hes1⟩ := @vap_total ai q.1 comparison
          (hms comparison (List.mem_of_find?_eq_some hf)) others
        simp [hf, hes1, hes] at hv

theorem va_kinds {csOpt : Option (List Item)} {alts : List Item} {ai : Nat} {a : Item}
    {es : List VErr} (h : validateAlternative csOpt alts ai a = .ok es) :
    ∀ x ∈ es, (∃ i, x = VErr.missingAlternativeId i) ∨ (∃ i, x = VErr.missingAlternativeName i)
      ∨ (∃ i, x = VErr.missingAlternativeComparisons i)
      ∨ (∃ i ci, x = VErr.missingAlternativeComparison i ci)
      ∨ (∃ i ci pj, x = VErr.missingAlternativeMeasurement i ci pj) := by
  intro x hx
  have he1 : ∀ y, y ∈ ((if !(truthyS a.id) then [VErr.missingAlternativeId ai] else [])
      ++ (if strTooShort a.name then [VErr.missingAlternativeName ai] else [])) →
      (∃ i, y = VErr.missingAlternativeId i) ∨ (∃ i, y = VErr.missingAlternativeName i) := by
    intro y hy
    rcases List.mem_append.mp hy with h1 | h1
    · obtain ⟨-, he⟩ := mem_if_singleton.mp h1
      exact .inl ⟨ai, he⟩
    · obtain ⟨-, he⟩ := mem_if_singleton.mp h1
      exact .inr ⟨ai, he⟩
  unfold validateAlternative at h
  cases hcomps : a.comparisons with
  | none =>
    simp only [hcomps] at h
    injection h with h2
    rw [← h2] at hx
    rcases List.mem_append.mp hx with h1 | h1
    · rcases he1 x h1 with h3 | h3
      · exact .inl h3
      · exact .inr (.inl h3)
    · simp only [List.mem_singleton] at h1
      exact .inr (.inr (.inl ⟨ai, h1⟩))
  | some comps =>
    simp only [hcomps] at h
    by_cases hlen : (!(comps.length == (csOpt.map List.length).getD 0)) = true
    · rw [if_pos hlen] at h
      injection h with h2
      rw [← h2] at hx
      rcases List.mem_append.mp hx with h1 | h1
      · rcases he1 x h1 with h3 | h3
        · exact .inl h3
        · exact .inr (.inl h3)
      · simp only [List.mem_singleton] at h1
        exact .inr (.inr (.inl ⟨ai, h1⟩))
    · rw [if_neg hlen] at h
      cases csOpt with
      | none =>
        injection h with h2
        rw [← h2] at hx
        rcases he1 x hx with h3 | h3
        · exact .inl h3
        · exact .inr (.inl h3)
      | some cs =>
        cases hvc : validateAltCriteria ai comps
            (alts.enum.filter (fun p => !(p.2.id == a.id))) cs.enum with
        | error u =>
          exfalso
          simp [hvc] at h
        | ok es2 =>
          simp only [hvc] at h
          injection h with h2
          rw [← h2] at hx
          rcases List.mem_append.mp hx with h1 | h1
          · rcases he1 x h1 with h3 | h3
            · exact .inl h3
            · exact .inr (.inl h3)
          · rcases vac_kinds hvc x h1 with h3 | h3
            · obtain ⟨ci, hci⟩ := h3
              exact .inr (.inr (.inr (.inl ⟨ai, ci, hci⟩)))
            · obtain ⟨ci, pj, hp⟩ := h3
              exact .inr (.inr (.inr (.inr ⟨ai, ci, pj, hp⟩)))

theorem va_total {csOpt : Option (List Item)} {alts : List Item} {ai : Nat} {a : Item}
    (hms : ∀ c ∈ a.comparisons.getD [], c.measurements.isSome = true) :
    ∃ es, validateAlternative csOpt alts ai a = .ok es := by
  cases hv : validateAlternative csOpt alts ai a with
  | ok es => exact ⟨es, rfl⟩
  | error u =>
    exfalso
    unfold validateAlternative at hv
    cases hcomps : a.comparisons with
    | none => simp [hcomps] at hv
    | some comps =>
      rw [hcomps] at hms
      simp only [Option.getD_some] at hms
      by_cases hlen : (!(comps.length == (csOpt.map List.length).getD 0)) = true
      · simp only [hcomps] at hv
        rw [if_pos hlen] at hv
        exact Except.noConfusion hv
      · simp only [hcomps] at hv
        rw [if_neg hlen] at hv
        cases csOpt with
        | none => exact Except.noConfusion hv
        | some cs =>
          obtain ⟨es2, hes2⟩ := @vac_total ai comps
            (alts.enum.filter (fun p => !(p.2.id == a.id))) hms cs.enum
          simp [hes2] at hv

theorem vas_mem {csOpt : Option (List Item)} {alts : List Item} :
    ∀ {l : List (Nat × Item)} {es : List VErr},
      validateAlternatives csOpt alts l = .ok es →
      ∀ x, x ∈ es ↔ ∃ p ∈ l, ∃ e1, validateAlternative csOpt alts p.1 p.2 = .ok e1 ∧ x ∈ e1 := by
  intro l
  induction l with
  | nil =>
    intro es h x
    injection h with h2
    rw [← h2]
    simp
  | cons p rest ih =>
    intro es h x
    unfold validateAlternatives at h
    cases hva : validateAlternative csOpt alts p.1 p.2 with
    | error u =>
      exfalso
      simp [hva] at h
    | ok e =>
      cases hrec : validateAlternatives csOpt alts rest with
      | error u =>
        exfalso
        simp [hva, hrec] at h
      | ok es2 =>
        simp only [hva, hrec] at h
        injection h with h2
        rw [← h2]
        constructor
        · intro hx
          rcases List.mem_append.mp hx with h1 | h1
          · exact ⟨p, List.mem_cons_self p rest, e, hva, h1⟩
          · obtain ⟨q, hq, e1, he1, hx1⟩ := (ih hrec x).mp h1
            exact ⟨q, List.mem_cons_of_mem p hq, e1, he1, hx1⟩
        · rintro ⟨q, hq, e1, he1, hx1⟩
          cases hq with
          | head =>
            rw [hva] at he1
            injection he1 with he1e
            rw [he1e]
            exact List.mem_append.mpr (.inl hx1)
          | tail _ hq2 =>
            exact List.mem_append.mpr (.inr ((ih hrec x).mpr ⟨q, hq2, e1, he1, hx1⟩))

theorem vas_total {csOpt : Option (List Item)} {alts : List Item} :
    ∀ {l : List (Nat × Item)},
      (∀ p ∈ l, ∀ c ∈ p.2.comparisons.getD [], c.measurements.isSome = true) →
      ∃ es, validateAlternatives csOpt alts l = .ok es := by
  intro l
  induction l with
  | nil => exact fun _ => ⟨[], rfl⟩
  | cons p rest ih =>
    intro hms
    obtain ⟨e1, he1⟩ := @va_total csOpt alts p.1 p.2 (hms p (List.mem_cons_self p rest))
    obtain ⟨es, hes⟩ := ih (fun q hq => hms q (List.mem_cons_of_mem p hq))
    cases hv : validateAlternatives csOpt alts (p :: rest) with
    | ok es2 => exact ⟨es2, rfl⟩
    | error u =>
      exfalso
      unfold validateAlternatives at hv
      simp [he1, hes] at hv

theorem bool_down_of_bnot {b : Bool} (h : (!b) = true) : b = false := by
  cases hb : b with
  | false => rfl
  | true =>
    rw [hb] at h
    exact absurd h (by decide)

theorem va_id_mem {csOpt : Option (List Item)} {alts : List Item} {ai : Nat} {a : Item}
    {es : List VErr} (h : validateAlternative csOpt alts ai a = .ok es) {j : Nat} :
    VErr.missingAlternativeId j ∈ es ↔ (truthyS a.id = false ∧ j = ai) := by
  have he1 : VErr.missingAlternativeId j ∈
      ((if !(truthyS a.id) then [VErr.missingAlternativeId ai] else [])
        ++ (if strTooShort a.name then [VErr.missingAlternativeName ai] else [])) ↔
      (truthyS a.id = false ∧ j = ai) := by
    constructor
    · intro hy
      rcases List.mem_append.mp hy with h1 | h1
      · obtain ⟨hc, he⟩ := mem_if_singleton.mp h1
        injection he with hj
        exact ⟨bool_down_of_bnot hc, hj⟩
      · obtain ⟨-, he⟩ := mem_if_singleton.mp h1
        exact absurd he (by simp)
    · rintro ⟨h1, rfl⟩
      exact List.mem_append.mpr (.inl (mem_if_singleton.mpr ⟨by rw [h1]; rfl, rfl⟩))
  unfold validateAlternative at h
  cases hcomps : a.comparisons with
  | none =>
    simp only [hcomps] at h
    injection h with h2
    rw [← h2]
    constructor
    · intro hx
      rcases List.mem_append.mp hx with h1 | h1
      · exact he1.mp h1
      · simp only [List.mem_singleton] at h1
        exact absurd h1 (by simp)
    · intro hx
      exact List.mem_append.mpr (.inl (he1.mpr hx))
  | some comps =>
    simp only [hcomps] at h
    by_cases hlen : (!(comps.length == (csOpt.map List.length).getD 0)) = true
    · rw [if_pos hlen] at h
      injection h with h2
      rw [← h2]
      constructor
      · intro hx
        rcases List.mem_append.mp hx with h1 | h1
        · exact he1.mp h1
        · simp only [List.mem_singleton] at h1
          exact absurd h1 (by simp)
      · intro hx
        exact List.mem_append.mpr (.inl (he1.mpr hx))
    · rw [if_neg hlen] at h
      cases csOpt with
      | none =>
        injection h with h2
        rw [← h2]
        exact he1
      | some cs =>
        cases hvc : validateAltCriteria ai comps
            (alts.enum.filter (fun p => !(p.2.id == a.id))) cs.enum with
        | error u =>
          exfalso
          simp [hvc] at h
        | ok es2 =>
          simp only [hvc] at h
          injection h with h2
          rw [← h2]
          constructor
          · intro hx
            rcases List.mem_append.mp hx with h1 | h1
            · exact he1.mp h1
            · rcases vac_kinds hvc _ h1 with ⟨ci, he⟩ | ⟨ci, pj, he⟩ <;>
                exact VErr.noConfusion he
          · intro hx
            exact List.mem_append.mpr (.inl (he1.mpr hx))

theorem va_name_mem {csOpt : Option (List Item)} {alts : List Item} {ai : Nat} {a : Item}
    {es : List VErr} (h : validateAlternative csOpt alts ai a = .ok es) {j : Nat} :
    VErr.missingAlternativeName j ∈ es ↔ (strTooShort a.name = true ∧ j = ai) := by
  have he1 : VErr.missingAlternativeName j ∈
      ((if !(truthyS a.id) then [VErr.missingAlternativeId ai] else [])
        ++ (if strTooShort a.name then [VErr.missingAlternativeName ai] else [])) ↔
      (strTooShort a.name = true ∧ j = ai) := by
    constructor
    · intro hy
      rcases List.mem_append.mp hy with h1 | h1
      · obtain ⟨-, he⟩ := mem_if_singleton.mp h1
        exact absurd he (by simp)
      · obtain ⟨hc, he⟩ := mem_if_singleton.mp h1
        injection he with hj
        exact ⟨hc, hj⟩
    · rintro ⟨h1, rfl⟩
      exact List.mem_append.mpr (.inr (mem_if_singleton.mpr ⟨h1, rfl⟩))
  unfold validateAlternative at h
  cases hcomps : a.comparisons with
  | none =>
    simp only [hcomps] at h
    injection h with h2
    rw [← h2]
    constructor
    · intro hx
      rcases List.mem_append.mp hx with h1 | h1
      · exact he1.mp h1
      · simp only [List.mem_singleton] at h1
        exact absurd h1 (by simp)
    · intro hx
      exact List.mem_append.mpr (.inl (he1.mpr hx))
  | some comps =>
    simp only [hcomps] at h
    by_cases hlen : (!(comps.length == (csOpt.map List.length).getD 0)) = true
    · rw [if_pos hlen] at h
      injection h with h2
      rw [← h2]
      constructor
      · intro hx
        rcases List.mem_append.mp hx with h1 | h1
        · exact he1.mp h1
        · simp only [List.mem_singleton] at h1
          exact absurd h1 (by simp)
      · intro hx
        exact List.mem_append.mpr (.inl (he1.mpr hx))
    · rw [if_neg hlen] at h
      cases csOpt with
      | none =>
        injection h with h2
        rw [← h2]
        exact he1
      | some cs =>
        cases hvc : validateAltCriteria ai comps
            (alts.enum.filter (fun p => !(p.2.id == a.id))) cs.enum with
        | error u =>
          exfalso
          simp [hvc] at h
        | ok es2 =>
          simp only [hvc] at h
          injection h with h2
          rw [← h2]
          constructor
          · intro hx
            rcases List.mem_append.mp hx with h1 | h1
            · exact he1.mp h1
            · rcases vac_kinds hvc _ h1 with ⟨ci, he⟩ | ⟨ci, pj, he⟩ <;>
                exact VErr.noConfusion he
          · intro hx
            exact List.mem_append.mpr (.inl (he1.mpr hx))

/-! #### validate: comparison-shape and measurement-defect membership -/

theorem critCompsBad_none {c : Item} (h : c.comparisons = none) :
    critCompsBad c = true := by
  unfold critCompsBad
  rw [h]

theorem critCompsBad_some {c : Item} {comps : List Cmp} (h : c.comparisons = some comps) :
    critCompsBad c = !(comps.length == 1) := by
  unfold critCompsBad
  rw [h]

theorem altCompsBad_none {a : Item} {expected : Nat} (h : a.comparisons = none) :
    altCompsBad expected a = true := by
  unfold altCompsBad
  rw [h]

theorem altCompsBad_some {a : Item} {comps : List Cmp} {expected : Nat}
    (h : a.comparisons = some comps) :
    altCompsBad expected a = !(comps.length == expected) := by
  unfold altCompsBad
  rw [h]

theorem critPairWeight_eq {c : Item} {comps : List Cmp} (h : c.comparisons = some comps)
    (pid : Option String) :
    critPairWeight c pid =
      ((comps.head?.bind (fun c0 => c0.measurements)).bind
        (fun ms => ms.find? (fun w => some w.pairId == pid))).bind (fun mm => mm.weight) := by
  unfold critPairWeight
  rw [h]
  simp only [Option.getD_some]

theorem mem_vc_comps {cs : List Item} {ci : Nat} {c : Item} {j : Nat} :
    VErr.missingCriterionComparisons j ∈ validateCriterion cs ci c
      ↔ (critCompsBad c = true ∧ j = ci) := by
  constructor
  · intro hx
    unfold validateCriterion at hx
    rcases List.mem_append.mp hx with h12 | h
    rcases List.mem_append.mp h12 with h | h
    · obtain ⟨-, he⟩ := mem_if_singleton.mp h
      exact absurd he (by simp)
    · obtain ⟨-, he⟩ := mem_if_singleton.mp h
      exact absurd he (by simp)
    · cases hcc : c.comparisons with
      | none =>
        simp only [hcc, List.mem_singleton] at h
        injection h with he2
        exact ⟨critCompsBad_none hcc, he2⟩
      | some comps =>
        by_cases hlen : (!(comps.length == 1)) = true
        · simp only [hcc, hlen, if_true, List.mem_singleton] at h
          injection h with he2
          refine ⟨?_, he2⟩
          rw [critCompsBad_some hcc]
          exact hlen
        · simp only [hcc, List.mem_flatten, List.mem_map, bool_false_of_not_true hlen,
            Bool.false_eq_true, if_false] at h
          obtain ⟨l, ⟨p, hp, hl⟩, hx2⟩ := h
          rw [← hl] at hx2
          obtain ⟨-, he⟩ := mem_if_singleton.mp hx2
          exact absurd he (by simp)
  · rintro ⟨h1, rfl⟩
    unfold validateCriterion
    apply List.mem_append.mpr
    right
    cases hcc : c.comparisons with
    | none => exact List.mem_singleton.mpr rfl
    | some comps =>
      rw [critCompsBad_some hcc] at h1
      simp only [h1, if_true]
      exact List.mem_singleton.mpr rfl

theorem mem_vc_meas {cs : List Item} {ci : Nat} {c : Item} {j pj : Nat} :
    VErr.missingCriterionMeasurement j pj ∈ validateCriterion cs ci c
      ↔ (j = ci ∧ critCompsBad c = false ∧ ∃ p ∈ cs.enum, (p.2.id == c.id) = false ∧
          pj = p.1 ∧ validWeight (critPairWeight c p.2.id) = false) := by
  constructor
  · intro hx
    unfold validateCriterion at hx
    rcases List.mem_append.mp hx with h12 | h
    rcases List.mem_append.mp h12 with h | h
    · obtain ⟨-, he⟩ := mem_if_singleton.mp h
      exact absurd he (by simp)
    · obtain ⟨-, he⟩ := mem_if_singleton.mp h
      exact absurd he (by simp)
    · cases hcc : c.comparisons with
      | none =>
        simp only [hcc, List.mem_singleton] at h
        exact absurd h (by simp)
      | some comps =>
        by_cases hlen : (!(comps.length == 1)) = true
        · simp only [hcc, hlen, if_true, List.mem_singleton] at h
          exact absurd h (by simp)
        · simp only [hcc, List.mem_flatten, List.mem_map, bool_false_of_not_true hlen,
            Bool.false_eq_true, if_false] at h
          obtain ⟨l, ⟨p, hp, hl⟩, hx2⟩ := h
          rw [← hl] at hx2
          obtain ⟨hcond, he⟩ := mem_if_singleton.mp hx2
          injection he with he1 he2
          obtain ⟨hpmem, hpf⟩ := List.mem_filter.mp hp
          refine ⟨he1, ?_, p, hpmem, bool_down_of_bnot hpf, he2, ?_⟩
          · rw [critCompsBad_some hcc]
            exact bool_false_of_not_true hlen
          · rw [critPairWeight_eq hcc]
            exact bool_down_of_bnot hcond
  · rintro ⟨rfl, hbf, p, hpmem, hpne, rfl, hw⟩
    unfold validateCriterion
    apply List.mem_append.mpr
    right
    cases hcc : c.comparisons with
    | none =>
      rw [critCompsBad_none hcc] at hbf
      exact absurd hbf (by simp)
    | some comps =>
      rw [critCompsBad_some hcc] at hbf
      simp only [hbf, Bool.false_eq_true, if_false, List.mem_flatten, List.mem_map]
      refine ⟨[VErr.missingCriterionMeasurement j p.1], ⟨p, ?_, ?_⟩,
        List.mem_singleton.mpr rfl⟩
      · refine List.mem_filter.mpr ⟨hpmem, ?_⟩
        rw [hpne]
        rfl
      · rw [critPairWeight_eq hcc] at hw
        simp only [hw, Bool.not_false, if_true]

theorem vap_meas_mem {ai ci : Nat} {comparison : Cmp} :
    ∀ {l : List (Nat × Item)} {es : List VErr},
      validateAltPairs ai ci comparison l = .ok es →
      ∀ {i ci2 pj : Nat},
        (VErr.missingAlternativeMeasurement i ci2 pj ∈ es ↔
          i = ai ∧ ci2 = ci ∧ ∃ p ∈ l, pj = p.1 ∧
            validWeight (altPairWeight comparison p.2.id) = false) := by
  intro l
  induction l with
  | nil =>
    intro es h i ci2 pj
    injection h with h2
    rw [← h2]
    simp
  | cons p rest ih =>
    intro es h i ci2 pj
    unfold validateAltPairs at h
    split at h
    · exact absurd h (by simp)
    next ms hms =>
      split at h
      · exact absurd h (by simp)
      next es2 hes2 =>
        injection h with h2
        rw [← h2]
        have hread : altPairWeight comparison p.2.id =
            (ms.find? (fun w => some w.pairId == p.2.id)).bind (fun mm => mm.weight) := by
          unfold altPairWeight
          rw [hms]
          simp only [Option.getD_some]
        constructor
        · intro hx
          rcases List.mem_append.mp hx with h1 | h1
          · obtain ⟨hcond, he⟩ := mem_if_singleton.mp h1
            injection he with he1 he2 he3
            refine ⟨he1, he2, p, List.mem_cons_self p rest, he3, ?_⟩
            rw [hread]
            exact bool_down_of_bnot hcond
          · obtain ⟨hi, hci, q, hq, hpj, hw⟩ := (ih hes2).mp h1
            exact ⟨hi, hci, q, List.mem_cons_of_mem p hq, hpj, hw⟩
        · rintro ⟨rfl, rfl, q, hq, rfl, hw⟩
          cases hq with
          | head =>
            apply List.mem_append.mpr
            left
            apply mem_if_singleton.mpr
            refine ⟨?_, rfl⟩
            rw [hread] at hw
            rw [hw]
            rfl
          | tail _ hq2 =>
            exact List.mem_append.mpr (.inr ((ih hes2).mpr ⟨rfl, rfl, q, hq2, rfl, hw⟩))

theorem vac_comp_mem {ai : Nat} {comps : List Cmp} {others : List (Nat × Item)} :
    ∀ {l : List (Nat × Item)} {es : List VErr},
      validateAltCriteria ai comps others l = .ok es →
      ∀ {i ci : Nat},
        (VErr.missingAlternativeComparison i ci ∈ es ↔
          i = ai ∧ ∃ q ∈ l, ci = q.1 ∧
            comps.find? (fun comp => comp.criterionId == q.2.id) = none) := by
  intro l
  induction l with
  | nil =>
    intro es h i ci
    injection h with h2
    rw [← h2]
    simp
  | cons q rest ih =>
    intro es h i ci
    unfold validateAltCriteria at h
    cases hrec : validateAltCriteria ai comps others rest with
    | error u =>
      exfalso
      cases hf : comps.find? (fun comp => comp.criterionId == q.2.id) with
      | none => simp [hf, hrec] at h
      | some comparison =>
        simp only [hf] at h
        cases hvp : validateAltPairs ai q.1 comparison others with
        | error u2 => simp [hvp] at h
        | ok e => simp [hvp, hrec] at h
    | ok es2 =>
      cases hf : comps.find? (fun comp => comp.criterionId == q.2.id) with
      | none =>
        simp only [hf, hrec] at h
        injection h with h2
        rw [← h2]
        constructor
        · intro hx
          rcases List.mem_append.mp hx with h1 | h1
          · simp only [List.mem_singleton] at h1
            injection h1 with he1 he2
            exact ⟨he1, q, List.mem_cons_self q rest, he2, hf⟩
          · obtain ⟨hi, q2, hq2, hci, hfq2⟩ := (ih hrec).mp h1
            exact ⟨hi, q2, List.mem_cons_of_mem q hq2, hci, hfq2⟩
        · rintro ⟨rfl, q2, hq2, rfl, hfq2⟩
          cases hq2 with
          | head => exact List.mem_append.mpr (.inl (List.mem_singleton.mpr rfl))
          | tail _ hq3 =>
            exact List.mem_append.mpr (.inr ((ih hrec).mpr ⟨rfl, q2, hq3, rfl, hfq2⟩))
      | some comparison =>
        simp only [hf] at h
        cases hvp : validateAltPairs ai q.1 comparison others with
        | error u2 =>
          exfalso
          simp [hvp] at h
        | ok e =>
          simp only [hvp, hrec] at h
          injection h with h2
          rw [← h2]
          constructor
          · intro hx
            rcases List.mem_append.mp hx with h1 | h1
            · obtain ⟨pj2, hpj⟩ := vap_kinds hvp _ h1
              exact absurd hpj (by simp)
            · obtain ⟨hi, q2, hq2, hci, hfq2⟩ := (ih hrec).mp h1
              exact ⟨hi, q2, List.mem_cons_of_mem q hq2, hci, hfq2⟩
          · rintro ⟨rfl, q2, hq2, rfl, hfq2⟩
            cases hq2 with
            | head =>
              rw [hf] at hfq2
              exact absurd hfq2 (by simp)
            | tail _ hq3 =>
              exact List.mem_append.mpr (.inr ((ih hrec).mpr ⟨rfl, q2, hq3, rfl, hfq2⟩))

theorem vac_meas_mem {ai : Nat} {comps : List Cmp} {others : List (Nat × Item)} :
    ∀ {l : List (Nat × Item)} {es : List VErr},
      validateAltCriteria ai comps others l = .ok es →
      ∀ {i ci pj : Nat},
        (VErr.missingAlternativeMeasurement i ci pj ∈ es ↔
          i = ai ∧ ∃ q ∈ l, ci = q.1 ∧
            ∃ comparison,
              comps.find? (fun comp => comp.criterionId == q.2.id) = some comparison ∧
              ∃ p ∈ others, pj = p.1 ∧
                validWeight (altPairWeight comparison p.2.id) = false) := by
  intro l
  induction l with
  | nil =>
    intro es h i ci pj
    injection h with h2
    rw [← h2]
    simp
  | cons q rest ih =>
    intro es h i ci pj
    unfold validateAltCriteria at h
    cases hrec : validateAltCriteria ai comps others rest with
    | error u =>
      exfalso
      cases hf : comps.find? (fun comp => comp.criterionId == q.2.id) with
      | none => simp [hf, hrec] at h
      | some comparison =>
        simp only [hf] at h
        cases hvp : validateAltPairs ai q.1 comparison others with
        | error u2 => simp [hvp] at h
        | ok e => simp [hvp, hrec] at h
    | ok es2 =>
      cases hf : comps.find? (fun comp => comp.criterionId == q.2.id) with
      | none =>
        simp only [hf, hrec] at h
        injection h with h2
        rw [← h2]
        constructor
        · intro hx
          rcases List.mem_append.mp hx with h1 | h1
          · simp only [List.mem_singleton] at h1
            exact absurd h1 (by simp)
          · obtain ⟨hi, q2, hq2, rest2⟩ := (ih hrec).mp h1
            exact ⟨hi, q2, List.mem_cons_of_mem q hq2, rest2⟩
        · rintro ⟨rfl, q2, hq2, hci, comparison, hfq2, hp⟩
          cases hq2 with
          | head =>
            rw [hf] at hfq2
            exact absurd hfq2 (by simp)
          | tail _ hq3 =>
            exact List.mem_append.mpr
              (.inr ((ih hrec).mpr ⟨rfl, q2, hq3, hci, comparison, hfq2, hp⟩))
      | some comparison =>
        simp only [hf] at h
        cases hvp : validateAltPairs ai q.1 comparison others with
        | error u2 =>
          exfalso
          simp [hvp] at h
        | ok e =>
          simp only [hvp, hrec] at h
          injection h with h2
          rw [← h2]
          constructor
          · intro hx
            rcases List.mem_append.mp hx with h1 | h1
            · obtain ⟨hi, hci, p, hpmem, hpj, hw⟩ := (vap_meas_mem hvp).mp h1
              exact ⟨hi, q, List.mem_cons_self q rest, hci, comparison, hf, p, hpmem, hpj, hw⟩
            · obtain ⟨hi, q2, hq2, rest2⟩ := (ih hrec).mp h1
              exact ⟨hi, q2, List.mem_cons_of_mem q hq2, rest2⟩
          · rintro ⟨rfl, q2, hq2, hci, comparison2, hfq2, p, hpmem, hpj, hw⟩
            cases hq2 with
            | head =>
              rw [hf] at hfq2
              injection hfq2 with hc2
              subst hc2
              subst hci
              apply List.mem_append.mpr
              left
              exact (vap_meas_mem hvp).mpr ⟨rfl, rfl, p, hpmem, hpj, hw⟩
            | tail _ hq3 =>
              exact List.mem_append.mpr
                (.inr ((ih hrec).mpr ⟨rfl, q2, hq3, hci, comparison2, hfq2, p, hpmem, hpj, hw⟩))

theorem mem_e1_kinds {a : Item} {ai : Nat} :
    ∀ x ∈ ((if !(truthyS a.id) then [VErr.missingAlternativeId ai] else [])
      ++ (if strTooShort a.name then [VErr.missingAlternativeName ai] else [])),
      (∃ k, x = VErr.missingAlternativeId k) ∨ (∃ k, x = VErr.missingAlternativeName k) := by
  intro x hx2
  rcases List.mem_append.mp hx2 with h1 | h1
  · exact .inl ⟨ai, (mem_if_singleton.mp h1).2⟩
  · exact .inr ⟨ai, (mem_if_singleton.mp h1).2⟩

theorem va_comps_mem {csOpt : Option (List Item)} {alts : List Item} {ai : Nat} {a : Item}
    {es : List VErr} (h : validateAlternative csOpt alts ai a = .ok es) {j : Nat} :
    VErr.missingAlternativeComparisons j ∈ es ↔
      (altCompsBad ((csOpt.map List.length).getD 0) a = true ∧ j = ai) := by
  unfold validateAlternative at h
  cases hcomps : a.comparisons with
  | none =>
    simp only [hcomps] at h
    injection h with h2
    rw [← h2]
    constructor
    · intro hx
      rcases List.mem_append.mp hx with h1 | h1
      · rcases mem_e1_kinds _ h1 with ⟨k, hk⟩ | ⟨k, hk⟩ <;> exact absurd hk (by simp)
      · simp only [List.mem_singleton] at h1
        injection h1 with hj
        exact ⟨altCompsBad_none hcomps, hj⟩
    · rintro ⟨hb, rfl⟩
      exact List.mem_append.mpr (.inr (List.mem_singleton.mpr rfl))
  | some comps =>
    simp only [hcomps] at h
    by_cases hlen : (!(comps.length == (csOpt.map List.length).getD 0)) = true
    · rw [if_pos hlen] at h
      injection h with h2
      rw [← h2]
      constructor
      · intro hx
        rcases List.mem_append.mp hx with h1 | h1
        · rcases mem_e1_kinds _ h1 with ⟨k, hk⟩ | ⟨k, hk⟩ <;> exact absurd hk (by simp)
        · simp only [List.mem_singleton] at h1
          injection h1 with hj
          refine ⟨?_, hj⟩
          rw [altCompsBad_some hcomps]
          exact hlen
      · rintro ⟨hb, rfl⟩
        exact List.mem_append.mpr (.inr (List.mem_singleton.mpr rfl))
    · have hbf : altCompsBad ((csOpt.map List.length).getD 0) a = false := by
        rw [altCompsBad_some hcomps]
        exact bool_false_of_not_true hlen
      rw [if_neg hlen] at h
      cases csOpt with
      | none =>
        injection h with h2
        rw [← h2]
        constructor
        · intro hx
          rcases mem_e1_kinds _ hx with ⟨k, hk⟩ | ⟨k, hk⟩ <;> exact absurd hk (by simp)
        · rintro ⟨hb, rfl⟩
          rw [hbf] at hb
          exact absurd hb (by simp)
      | some cs =>
        cases hvc : validateAltCriteria ai comps
            (alts.enum.filter (fun p => !(p.2.id == a.id))) cs.enum with
        | error u =>
          exfalso
          simp [hvc] at h
        | ok es2 =>
          simp only [hvc] at h
          injection h with h2
          rw [← h2]
          constructor
          · intro hx
            rcases List.mem_append.mp hx with h1 | h1
            · rcases mem_e1_kinds _ h1 with ⟨k, hk⟩ | ⟨k, hk⟩ <;> exact absurd hk (by simp)
            · rcases vac_kinds hvc _ h1 with ⟨ci, he⟩ | ⟨ci, pj, he⟩ <;>
                exact absurd he (by simp)
          · rintro ⟨hb, rfl⟩
            rw [hbf] at hb
            exact absurd hb (by simp)

theorem va_comp_mem {cs : List Item} {alts : List Item} {ai : Nat} {a : Item}
    {es : List VErr} (h : validateAlternative (some cs) alts ai a = .ok es) {j ci : Nat} :
    VErr.missingAlternativeComparison j ci ∈ es ↔
      (j = ai ∧ altCompsBad cs.length a = false ∧ ∃ q ∈ cs.enum, ci = q.1 ∧
        (a.comparisons.getD []).find? (fun comp => comp.criterionId == q.2.id) = none) := by
  unfold validateAlternative at h
  simp only [Option.map_some', Option.getD_some] at h
  cases hcomps : a.comparisons with
  | none =>
    simp only [hcomps] at h
    injection h with h2
    rw [← h2]
    constructor
    · intro hx
      rcases List.mem_append.mp hx with h1 | h1
      · rcases mem_e1_kinds _ h1 with ⟨k, hk⟩ | ⟨k, hk⟩ <;> exact absurd hk (by simp)
      · simp only [List.mem_singleton] at h1
        exact absurd h1 (by simp)
    · rintro ⟨rfl, hb, hrest⟩
      rw [altCompsBad_none hcomps] at hb
      exact absurd hb (by simp)
  | some comps =>
    simp only [hcomps] at h
    by_cases hlen : (!(comps.length == cs.length)) = true
    · rw [if_pos hlen] at h
      injection h with h2
      rw [← h2]
      constructor
      · intro hx
        rcases List.mem_append.mp hx with h1 | h1
        · rcases mem_e1_kinds _ h1 with ⟨k, hk⟩ | ⟨k, hk⟩ <;> exact absurd hk (by simp)
        · simp only [List.mem_singleton] at h1
          exact absurd h1 (by simp)
      · rintro ⟨rfl, hb, hrest⟩
        rw [altCompsBad_some hcomps] at hb
        rw [hlen] at hb
        exact absurd hb (by simp)
    · have hbf : altCompsBad cs.length a = false := by
        rw [altCompsBad_some hcomps]
        exact bool_false_of_not_true hlen
      rw [if_neg hlen] at h
      cases hvc : validateAltCriteria ai comps
          (alts.enum.filter (fun p => !(p.2.id == a.id))) cs.enum with
      | error u =>
        exfalso
        simp [hvc] at h
      | ok es2 =>
        simp only [hvc] at h
        injection h with h2
        rw [← h2]
        constructor
        · intro hx
          rcases List.mem_append.mp hx with h1 | h1
          · rcases mem_e1_kinds _ h1 with ⟨k, hk⟩ | ⟨k, hk⟩ <;> exact absurd hk (by simp)
          · obtain ⟨hj, q, hq, hci, hfq⟩ := (vac_comp_mem hvc).mp h1
            exact ⟨hj, hbf, q, hq, hci, hfq⟩
        · rintro ⟨rfl, hb, q, hq, hci, hfq⟩
          apply List.mem_append.mpr
          right
          exact (vac_comp_mem hvc).mpr ⟨rfl, q, hq, hci, hfq⟩

theorem va_meas_mem {cs : List Item} {alts : List Item} {ai : Nat} {a : Item}
    {es : List VErr} (h : validateAlternative (some cs) alts ai a = .ok es) {j ci pj : Nat} :
    VErr.missingAlternativeMeasurement j ci pj ∈ es ↔
      (j = ai ∧ altCompsBad cs.length a = false ∧ ∃ q ∈ cs.enum, ci = q.1 ∧
        ∃ comparison, (a.comparisons.getD []).find?
            (fun comp => comp.criterionId == q.2.id) = some comparison ∧
          ∃ b ∈ alts.enum, (b.2.id == a.id) = false ∧ pj = b.1 ∧
            validWeight (altPairWeight comparison b.2.id) = false) := by
  unfold validateAlternative at h
  simp only [Option.map_some', Option.getD_some] at h
  cases hcomps : a.comparisons with
  | none =>
    simp only [hcomps] at h
    injection h with h2
    rw [← h2]
    constructor
    · intro hx
      rcases List.mem_append.mp hx with h1 | h1
      · rcases mem_e1_kinds _ h1 with ⟨k, hk⟩ | ⟨k, hk⟩ <;> exact absurd hk (by simp)
      · simp only [List.mem_singleton] at h1
        exact absurd h1 (by simp)
    · rintro ⟨rfl, hb, hrest⟩
      rw [altCompsBad_none hcomps] at hb
      exact absurd hb (by simp)
  | some comps =>
    simp only [hcomps] at h
    by_cases hlen : (!(comps.length == cs.length)) = true
    · rw [if_pos hlen] at h
      injection h with h2
      rw [← h2]
      constructor
      · intro hx
        rcases List.mem_append.mp hx with h1 | h1
        · rcases mem_e1_kinds _ h1 with ⟨k, hk⟩ | ⟨k, hk⟩ <;> exact absurd hk (by simp)
        · simp only [List.mem_singleton] at h1
          exact absurd h1 (by simp)
      · rintro ⟨rfl, hb, hrest⟩
        rw [altCompsBad_some hcomps] at hb
        rw [hlen] at hb
        exact absurd hb (by simp)
    · have hbf : altCompsBad cs.length a = false := by
        rw [altCompsBad_some hcomps]
        exact bool_false_of_not_true hlen
      rw [if_neg hlen] at h
      cases hvc : validateAltCriteria ai comps
          (alts.enum.filter (fun p => !(p.2.id == a.id))) cs.enum with
      | error u =>
        exfalso
        simp [hvc] at h
      | ok es2 =>
        simp only [hvc] at h
        injection h with h2
        rw [← h2]
        constructor
        · intro hx
          rcases List.mem_append.mp hx with h1 | h1
          · rcases mem_e1_kinds _ h1 with ⟨k, hk⟩ | ⟨k, hk⟩ <;> exact absurd hk (by simp)
          · obtain ⟨hj, q, hq, hci, comparison, hfq, b, hbfil, hpj, hw⟩ :=
              (vac_meas_mem hvc).mp h1
            obtain ⟨hbmem, hbpf⟩ := List.mem_filter.mp hbfil
            exact ⟨hj, hbf, q, hq, hci, comparison, hfq, b, hbmem,
              bool_down_of_bnot hbpf, hpj, hw⟩
        · rintro ⟨rfl, hb, q, hq, hci, comparison, hfq, b, hbmem, hbne, hpj, hw⟩
          apply List.mem_append.mpr
          right
          refine (vac_meas_mem hvc).mpr ⟨rfl, q, hq, hci, comparison, hfq, b, ?_, hpj, hw⟩
          refine List.mem_filter.mpr ⟨hbmem, ?_⟩
          rw [hbne]
          rfl

theorem vas_comps_mem {csOpt : Option (List Item)} {alts : List Item}
    {l : List (Nat × Item)} {es : List VErr}
    (h : validateAlternatives csOpt alts l = .ok es)
    (hms : ∀ p ∈ l, ∀ c ∈ p.2.comparisons.getD [], c.measurements.isSome = true) {j : Nat} :
    VErr.missingAlternativeComparisons j ∈ es ↔
      ∃ p ∈ l, altCompsBad ((csOpt.map List.length).getD 0) p.2 = true ∧ j = p.1 := by
  rw [vas_mem h (VErr.missingAlternativeComparisons j)]
  constructor
  · rintro ⟨p, hp, e1, he1, hx1⟩
    obtain ⟨hb, hj⟩ := (va_comps_mem he1).mp hx1
    exact ⟨p, hp, hb, hj⟩
  · rintro ⟨p, hp, hb, hj⟩
    obtain ⟨e1, he1⟩ := @va_total csOpt alts p.1 p.2 (hms p hp)
    exact ⟨p, hp, e1, he1, (va_comps_mem he1).mpr ⟨hb, hj⟩⟩

theorem vas_comp_mem {cs : List Item} {alts : List Item}
    {l : List (Nat × Item)} {es : List VErr}
    (h : validateAlternatives (some cs) alts l = .ok es)
    (hms : ∀ p ∈ l, ∀ c ∈ p.2.comparisons.getD [], c.measurements.isSome = true)
    {j ci : Nat} :
    VErr.missingAlternativeComparison j ci ∈ es ↔
      ∃ p ∈ l, j = p.1 ∧ altCompsBad cs.length p.2 = false ∧ ∃ q ∈ cs.enum, ci = q.1 ∧
        (p.2.comparisons.getD []).find? (fun comp => comp.criterionId == q.2.id) = none := by
  rw [vas_mem h (VErr.missingAlternativeComparison j ci)]
  constructor
  · rintro ⟨p, hp, e1, he1, hx1⟩
    obtain ⟨hj, hb, q, hq, hci, hfq⟩ := (va_comp_mem he1).mp hx1
    exact ⟨p, hp, hj, hb, q, hq, hci, hfq⟩
  · rintro ⟨p, hp, hj, hb, q, hq, hci, hfq⟩
    obtain ⟨e1, he1⟩ := @va_total (some cs) alts p.1 p.2 (hms p hp)
    exact ⟨p, hp, e1, he1, (va_comp_mem he1).mpr ⟨hj, hb, q, hq, hci, hfq⟩⟩

theorem vas_meas_mem {cs : List Item} {alts : List Item}
    {l : List (Nat × Item)} {es : List VErr}
    (h : validateAlternatives (some cs) alts l = .ok es)
    (hms : ∀ p ∈ l, ∀ c ∈ p.2.comparisons.getD [], c.measurements.isSome = true)
    {j ci pj : Nat} :
    VErr.missingAlternativeMeasurement j ci pj ∈ es ↔
      ∃ p ∈ l, j = p.1 ∧ altCompsBad cs.length p.2 = false ∧ ∃ q ∈ cs.enum, ci = q.1 ∧
        ∃ comparison, (p.2.comparisons.getD []).find?
            (fun comp => comp.criterionId == q.2.id) = some comparison ∧
          ∃ b ∈ alts.enum, (b.2.id == p.2.id) = false ∧ pj = b.1 ∧
            validWeight (altPairWeight comparison b.2.id) = false := by
  rw [vas_mem h (VErr.missingAlternativeMeasurement j ci pj)]
  constructor
  · rintro ⟨p, hp, e1, he1, hx1⟩
    obtain ⟨hj, hb, q, hq, hci, comparison, hfq, b, hbmem, hbne, hpj, hw⟩ :=
      (va_meas_mem he1).mp hx1
    exact ⟨p, hp, hj, hb, q, hq, hci, comparison, hfq, b, hbmem, hbne, hpj, hw⟩
  · rintro ⟨p, hp, hj, hb, q, hq, hci, comparison, hfq, b, hbmem, hbne, hpj, hw⟩
    obtain ⟨e1, he1⟩ := @va_total (some cs) alts p.1 p.2 (hms p hp)
    exact ⟨p, hp, e1, he1, (va_meas_mem he1).mpr
      ⟨hj, hb, q, hq, hci, comparison, hfq, b, hbmem, hbne, hpj, hw⟩⟩

theorem vas_kinds {csOpt : Option (List Item)} {alts : List Item}
    {l : List (Nat × Item)} {es : List VErr}
    (h : validateAlternatives csOpt alts l = .ok es) :
    ∀ x ∈ es, (∃ i, x = VErr.missingAlternativeId i) ∨ (∃ i, x = VErr.missingAlternativeName i)
      ∨ (∃ i, x = VErr.missingAlternativeComparisons i)
      ∨ (∃ i ci, x = VErr.missingAlternativeComparison i ci)
      ∨ (∃ i ci pj, x = VErr.missingAlternativeMeasurement i ci pj) := by
  intro x hx
  obtain ⟨p, hp, e1, he1, hx1⟩ := (vas_mem h x).mp hx
  exact va_kinds he1 x hx1

theorem vas_id_mem {csOpt : Option (List Item)} {alts : List Item}
    {l : List (Nat × Item)} {es : List VErr}
    (h : validateAlternatives csOpt alts l = .ok es)
    (hms : ∀ p ∈ l, ∀ c ∈ p.2.comparisons.getD [], c.measurements.isSome = true) {j : Nat} :
    VErr.missingAlternativeId j ∈ es ↔ ∃ p ∈ l, truthyS p.2.id = false ∧ j = p.1 := by
  rw [vas_mem h (VErr.missingAlternativeId j)]
  constructor
  · rintro ⟨p, hp, e1, he1, hx1⟩
    exact ⟨p, hp, (va_id_mem he1).mp hx1⟩
  · rintro ⟨p, hp, htr, hj⟩
    obtain ⟨e1, he1⟩ := @va_total csOpt alts p.1 p.2 (hms p hp)
    exact ⟨p, hp, e1, he1, (va_id_mem he1).mpr ⟨htr, hj⟩⟩

theorem vas_name_mem {csOpt : Option (List Item)} {alts : List Item}
    {l : List (Nat × Item)} {es : List VErr}
    (h : validateAlternatives csOpt alts l = .ok es)
    (hms : ∀ p ∈ l, ∀ c ∈ p.2.comparisons.getD [], c.measurements.isSome = true) {j : Nat} :
    VErr.missingAlternativeName j ∈ es ↔ ∃ p ∈ l, strTooShort p.2.name = true ∧ j = p.1 := by
  rw [vas_mem h (VErr.missingAlternativeName j)]
  constructor
  · rintro ⟨p, hp, e1, he1, hx1⟩
    exact ⟨p, hp, (va_name_mem he1).mp hx1⟩
  · rintro ⟨p, hp, htr, hj⟩
    obtain ⟨e1, he1⟩ := @va_total csOpt alts p.1 p.2 (hms p hp)
    exact ⟨p, hp, e1, he1, (va_name_mem he1).mpr ⟨htr, hj⟩⟩

theorem mem_vE0_did {d : Decision} :
    VErr.missingDecisionId ∈ vE0 d ↔ truthyS d.id = false := by
  unfold vE0
  constructor
  · intro hx
    rcases List.mem_append.mp hx with h123 | h4
    rcases List.mem_append.mp h123 with h12 | h3
    rcases List.mem_append.mp h12 with h1 | h2
    · obtain ⟨hc, -⟩ := mem_if_singleton.mp h1
      exact bool_down_of_bnot hc
    · obtain ⟨-, he⟩ := mem_if_singleton.mp h2
      exact absurd he (by simp)
    · cases hcr : d.criteria with
      | none => simp [hcr] at h3
      | some cs =>
        by_cases hl : cs.length < 2
        · simp [hcr, hl] at h3
        · simp [hcr, hl] at h3
    · cases halt : d.alternatives with
      | none => simp [halt] at h4
      | some alts =>
        by_cases hl : alts.length < 2
        · simp [halt, hl] at h4
        · simp [halt, hl] at h4
  · intro h1
    apply List.mem_append.mpr
    left
    apply List.mem_append.mpr
    left
    apply List.mem_append.mpr
    left
    exact mem_if_singleton.mpr ⟨by rw [h1]; rfl, rfl⟩

theorem mem_vE0_goal {d : Decision} :
    VErr.missingDecisionGoal ∈ vE0 d ↔ strTooShort d.goal = true := by
  unfold vE0
  constructor
  · intro hx
    rcases List.mem_append.mp hx with h123 | h4
    rcases List.mem_append.mp h123 with h12 | h3
    rcases List.mem_append.mp h12 with h1 | h2
    · obtain ⟨-, he⟩ := mem_if_singleton.mp h1
      exact absurd he (by simp)
    · obtain ⟨hc, -⟩ := mem_if_singleton.mp h2
      exact hc
    · cases hcr : d.criteria with
      | none => simp [hcr] at h3
      | some cs =>
        by_cases hl : cs.length < 2
        · simp [hcr, hl] at h3
        · simp [hcr, hl] at h3
    · cases halt : d.alternatives with
      | none => simp [halt] at h4
      | some alts =>
        by_cases hl : alts.length < 2
        · simp [halt, hl] at h4
        · simp [halt, hl] at h4
  · intro h1
    apply List.mem_append.mpr
    left
    apply List.mem_append.mpr
    left
    apply List.mem_append.mpr
    right
    exact mem_if_singleton.mpr ⟨h1, rfl⟩

theorem mem_vE0_crit {d : Decision} :
    VErr.insufficientCriteria ∈ vE0 d ↔ (d.criteria.map List.length).getD 0 < 2 := by
  unfold vE0
  constructor
  · intro hx
    rcases List.mem_append.mp hx with h123 | h4
    rcases List.mem_append.mp h123 with h12 | h3
    rcases List.mem_append.mp h12 with h1 | h2
    · obtain ⟨-, he⟩ := mem_if_singleton.mp h1
      exact absurd he (by simp)
    · obtain ⟨-, he⟩ := mem_if_singleton.mp h2
      exact absurd he (by simp)
    · cases hcr : d.criteria with
      | none => simp [hcr]
      | some cs =>
        by_cases hl : cs.length < 2
        · simpa using hl
        · simp [hcr, hl] at h3
    · cases halt : d.alternatives with
      | none => simp [halt] at h4
      | some alts =>
        by_cases hl : alts.length < 2
        · simp [halt, hl] at h4
        · simp [halt, hl] at h4
  · intro h1
    apply List.mem_append.mpr
    left
    apply List.mem_append.mpr
    right
    cases hcr : d.criteria with
    | none => exact List.mem_singleton.mpr rfl
    | some cs =>
      rw [hcr] at h1
      simp only [Option.map_some', Option.getD_some] at h1
      show VErr.insufficientCriteria ∈ (if cs.length < 2 then [VErr.insufficientCriteria] else [])
      rw [if_pos h1]
      exact List.mem_singleton.mpr rfl

theorem mem_vE0_alt {d : Decision} :
    VErr.insufficientAlternatives ∈ vE0 d ↔ (d.alternatives.map List.length).getD 0 < 2 := by
  unfold vE0
  constructor
  · intro hx
    rcases List.mem_append.mp hx with h123 | h4
    rcases List.mem_append.mp h123 with h12 | h3
    rcases List.mem_append.mp h12 with h1 | h2
    · obtain ⟨-, he⟩ := mem_if_singleton.mp h1
      exact absurd he (by simp)
    · obtain ⟨-, he⟩ := mem_if_singleton.mp h2
      exact absurd he (by simp)
    · cases hcr : d.criteria with
      | none => simp [hcr] at h3
      | some cs =>
        by_cases hl : cs.length < 2
        · simp [hcr, hl] at h3
        · simp [hcr, hl] at h3
    · cases halt : d.alternatives with
      | none => simp [halt]
      | some alts =>
        by_cases hl : alts.length < 2
        · simpa using hl
        · simp [halt, hl] at h4
  · intro h1
    apply List.mem_append.mpr
    right
    cases halt : d.alternatives with
    | none => exact List.mem_singleton.mpr rfl
    | some alts =>
      rw [halt] at h1
      simp only [Option.map_some', Option.getD_some] at h1
      show VErr.insufficientAlternatives ∈ (if alts.length < 2 then [VErr.insufficientAlternatives] else [])
      rw [if_pos h1]
      exact List.mem_singleton.mpr rfl

theorem vE0_kinds {d : Decision} :
    ∀ x ∈ vE0 d, x = VErr.missingDecisionId ∨ x = VErr.missingDecisionGoal
      ∨ x = VErr.insufficientCriteria ∨ x = VErr.insufficientAlternatives := by
  intro x hx
  unfold vE0 at hx
  rcases List.mem_append.mp hx with h123 | h4
  rcases List.mem_append.mp h123 with h12 | h3
  rcases List.mem_append.mp h12 with h1 | h2
  · exact .inl (mem_if_singleton.mp h1).2
  · exact .inr (.inl (mem_if_singleton.mp h2).2)
  · cases hcr : d.criteria with
    | none =>
      simp only [hcr, List.mem_singleton] at h3
      exact .inr (.inr (.inl h3))
    | some cs =>
      by_cases hl : cs.length < 2
      · simp only [hcr, if_pos hl, List.mem_singleton] at h3
        exact .inr (.inr (.inl h3))
      · simp [hcr, hl] at h3
  · cases halt : d.alternatives with
    | none =>
      simp only [halt, List.mem_singleton] at h4
      exact .inr (.inr (.inr h4))
    | some alts =>
      by_cases hl : alts.length < 2
      · simp only [halt, if_pos hl, List.mem_singleton] at h4
        exact .inr (.inr (.inr h4))
      · simp [halt, hl] at h4

theorem vE1_kinds {d : Decision} :
    ∀ x ∈ vE1 d, (∃ i, x = VErr.missingCriterionId i) ∨ (∃ i, x = VErr.missingCriterionName i)
      ∨ (∃ i, x = VErr.missingCriterionComparisons i)
      ∨ (∃ i pj, x = VErr.missingCriterionMeasurement i pj) := by
  intro x hx
  unfold vE1 at hx
  cases hcr : d.criteria with
  | none => simp [hcr] at hx
  | some cs =>
    simp only [hcr, List.mem_flatten, List.mem_map] at hx
    obtain ⟨l, ⟨q, hq, hl⟩, hx2⟩ := hx
    rw [← hl] at hx2
    exact vc_kinds x hx2

theorem mem_vE1_id {d : Decision} {cs : List Item} (hcr : d.criteria = some cs) {j : Nat} :
    VErr.missingCriterionId j ∈ vE1 d ↔ ∃ c, cs.get? j = some c ∧ truthyS c.id = false := by
  unfold vE1
  rw [hcr]
  constructor
  · intro hx
    simp only [List.mem_flatten, List.mem_map] at hx
    obtain ⟨l, ⟨q, hq, hl⟩, hx2⟩ := hx
    rw [← hl] at hx2
    obtain ⟨htr, hj⟩ := mem_vc_id.mp hx2
    refine ⟨q.2, ?_, htr⟩
    rw [hj]
    exact List.mem_enum_iff_get?.mp hq
  · rintro ⟨c, hget, htr⟩
    simp only [List.mem_flatten, List.mem_map]
    exact ⟨validateCriterion cs j c, ⟨(j, c), List.mem_enum_iff_get?.mpr hget, rfl⟩,
      mem_vc_id.mpr ⟨htr, rfl⟩⟩

theorem mem_vE1_name {d : Decision} {cs : List Item} (hcr : d.criteria = some cs) {j : Nat} :
    VErr.missingCriterionName j ∈ vE1 d ↔ ∃ c, cs.get? j = some c ∧ strTooShort c.name = true := by
  unfold vE1
  rw [hcr]
  constructor
  · intro hx
    simp only [List.mem_flatten, List.mem_map] at hx
    obtain ⟨l, ⟨q, hq, hl⟩, hx2⟩ := hx
    rw [← hl] at hx2
    obtain ⟨htr, hj⟩ := mem_vc_name.mp hx2
    refine ⟨q.2, ?_, htr⟩
    rw [hj]
    exact List.mem_enum_iff_get?.mp hq
  · rintro ⟨c, hget, htr⟩
    simp only [List.mem_flatten, List.mem_map]
    exact ⟨validateCriterion cs j c, ⟨(j, c), List.mem_enum_iff_get?.mpr hget, rfl⟩,
      mem_vc_name.mpr ⟨htr, rfl⟩⟩

theorem mem_vE1_comps {d : Decision} {cs : List Item} (hcr : d.criteria = some cs) {j : Nat} :
    VErr.missingCriterionComparisons j ∈ vE1 d ↔
      ∃ c, cs.get? j = some c ∧ critCompsBad c = true := by
  unfold vE1
  rw [hcr]
  constructor
  · intro hx
    simp only [List.mem_flatten, List.mem_map] at hx
    obtain ⟨l, ⟨q, hq, hl⟩, hx2⟩ := hx
    rw [← hl] at hx2
    obtain ⟨hb, hj⟩ := mem_vc_comps.mp hx2
    refine ⟨q.2, ?_, hb⟩
    rw [hj]
    exact List.mem_enum_iff_get?.mp hq
  · rintro ⟨c, hget, hb⟩
    simp only [List.mem_flatten, List.mem_map]
    exact ⟨validateCriterion cs j c, ⟨(j, c), List.mem_enum_iff_get?.mpr hget, rfl⟩,
      mem_vc_comps.mpr ⟨hb, rfl⟩⟩

theorem mem_vE1_meas {d : Decision} {cs : List Item} (hcr : d.criteria = some cs)
    {j pj : Nat} :
    VErr.missingCriterionMeasurement j pj ∈ vE1 d ↔
      ∃ c, cs.get? j = some c ∧ critCompsBad c = false ∧
        ∃ p, cs.get? pj = some p ∧ (p.id == c.id) = false ∧
          validWeight (critPairWeight c p.id) = false := by
  unfold vE1
  rw [hcr]
  constructor
  · intro hx
    simp only [List.mem_flatten, List.mem_map] at hx
    obtain ⟨l, ⟨q, hq, hl⟩, hx2⟩ := hx
    rw [← hl] at hx2
    obtain ⟨hj, hb, p, hpmem, hpne, hpj, hw⟩ := mem_vc_meas.mp hx2
    refine ⟨q.2, ?_, hb, p.2, ?_, hpne, hw⟩
    · rw [hj]
      exact List.mem_enum_iff_get?.mp hq
    · rw [hpj]
      exact List.mem_enum_iff_get?.mp hpmem
  · rintro ⟨c, hget, hb, p, hpget, hpne, hw⟩
    simp only [List.mem_flatten, List.mem_map]
    exact ⟨validateCriterion cs j c, ⟨(j, c), List.mem_enum_iff_get?.mpr hget, rfl⟩,
      mem_vc_meas.mpr ⟨rfl, hb, (pj, p), List.mem_enum_iff_get?.mpr hpget, hpne, rfl, hw⟩⟩

theorem vE0_level {d : Decision} {x : VErr} (hx : x ∈ vE0 d) : x.level = 0 := by
  rcases vE0_kinds x hx with rfl | rfl | rfl | rfl <;> rfl

theorem vE1_level {d : Decision} {x : VErr} (hx : x ∈ vE1 d) : x.level = 1 := by
  rcases vE1_kinds x hx with ⟨i, rfl⟩ | ⟨i, rfl⟩ | ⟨i, rfl⟩ | ⟨i, pj, rfl⟩ <;> rfl

theorem vas_level {csOpt : Option (List Item)} {alts : List Item}
    {l : List (Nat × Item)} {es : List VErr}
    (h : validateAlternatives csOpt alts l = .ok es) {x : VErr} (hx : x ∈ es) :
    x.level = 2 := by
  rcases vas_kinds h x hx with ⟨i, rfl⟩ | ⟨i, rfl⟩ | ⟨i, rfl⟩ | ⟨i, ci, rfl⟩ | ⟨i, ci, pj, rfl⟩ <;>
    rfl

theorem mem_append3_0 {x : VErr} {A B C : List VErr}
    (hB : ∀ y ∈ B, VErr.level y = 1) (hC : ∀ y ∈ C, VErr.level y = 2)
    (hx : VErr.level x = 0) : x ∈ A ++ B ++ C ↔ x ∈ A := by
  constructor
  · intro h
    rcases List.mem_append.mp h with h12 | h3
    rcases List.mem_append.mp h12 with h1 | h2
    · exact h1
    · rw [hB x h2] at hx
      exact absurd hx (by decide)
    · rw [hC x h3] at hx
      exact absurd hx (by decide)
  · intro h
    exact List.mem_append.mpr (.inl (List.mem_append.mpr (.inl h)))

theorem mem_append3_1 {x : VErr} {A B C : List VErr}
    (hA : ∀ y ∈ A, VErr.level y = 0) (hC : ∀ y ∈ C, VErr.level y = 2)
    (hx : VErr.level x = 1) : x ∈ A ++ B ++ C ↔ x ∈ B := by
  constructor
  · intro h
    rcases List.mem_append.mp h with h12 | h3
    rcases List.mem_append.mp h12 with h1 | h2
    · rw [hA x h1] at hx
      exact absurd hx (by decide)
    · exact h2
    · rw [hC x h3] at hx
      exact absurd hx (by decide)
  · intro h
    exact List.mem_append.mpr (.inl (List.mem_append.mpr (.inr h)))

theorem mem_append3_2 {x : VErr} {A B C : List VErr}
    (hA : ∀ y ∈ A, VErr.level y = 0) (hB : ∀ y ∈ B, VErr.level y = 1)
    (hx : VErr.level x = 2) : x ∈ A ++ B ++ C ↔ x ∈ C := by
  constructor
  · intro h
    rcases List.mem_append.mp h with h12 | h3
    rcases List.mem_append.mp h12 with h1 | h2
    · rw [hA x h1] at hx
      exact absurd hx (by decide)
    · rw [hB x h2] at hx
      exact absurd hx (by decide)
    · exact h3
  · intro h
    exact List.mem_append.mpr (.inr h)

theorem validate_ok {d : Decision} {e2 : List VErr}
    (he2 : (match d.alternatives with
            | none => Except.ok ([] : List VErr)
            | some alts => validateAlternatives d.criteria alts alts.enum) = .ok e2) :
    validate d = .ok { errors := vE0 d ++ vE1 d ++ e2,
                       valid := (vE0 d ++ vE1 d ++ e2).isEmpty } := by
  simp only [validate]
  rw [he2]
  rfl

theorem validate_total {d : Decision}
    (hms : ∀ a ∈ d.alternatives.getD [], ∀ c ∈ a.comparisons.getD [],
      c.measurements.isSome = true) :
    ∃ e2, (match d.alternatives with
           | none => Except.ok ([] : List VErr)
           | some alts => validateAlternatives d.criteria alts alts.enum) = .ok e2 := by
  cases halt : d.alternatives with
  | none => exact ⟨[], rfl⟩
  | some alts =>
    rw [halt] at hms
    simp only [Option.getD_some] at hms
    exact @vas_total d.criteria alts alts.enum
      (fun p hp => hms p.2 (List.snd_mem_of_mem_enum hp))

/-- C8 (amended): provided every alternative comparison carries a
measurements array, validate returns normally with a report whose valid
flag is true exactly when its error list is empty, and whose error list
enumerates every defect at once rather than stopping at the first: each
decision-level defect; each criterion's missing id, missing or short
name, malformed comparisons array, and missing or out-of-scale
measurement against each other criterion; and each alternative's missing
id, missing or short name, wrong comparisons count, missing per-criterion
comparison, and missing or out-of-scale measurement pair -- each appears
in the list exactly when the corresponding defect is present,
independently of the other defects. -/
theorem validate_report {d : Decision}
    (hms : ∀ a ∈ d.alternatives.getD [], ∀ c ∈ a.comparisons.getD [],
      c.measurements.isSome = true) :
    ∃ r, validate d = .ok r
      ∧ (r.valid = true ↔ r.errors = [])
      ∧ (VErr.missingDecisionId ∈ r.errors ↔ truthyS d.id = false)
      ∧ (VErr.missingDecisionGoal ∈ r.errors ↔ strTooShort d.goal = true)
      ∧ (VErr.insufficientCriteria ∈ r.errors ↔ (d.criteria.map List.length).getD 0 < 2)
      ∧ (VErr.insufficientAlternatives ∈ r.errors ↔ (d.alternatives.map List.length).getD 0 < 2)
      ∧ (∀ cs, d.criteria = some cs → ∀ j,
          (VErr.missingCriterionId j ∈ r.errors ↔ ∃ c, cs.get? j = some c ∧ truthyS c.id = false)
          ∧ (VErr.missingCriterionName j ∈ r.errors ↔
              ∃ c, cs.get? j = some c ∧ strTooShort c.name = true)
          ∧ (VErr.missingCriterionComparisons j ∈ r.errors ↔
              ∃ c, cs.get? j = some c ∧ critCompsBad c = true)
          ∧ (∀ pj, VErr.missingCriterionMeasurement j pj ∈ r.errors ↔
              ∃ c, cs.get? j = some c ∧ critCompsBad c = false ∧
                ∃ p, cs.get? pj = some p ∧ (p.id == c.id) = false ∧
                  validWeight (critPairWeight c p.id) = false))
      ∧ (∀ alts, d.alternatives = some alts → ∀ j,
          (VErr.missingAlternativeId j ∈ r.errors ↔
              ∃ a, alts.get? j = some a ∧ truthyS a.id = false)
          ∧ (VErr.missingAlternativeName j ∈ r.errors ↔
              ∃ a, alts.get? j = some a ∧ strTooShort a.name = true)
          ∧ (VErr.missingAlternativeComparisons j ∈ r.errors ↔
              ∃ a, alts.get? j = some a ∧
                altCompsBad ((d.criteria.map List.length).getD 0) a = true))
      ∧ (∀ cs alts, d.criteria = some cs → d.alternatives = some alts → ∀ j ci,
          (VErr.missingAlternativeComparison j ci ∈ r.errors ↔
              ∃ a, alts.get? j = some a ∧ altCompsBad cs.length a = false ∧
                ∃ c, cs.get? ci = some c ∧
                  (a.comparisons.getD []).find? (fun comp => comp.criterionId == c.id) = none)
          ∧ (∀ pj, VErr.missingAlternativeMeasurement j ci pj ∈ r.errors ↔
              ∃ a, alts.get? j = some a ∧ altCompsBad cs.length a = false ∧
                ∃ c, cs.get? ci = some c ∧
                  ∃ comparison,
                    (a.comparisons.getD []).find? (fun comp => comp.criterionId == c.id)
                      = some comparison ∧
                    ∃ b, alts.get? pj = some b ∧ (b.id == a.id) = false ∧
                      validWeight (altPairWeight comparison b.id) = false)) := by
  obtain ⟨e2, he2⟩ := validate_total hms
  have hA : ∀ y ∈ vE0 d, VErr.level y = 0 := fun y hy => vE0_level hy
  have hB : ∀ y ∈ vE1 d, VErr.level y = 1 := fun y hy => vE1_level hy
  have hC : ∀ y ∈ e2, VErr.level y = 2 := by
    cases halt : d.alternatives with
    | none =>
      simp only [halt] at he2
      injection he2 with h2
      rw [← h2]
      intro y hy
      cases hy
    | some alts =>
      simp only [halt] at he2
      exact fun y hy => vas_level he2 hy
  refine ⟨_, validate_ok he2, ?_, ?_, ?_, ?_, ?_, ?_, ?_, ?_⟩
  · exact List.isEmpty_iff
  · exact (mem_append3_0 (x := VErr.missingDecisionId) hB hC rfl).trans mem_vE0_did
  · exact (mem_append3_0 (x := VErr.missingDecisionGoal) hB hC rfl).trans mem_vE0_goal
  · exact (mem_append3_0 (x := VErr.insufficientCriteria) hB hC rfl).trans mem_vE0_crit
  · exact (mem_append3_0 (x := VErr.insufficientAlternatives) hB hC rfl).trans mem_vE0_alt
  · intro cs hcr j
    refine ⟨(mem_append3_1 (x := VErr.missingCriterionId j) hA hC rfl).trans (mem_vE1_id hcr),
      (mem_append3_1 (x := VErr.missingCriterionName j) hA hC rfl).trans (mem_vE1_name hcr),
      (mem_append3_1 (x := VErr.missingCriterionComparisons j) hA hC rfl).trans
        (mem_vE1_comps hcr), ?_⟩
    intro pj
    exact (mem_append3_1 (x := VErr.missingCriterionMeasurement j pj) hA hC rfl).trans
      (mem_vE1_meas hcr)
  · intro alts halt j
    simp only [halt] at he2
    rw [halt] at hms
    simp only [Option.getD_some] at hms
    have hmsl : ∀ p ∈ alts.enum, ∀ c ∈ p.2.comparisons.getD [],
        c.measurements.isSome = true :=
      fun p hp => hms p.2 (List.snd_mem_of_mem_enum hp)
    have henum_id : (∃ p ∈ alts.enum, truthyS p.2.id = false ∧ j = p.1) ↔
        ∃ a, alts.get? j = some a ∧ truthyS a.id = false := by
      constructor
      · rintro ⟨p, hp, htr, hj⟩
        refine ⟨p.2, ?_, htr⟩
        rw [hj]
        exact List.mem_enum_iff_get?.mp hp
      · rintro ⟨a, hget, htr⟩
        exact ⟨(j, a), List.mem_enum_iff_get?.mpr hget, htr, rfl⟩
    have henum_name : (∃ p ∈ alts.enum, strTooShort p.2.name = true ∧ j = p.1) ↔
        ∃ a, alts.get? j = some a ∧ strTooShort a.name = true := by
      constructor
      · rintro ⟨p, hp, htr, hj⟩
        refine ⟨p.2, ?_, htr⟩
        rw [hj]
        exact List.mem_enum_iff_get?.mp hp
      · rintro ⟨a, hget, htr⟩
        exact ⟨(j, a), List.mem_enum_iff_get?.mpr hget, htr, rfl⟩
    have henum_comps : (∃ p ∈ alts.enum,
        altCompsBad ((d.criteria.map List.length).getD 0) p.2 = true ∧ j = p.1) ↔
        ∃ a, alts.get? j = some a ∧
          altCompsBad ((d.criteria.map List.length).getD 0) a = true := by
      constructor
      · rintro ⟨p, hp, htr, hj⟩
        refine ⟨p.2, ?_, htr⟩
        rw [hj]
        exact List.mem_enum_iff_get?.mp hp
      · rintro ⟨a, hget, htr⟩
        exact ⟨(j, a), List.mem_enum_iff_get?.mpr hget, htr, rfl⟩
    exact ⟨(mem_append3_2 (x := VErr.missingAlternativeId j) hA hB rfl).trans
        ((vas_id_mem he2 hmsl).trans henum_id),
      (mem_append3_2 (x := VErr.missingAlternativeName j) hA hB rfl).trans
        ((vas_name_mem he2 hmsl).trans henum_name),
      (mem_append3_2 (x := VErr.missingAlternativeComparisons j) hA hB rfl).trans
        ((vas_comps_mem he2 hmsl).trans henum_comps)⟩
  · intro cs alts hcr halt j ci
    simp only [halt] at he2
    rw [hcr] at he2
    rw [halt] at hms
    simp only [Option.getD_some] at hms
    have hmsl : ∀ p ∈ alts.enum, ∀ c ∈ p.2.comparisons.getD [],
        c.measurements.isSome = true :=
      fun p hp => hms p.2 (List.snd_mem_of_mem_enum hp)
    have hconv_comp : (∃ p ∈ alts.enum, j = p.1 ∧ altCompsBad cs.length p.2 = false ∧
        ∃ q ∈ cs.enum, ci = q.1 ∧
          (p.2.comparisons.getD []).find? (fun comp => comp.criterionId == q.2.id) = none) ↔
        ∃ a, alts.get? j = some a ∧ altCompsBad cs.length a = false ∧
          ∃ c, cs.get? ci = some c ∧
            (a.comparisons.getD []).find? (fun comp => comp.criterionId == c.id) = none := by
      constructor
      · rintro ⟨p, hp, hj, hb, q, hq, hci, hfq⟩
        refine ⟨p.2, ?_, hb, q.2, ?_, hfq⟩
        · rw [hj]
          exact List.mem_enum_iff_get?.mp hp
        · rw [hci]
          exact List.mem_enum_iff_get?.mp hq
      · rintro ⟨a, hget, hb, c, hcget, hfq⟩
        exact ⟨(j, a), List.mem_enum_iff_get?.mpr hget, rfl, hb,
          (ci, c), List.mem_enum_iff_get?.mpr hcget, rfl, hfq⟩
    have hconv_meas : ∀ pj, (∃ p ∈ alts.enum, j = p.1 ∧ altCompsBad cs.length p.2 = false ∧
        ∃ q ∈ cs.enum, ci = q.1 ∧
          ∃ comparison, (p.2.comparisons.getD []).find?
              (fun comp => comp.criterionId == q.2.id) = some comparison ∧
            ∃ b ∈ alts.enum, (b.2.id == p.2.id) = false ∧ pj = b.1 ∧
              validWeight (altPairWeight comparison b.2.id) = false) ↔
        ∃ a, alts.get? j = some a ∧ altCompsBad cs.length a = false ∧
          ∃ c, cs.get? ci = some c ∧
            ∃ comparison, (a.comparisons.getD []).find?
                (fun comp => comp.criterionId == c.id) = some comparison ∧
              ∃ b, alts.get? pj = some b ∧ (b.id == a.id) = false ∧
                validWeight (altPairWeight comparison b.id) = false := by
      intro pj
      constructor
      · rintro ⟨p, hp, hj, hb, q, hq, hci, comparison, hfq, b, hbmem, hbne, hpj, hw⟩
        refine ⟨p.2, ?_, hb, q.2, ?_, comparison, hfq, b.2, ?_, hbne, hw⟩
        · rw [hj]
          exact List.mem_enum_iff_get?.mp hp
        · rw [hci]
          exact List.mem_enum_iff_get?.mp hq
        · rw [hpj]
          exact List.mem_enum_iff_get?.mp hbmem
      · rintro ⟨a, hget, hb, c, hcget, comparison, hfq, b, hbget, hbne, hw⟩
        exact ⟨(j, a), List.mem_enum_iff_get?.mpr hget, rfl, hb,
          (ci, c), List.mem_enum_iff_get?.mpr hcget, rfl,
          comparison, hfq,
          (pj, b), List.mem_enum_iff_get?.mpr hbget, hbne, rfl, hw⟩
    refine ⟨(mem_append3_2 (x := VErr.missingAlternativeComparison j ci) hA hB rfl).trans
        ((vas_comp_mem he2 hmsl).trans hconv_comp), ?_⟩
    intro pj
    exact (mem_append3_2 (x := VErr.missingAlternativeMeasurement j ci pj) hA hB rfl).trans
      ((vas_meas_mem he2 hmsl).trans (hconv_meas pj))

/-- Witness for C8's amended theorem at the concrete decision dFresh. -/
theorem validate_report_witness :
    (∀ a ∈ dFresh.alternatives.getD [], ∀ c ∈ a.comparisons.getD [],
      c.measurements.isSome = true)
    ∧ (∃ r, validate dFresh = .ok r
      ∧ (r.valid = true ↔ r.errors = [])
      ∧ (VErr.missingDecisionId ∈ r.errors ↔ truthyS dFresh.id = false)
      ∧ (VErr.missingDecisionGoal ∈ r.errors ↔ strTooShort dFresh.goal = true)
      ∧ (VErr.insufficientCriteria ∈ r.errors ↔ (dFresh.criteria.map List.length).getD 0 < 2)
      ∧ (VErr.insufficientAlternatives ∈ r.errors ↔
          (dFresh.alternatives.map List.length).getD 0 < 2)
      ∧ (∀ cs, dFresh.criteria = some cs → ∀ j,
          (VErr.missingCriterionId j ∈ r.errors ↔ ∃ c, cs.get? j = some c ∧ truthyS c.id = false)
          ∧ (VErr.missingCriterionName j ∈ r.errors ↔
              ∃ c, cs.get? j = some c ∧ strTooShort c.name = true)
          ∧ (VErr.missingCriterionComparisons j ∈ r.errors ↔
              ∃ c, cs.get? j = some c ∧ critCompsBad c = true)
          ∧ (∀ pj, VErr.missingCriterionMeasurement j pj ∈ r.errors ↔
              ∃ c, cs.get? j = some c ∧ critCompsBad c = false ∧
                ∃ p, cs.get? pj = some p ∧ (p.id == c.id) = false ∧
                  validWeight (critPairWeight c p.id) = false))
      ∧ (∀ alts, dFresh.alternatives = some alts → ∀ j,
          (VErr.missingAlternativeId j ∈ r.errors ↔
              ∃ a, alts.get? j = some a ∧ truthyS a.id = false)
          ∧ (VErr.missingAlternativeName j ∈ r.errors ↔
              ∃ a, alts.get? j = some a ∧ strTooShort a.name = true)
          ∧ (VErr.missingAlternativeComparisons j ∈ r.errors ↔
              ∃ a, alts.get? j = some a ∧
                altCompsBad ((dFresh.criteria.map List.length).getD 0) a = true))
      ∧ (∀ cs alts, dFresh.criteria = some cs → dFresh.alternatives = some alts → ∀ j ci,
          (VErr.missingAlternativeComparison j ci ∈ r.errors ↔
              ∃ a, alts.get? j = some a ∧ altCompsBad cs.length a = false ∧
                ∃ c, cs.get? ci = some c ∧
                  (a.comparisons.getD []).find? (fun comp => comp.criterionId == c.id) = none)
          ∧ (∀ pj, VErr.missingAlternativeMeasurement j ci pj ∈ r.errors ↔
              ∃ a, alts.get? j = some a ∧ altCompsBad cs.length a = false ∧
                ∃ c, cs.get? ci = some c ∧
                  ∃ comparison,
                    (a.comparisons.getD []).find? (fun comp => comp.criterionId == c.id)
                      = some comparison ∧
                    ∃ b, alts.get? pj = some b ∧ (b.id == a.id) = false ∧
                      validWeight (altPairWeight comparison b.id) = false))) :=
  ⟨by decide, validate_report (by decide)⟩

theorem forall2_trans {α β γ : Type _} {R : α → β → Prop} {S : β → γ → Prop} {T : α → γ → Prop}
    (hT : ∀ a b c, R a b → S b c → T a c) :
    ∀ {l : List α} {mid : List β} {r : List γ},
      List.Forall₂ R l mid → List.Forall₂ S mid r → List.Forall₂ T l r := by
  intro l mid r h1
  induction h1 generalizing r with
  | nil =>
    intro h2
    cases h2
    exact .nil
  | cons hab htail ih =>
    intro h2
    cases h2 with
    | cons hbc htail2 => exact .cons (hT _ _ _ hab hbc) (ih htail2)

theorem assignIds_forall2 (uid : Nat → String) :
    ∀ (l : List Item) (n : Nat),
      List.Forall₂ (fun a b => b.comparisons = a.comparisons) l (assignIds uid n l).1 := by
  intro l
  induction l with
  | nil => intro n; exact .nil
  | cons it rest ih =>
    intro n
    simp only [assignIds]
    by_cases hid : truthyS it.id = true
    · rw [if_pos hid]
      exact .cons rfl (ih _)
    · rw [if_neg hid]
      exact .cons rfl (ih _)

theorem slotW_congr {a b : Item} (h : b.comparisons = a.comparisons) (j : Option String) :
    slotW b j = slotW a j := by
  unfold slotW
  rw [h]

theorem slotWC_congr {a b : Item} (h : b.comparisons = a.comparisons)
    (key j : Option String) : slotWC b key j = slotWC a key j := by
  unfold slotWC
  rw [h]

theorem slotW_eq {c : Item} {c0 : Cmp} {restC : List Cmp} {ms : List Measurement}
    (hcomp : (match c.comparisons with
      | none => [({ criterionId := none, measurements := some [], priority := none } : Cmp)]
      | some l => l) = c0 :: restC)
    (hms : c0.measurements = some ms) (j : Option String) :
    slotW c j = (ms.find? (fun s => some s.pairId == j)).map (fun s => s.weight) := by
  unfold slotW
  rw [hcomp]
  simp only [List.head?_cons, Option.some_bind, hms, Option.getD_some]

theorem rebuildSlots_keys_eq {peers : List Item} (ms : List Measurement)
    (hsome : ∀ x ∈ peers, x.id.isSome = true) :
    (rebuildSlots peers ms).map (fun s => some s.pairId) = peers.map (fun p => p.id) := by
  unfold rebuildSlots
  rw [List.map_map]
  exact map_congr_mem (fun p hp => rebuildSlots_key_eq (hsome p hp))

theorem find?_rebuildSlots {others : List Item} {ms0 : List Measurement} {j : Option String}
    (hsome : ∀ x ∈ others, x.id.isSome = true)
    (hj : j ∈ others.map (fun x => x.id)) :
    (rebuildSlots others ms0).find? (fun s => some s.pairId == j) =
      some ((ms0.find? (fun s => some s.pairId == j)).getD
        { pairId := j.getD "", weight := none }) := by
  have hkeys2 : ∀ o ∈ others.map (fun x => x.id),
      some (((ms0.find? (fun s => some s.pairId == o)).getD
        { pairId := o.getD "", weight := none }).pairId) = o := by
    intro o ho
    obtain ⟨y, hy, hyo⟩ := List.mem_map.mp ho
    rw [← hyo]
    exact rebuildSlots_key_eq (hsome y hy)
  have hff := find?_map_keyfun
    (fun o => (ms0.find? (fun s => some s.pairId == o)).getD
      { pairId := o.getD "", weight := none })
    (fun o => o) (fun s => some s.pairId)
    (others.map (fun x => x.id)) hkeys2 j hj
  rw [rebuildSlots_eq_keys]
  exact hff

theorem fillCriterion_preserves {cs : List Item} {c c' : Item}
    (hsome : ∀ x ∈ cs, x.id.isSome = true)
    (h : fillCriterion cs c = some c') :
    ∀ j w, j ∈ (cs.filter (fun cr => !(cr.id == c.id))).map (fun cr => cr.id) →
      slotW c j = some w → slotW c' j = some w := by
  intro j w hj hw
  obtain ⟨c0, restC, ms, hcomp, hmsD, hc'⟩ := fillCriterion_shape h
  rcases hmsD with hms | ⟨hnone, hnil, hfnil⟩
  swap
  · rw [hfnil] at hj
    exact absurd hj (by simp)
  rw [slotW_eq hcomp hms] at hw
  obtain ⟨s, hs, hsw⟩ : ∃ s, ms.find? (fun s => some s.pairId == j) = some s ∧ s.weight = w := by
    cases hfs : ms.find? (fun s => some s.pairId == j) with
    | none =>
      rw [hfs] at hw
      exact absurd hw (by simp)
    | some s =>
      rw [hfs] at hw
      simp only [Option.map_some'] at hw
      injection hw with hwe
      exact ⟨s, rfl, hwe⟩
  have hcomp2 : (match c'.comparisons with
      | none => [({ criterionId := none, measurements := some [], priority := none } : Cmp)]
      | some l => l) =
      ({ c0 with
          measurements := some (rebuildSlots (cs.filter (fun cr => !(cr.id == c.id))) ms) }
        :: restC) := by
    simp only [hc']
  rw [slotW_eq hcomp2 rfl]
  have hsome2 : ∀ x ∈ cs.filter (fun cr => !(cr.id == c.id)), x.id.isSome = true :=
    fun x hx => hsome x (List.mem_of_mem_filter hx)
  rw [find?_rebuildSlots hsome2 hj]
  simp only [Option.map_some']
  rw [hs]
  simp only [Option.getD_some]
  rw [hsw]

theorem fillAltBody_preserves {comps0 : List Cmp} {others : List Item} {altsLen : Nat}
    {key : Option String} {out : Cmp}
    (hsome : ∀ x ∈ others, x.id.isSome = true)
    (h : fillAltBody comps0 others altsLen key = some out) :
    ∀ j w, j ∈ others.map (fun x => x.id) →
      ((comps0.find? (fun comp => comp.criterionId == key)).bind (fun comp =>
        (comp.measurements.getD []).find? (fun s => some s.pairId == j))).map
        (fun s => s.weight) = some w →
      ((out.measurements.getD []).find? (fun s => some s.pairId == j)).map
        (fun s => s.weight) = some w := by
  intro j w hj hw
  cases hfc : comps0.find? (fun comp => comp.criterionId == key) with
  | none =>
    rw [hfc] at hw
    exact absurd hw (by simp)
  | some comp =>
    rw [hfc] at hw
    simp only [Option.some_bind] at hw
    obtain ⟨s, hs, hsw⟩ : ∃ s, (comp.measurements.getD []).find?
        (fun s => some s.pairId == j) = some s ∧ s.weight = w := by
      cases hfs : (comp.measurements.getD []).find? (fun s => some s.pairId == j) with
      | none =>
        rw [hfs] at hw
        exact absurd hw (by simp)
      | some s =>
        rw [hfs] at hw
        simp only [Option.map_some'] at hw
        injection hw with hwe
        exact ⟨s, rfl, hwe⟩
    cases hm : comp.measurements with
    | none =>
      rw [hm] at hs
      exact absurd hs (by simp)
    | some ms0 =>
      rw [hm] at hs
      simp only [Option.getD_some] at hs
      simp only [fillAltBody, hfc, Option.getD_some, hm] at h
      by_cases hchk : (((ms0.length : Int) == (altsLen : Int) - 1) = true)
      · rw [if_pos hchk] at h
        injection h with h2
        rw [← h2, hm]
        simp only [Option.getD_some]
        rw [hs]
        simp only [Option.map_some']
        rw [hsw]
      · rw [if_neg hchk] at h
        injection h with h2
        rw [← h2]
        simp only [Option.getD_some]
        rw [find?_rebuildSlots hsome hj]
        simp only [Option.map_some']
        rw [hs]
        simp only [Option.getD_some]
        rw [hsw]

theorem fillAlternative_preserves {cs alts : List Item} {a a' : Item}
    (hsome : ∀ x ∈ alts, x.id.isSome = true)
    (h : fillAlternative cs alts a = some a') :
    ∀ key j w, key ∈ cs.map (fun cr => cr.id) →
      j ∈ (alts.filter (fun al => !(al.id == a.id))).map (fun al => al.id) →
      slotWC a key j = some w → slotWC a' key j = some w := by
  intro key j w hkey hj hw
  obtain ⟨newComps, hmap, ha'⟩ := fillAlternative_shape h
  have hF2 := mapO_eq_some_iff.mp hmap
  have hgen : newComps = cs.map (fun c =>
      (fillAltBody (a.comparisons.getD []) (alts.filter (fun al => !(al.id == a.id)))
        alts.length c.id).getD { criterionId := none, measurements := none, priority := none }) :=
    forall2_eq_map_getD _ hF2
  have hkeyprop : ∀ o ∈ cs,
      ((fillAltBody (a.comparisons.getD []) (alts.filter (fun al => !(al.id == a.id)))
        alts.length o.id).getD
        { criterionId := none, measurements := none, priority := none }).criterionId = o.id := by
    intro o ho
    obtain ⟨b, hb, hob⟩ := forall2_mem_left hF2 o ho
    rw [hob]
    simp only [Option.getD_some]
    exact (fillAltBody_shape hob).1
  obtain ⟨b, hb, hbid⟩ := List.mem_map.mp hkey
  have hff := find?_map_keyfun
    (fun jj => (fillAltBody (a.comparisons.getD []) (alts.filter (fun al => !(al.id == a.id)))
      alts.length jj).getD { criterionId := none, measurements := none, priority := none })
    (fun x : Item => x.id) (fun c2 : Cmp => c2.criterionId) cs hkeyprop b hb
  rw [← hgen] at hff
  obtain ⟨outb, houtb, hrelb⟩ := forall2_mem_left hF2 b hb
  unfold slotWC
  rw [ha']
  simp only [Option.getD_some]
  rw [← hbid]
  rw [hff]
  simp only [Option.some_bind, hrelb, Option.getD_some]
  rw [← hbid] at hw
  exact fillAltBody_preserves
    (fun x hx => hsome x (List.mem_of_mem_filter hx)) hrelb j w hj hw

theorem fill_core_post {uid : Nat → String} (huid : ∀ k, uid k ≠ "")
    (n1 n2 : Nat) (cs0 as0 : List Item) {cs2 as2 : List Item}
    (hcs2 : mapO (fillCriterion (assignIds uid n1 cs0).1) (assignIds uid n1 cs0).1 = some cs2)
    (has2 : mapO (fillAlternative cs2 (assignIds uid n2 as0).1) (assignIds uid n2 as0).1
      = some as2) :
    (∀ x ∈ cs2, truthyS x.id = true) ∧ (∀ x ∈ as2, truthyS x.id = true)
    ∧ (∀ c' ∈ cs2, ∃ c0 restC ms1,
        c'.comparisons = some (c0 :: restC) ∧ c0.measurements = some ms1 ∧
        ms1.map (fun s => some s.pairId) =
          (cs2.filter (fun cr => !(cr.id == c'.id))).map (fun cr => cr.id))
    ∧ List.Forall₂ (fun aIn a' => ∃ comps,
        a'.comparisons = some comps ∧
        comps.map (fun cc => cc.criterionId) = cs2.map (fun cr => cr.id) ∧
        ∀ cc ∈ comps, ∃ msA, cc.measurements = some msA ∧
          (msA.map (fun s => some s.pairId) =
            (as2.filter (fun al => !(al.id == a'.id))).map (fun al => al.id)
           ∨ ((msA.length : Int) = (as2.length : Int) - 1 ∧ cc ∈ aIn.comparisons.getD [])))
        as0 as2
    ∧ List.Forall₂ (fun cIn c' => ∀ j w,
        j ∈ (cs2.filter (fun cr => !(cr.id == c'.id))).map (fun cr => cr.id) →
        slotW cIn j = some w → slotW c' j = some w) cs0 cs2
    ∧ List.Forall₂ (fun aIn a' => ∀ key j w, key ∈ cs2.map (fun cr => cr.id) →
        j ∈ (as2.filter (fun al => !(al.id == a'.id))).map (fun al => al.id) →
        slotWC aIn key j = some w → slotWC a' key j = some w) as0 as2 := by
  have hcs1t : ∀ x ∈ (assignIds uid n1 cs0).1, truthyS x.id = true :=
    assignIds_truthy_out huid cs0 n1
  have has1t : ∀ x ∈ (assignIds uid n2 as0).1, truthyS x.id = true :=
    assignIds_truthy_out huid as0 n2
  have hF2c := mapO_eq_some_iff.mp hcs2
  have hckeys : cs2.map (fun x => x.id) = (assignIds uid n1 cs0).1.map (fun x => x.id) :=
    forall2_map_eq (fun a b hr => fillCriterion_id hr) hF2c
  have hcs2t : ∀ x ∈ cs2, truthyS x.id = true := truthy_of_keys_eq hckeys.symm hcs1t
  have hcs1some : ∀ x ∈ (assignIds uid n1 cs0).1, x.id.isSome = true :=
    fun x hx => truthyS_isSome (hcs1t x hx)
  have hF2a := mapO_eq_some_iff.mp has2
  have hakeys : as2.map (fun x => x.id) = (assignIds uid n2 as0).1.map (fun x => x.id) :=
    forall2_map_eq (fun a b hr => fillAlternative_id hr) hF2a
  have has2t : ∀ x ∈ as2, truthyS x.id = true := truthy_of_keys_eq hakeys.symm has1t
  have has1some : ∀ x ∈ (assignIds uid n2 as0).1, x.id.isSome = true :=
    fun x hx => truthyS_isSome (has1t x hx)
  have haslen : as2.length = (assignIds uid n2 as0).1.length := by
    have hh := congrArg List.length hakeys
    simpa using hh
  refine ⟨hcs2t, has2t, ?_, ?_, ?_, ?_⟩
  · intro c' hc'
    obtain ⟨c, hc, hrel⟩ := forall2_mem_right hF2c c' hc'
    obtain ⟨c0, restC, ms, hcomp, hms, hc'eq⟩ := fillCriterion_shape hrel
    refine ⟨{ c0 with
        measurements := some (rebuildSlots
          ((assignIds uid n1 cs0).1.filter (fun cr => !(cr.id == c.id))) ms) },
      restC,
      rebuildSlots ((assignIds uid n1 cs0).1.filter (fun cr => !(cr.id == c.id))) ms,
      ?_, rfl, ?_⟩
    · rw [hc'eq]
    · rw [rebuildSlots_keys_eq ms (fun x hx => hcs1some x (List.mem_of_mem_filter hx))]
      have hid2 : c'.id = c.id := fillCriterion_id hrel
      rw [hid2]
      exact (filter_id_keys_eq c.id hckeys).symm
  · refine forall2_trans ?_ (assignIds_forall2 uid as0 n2) hF2a
    intro aIn aStep a' hcompEq hrel
    obtain ⟨newComps, hmapb, ha'eq⟩ := fillAlternative_shape hrel
    have hF2b := mapO_eq_some_iff.mp hmapb
    refine ⟨newComps, ?_, ?_, ?_⟩
    · rw [ha'eq]
    · have hk : ∀ (cI : Item) (cb : Cmp),
          fillAltBody (aStep.comparisons.getD [])
            ((assignIds uid n2 as0).1.filter (fun al => !(al.id == aStep.id)))
            (assignIds uid n2 as0).1.length cI.id = some cb →
          cb.criterionId = cI.id := fun cI cb hr => (fillAltBody_shape hr).1
      exact forall2_map_eq hk hF2b
    · intro cc hcc
      obtain ⟨cI, hcI, hrelb⟩ := forall2_mem_right hF2b cc hcc
      rcases (fillAltBody_shape hrelb).2 with ⟨msOut, hmso, hchk, hmem⟩ | ⟨ms0, hmso⟩
      · refine ⟨msOut, hmso, .inr ⟨?_, ?_⟩⟩
        · rw [haslen]
          exact eq_of_beq hchk
        · rw [hcompEq] at hmem
          exact hmem
      · refine ⟨rebuildSlots
            ((assignIds uid n2 as0).1.filter (fun al => !(al.id == aStep.id))) ms0,
          hmso, .inl ?_⟩
        rw [rebuildSlots_keys_eq ms0 (fun x hx => has1some x (List.mem_of_mem_filter hx))]
        have hid2 : a'.id = aStep.id := fillAlternative_id hrel
        rw [hid2]
        exact (filter_id_keys_eq aStep.id hakeys).symm
  · refine forall2_trans ?_ (assignIds_forall2 uid cs0 n1) hF2c
    intro cIn cStep c' hcompEq hrel j w hj hw
    have hid2 : c'.id = cStep.id := fillCriterion_id hrel
    rw [hid2] at hj
    rw [filter_id_keys_eq cStep.id hckeys] at hj
    rw [← slotW_congr hcompEq j] at hw
    exact fillCriterion_preserves hcs1some hrel j w hj hw
  · refine forall2_trans ?_ (assignIds_forall2 uid as0 n2) hF2a
    intro aIn aStep a' hcompEq hrel key j w hkey hj hw
    have hid2 : a'.id = aStep.id := fillAlternative_id hrel
    rw [hid2] at hj
    rw [filter_id_keys_eq aStep.id hakeys] at hj
    rw [← slotWC_congr hcompEq key j] at hw
    exact fillAlternative_preserves has1some hrel key j w hkey hj hw

/-- C2 (amended): after a successful fill (with an id generator never
returning the empty string), both output lists carry truthy ids; every
criterion's first comparison holds exactly one measurement slot per other
output criterion, in order -- so no slot for itself, no dangling slot,
none missing; every alternative holds exactly one comparison per
criterion, in order, each with a measurements array that is either
exactly one slot per other alternative or a comparison of the input
alternative kept verbatim, its count matching alternatives minus one (the
imported-data exception); and positionally, every weight an input item
stored against a surviving peer key is still readable in the output
(criteria in their first comparison, alternatives in their per-criterion
comparison). -/
theorem fill_postcondition (uid : Nat → String) (huid : ∀ k, uid k ≠ "") (n : Nat)
    {d d2 : Decision} {m : Nat} (h : fill uid n d = some (d2, m)) :
    ∃ cs2 as2,
      d2.criteria = some cs2 ∧ d2.alternatives = some as2
      ∧ (∀ x ∈ cs2, truthyS x.id = true) ∧ (∀ x ∈ as2, truthyS x.id = true)
      ∧ (∀ c' ∈ cs2, ∃ c0 restC ms1,
          c'.comparisons = some (c0 :: restC) ∧ c0.measurements = some ms1 ∧
          ms1.map (fun s => some s.pairId) =
            (cs2.filter (fun cr => !(cr.id == c'.id))).map (fun cr => cr.id))
      ∧ List.Forall₂ (fun aIn a' => ∃ comps,
          a'.comparisons = some comps ∧
          comps.map (fun cc => cc.criterionId) = cs2.map (fun cr => cr.id) ∧
          ∀ cc ∈ comps, ∃ msA, cc.measurements = some msA ∧
            (msA.map (fun s => some s.pairId) =
              (as2.filter (fun al => !(al.id == a'.id))).map (fun al => al.id)
             ∨ ((msA.length : Int) = (as2.length : Int) - 1 ∧ cc ∈ aIn.comparisons.getD [])))
          (d.alternatives.getD []) as2
      ∧ List.Forall₂ (fun cIn c' => ∀ j w,
          j ∈ (cs2.filter (fun cr => !(cr.id == c'.id))).map (fun cr => cr.id) →
          slotW cIn j = some w → slotW c' j = some w) (d.criteria.getD []) cs2
      ∧ List.Forall₂ (fun aIn a' => ∀ key j w, key ∈ cs2.map (fun cr => cr.id) →
          j ∈ (as2.filter (fun al => !(al.id == a'.id))).map (fun al => al.id) →
          slotWC aIn key j = some w → slotWC a' key j = some w)
          (d.alternatives.getD []) as2 := by
  simp only [fill] at h
  split at h
  · exact absurd h (by simp)
  next cs2 hcs2 =>
    split at h
    · exact absurd h (by simp)
    next as2 has2 =>
      simp only [Option.some.injEq, Prod.mk.injEq] at h
      obtain ⟨hd2, hm2⟩ := h
      obtain ⟨h1, h2, h3, h4, h5, h6⟩ := fill_core_post huid _ _
        (d.criteria.getD []) (d.alternatives.getD []) hcs2 has2
      exact ⟨cs2, as2, by rw [← hd2], by rw [← hd2], h1, h2, h3, h4, h5, h6⟩

/-- Witness for C2's amended theorem: the concrete fill of dFresh. -/
theorem fill_postcondition_witness :
    (∀ k, uid0 k ≠ "") ∧
    (∃ cs2 as2,
      dFilled.criteria = some cs2 ∧ dFilled.alternatives = some as2
      ∧ (∀ x ∈ cs2, truthyS x.id = true) ∧ (∀ x ∈ as2, truthyS x.id = true)
      ∧ (∀ c' ∈ cs2, ∃ c0 restC ms1,
          c'.comparisons = some (c0 :: restC) ∧ c0.measurements = some ms1 ∧
          ms1.map (fun s => some s.pairId) =
            (cs2.filter (fun cr => !(cr.id == c'.id))).map (fun cr => cr.id))
      ∧ List.Forall₂ (fun aIn a' => ∃ comps,
          a'.comparisons = some comps ∧
          comps.map (fun cc => cc.criterionId) = cs2.map (fun cr => cr.id) ∧
          ∀ cc ∈ comps, ∃ msA, cc.measurements = some msA ∧
            (msA.map (fun s => some s.pairId) =
              (as2.filter (fun al => !(al.id == a'.id))).map (fun al => al.id)
             ∨ ((msA.length : Int) = (as2.length : Int) - 1 ∧ cc ∈ aIn.comparisons.getD [])))
          (dFresh.alternatives.getD []) as2
      ∧ List.Forall₂ (fun cIn c' => ∀ j w,
          j ∈ (cs2.filter (fun cr => !(cr.id == c'.id))).map (fun cr => cr.id) →
          slotW cIn j = some w → slotW c' j = some w) (dFresh.criteria.getD []) cs2
      ∧ List.Forall₂ (fun aIn a' => ∀ key j w, key ∈ cs2.map (fun cr => cr.id) →
          j ∈ (as2.filter (fun al => !(al.id == a'.id))).map (fun al => al.id) →
          slotWC aIn key j = some w → slotWC a' key j = some w)
          (dFresh.alternatives.getD []) as2) :=
  ⟨uid0_ne_empty,
    fill_postcondition uid0 uid0_ne_empty 0
      (show fill uid0 0 dFresh = some (dFilled, 0) by decide)⟩

theorem mapE_eq_ok_iff {α β E : Type _} {f : α → Except E β} :
    ∀ {l : List α} {r : List β},
      (mapE f l = .ok r ↔ List.Forall₂ (fun a y => f a = .ok y) l r) := by
  intro l
  induction l with
  | nil =>
    intro r
    constructor
    · intro h
      injection h with h2
      rw [← h2]
      exact .nil
    · intro h
      cases h
      rfl
  | cons x xs ih =>
    intro r
    constructor
    · intro h
      unfold mapE at h
      cases hfx : f x with
      | error er => simp [hfx] at h
      | ok y =>
        simp only [hfx] at h
        cases hrec : mapE f xs with
        | error er => simp [hrec] at h
        | ok ys =>
          simp only [hrec] at h
          injection h with h2
          rw [← h2]
          exact .cons hfx (ih.mp hrec)
    · intro h
      cases h with
      | cons hxy htail =>
        unfold mapE
        simp only [hxy, ih.mpr htail]

theorem mapE_total {α β E : Type _} {f : α → Except E β} :
    ∀ {l : List α}, (∀ a ∈ l, ∃ y, f a = .ok y) → ∃ r, mapE f l = .ok r := by
  intro l
  induction l with
  | nil => exact fun _ => ⟨[], rfl⟩
  | cons x xs ih =>
    intro h
    obtain ⟨y, hy⟩ := h x (List.mem_cons_self x xs)
    obtain ⟨ys, hys⟩ := ih (fun a ha => h a (List.mem_cons_of_mem x ha))
    refine ⟨y :: ys, ?_⟩
    unfold mapE
    simp only [hy, hys]

theorem gwm_entry {thing pair : Item} {cid : Option String} {x : Rat}
    (h : (if thing.id == pair.id then (Except.ok 1 : Except MatrixErr Rat)
      else match storedWeight thing pair cid, storedWeight pair thing cid with
      | .error e, _ => .error e
      | _, .error e => .error e
      | .ok (some tw), .ok (some pw) => .ok (tw / pw)
      | _, _ => .error .missingWeight) = .ok x) :
    ((thing.id == pair.id) = true ∧ x = 1)
    ∨ ((thing.id == pair.id) = false ∧
        ∃ tw pw, storedWeight thing pair cid = .ok (some tw) ∧
          storedWeight pair thing cid = .ok (some pw) ∧ x = tw / pw) := by
  by_cases hid : (thing.id == pair.id) = true
  · rw [if_pos hid] at h
    injection h with h2
    exact .inl ⟨hid, h2.symm⟩
  · rw [if_neg hid] at h
    cases hsw1 : storedWeight thing pair cid with
    | error e1 => simp [hsw1] at h
    | ok o1 =>
      cases hsw2 : storedWeight pair thing cid with
      | error e2 => simp [hsw1, hsw2] at h
      | ok o2 =>
        cases o1 with
        | none => simp [hsw1, hsw2] at h
        | some tw =>
          cases o2 with
          | none => simp [hsw1, hsw2] at h
          | some pw =>
            simp only [hsw1, hsw2] at h
            injection h with h2
            exact .inr ⟨bool_false_of_not_true hid, tw, pw, rfl, rfl, h2.symm⟩

/-- C4 (amended): a successful getWeigthsMatrix is the square matrix
whose entry for (thing, pair) is 1 exactly when their ids are equal (an
id-equality test, not a positional one: on id-equal pairs the entry is 1
and no weight is read), and on id-distinct pairs the ratio of the two
sides' own stored weights, both of which must then be present; and
conversely, whenever every pair of entries with distinct ids has both
stored weights present, the call succeeds. -/
theorem getWeigthsMatrix_spec {data : List Item} {criterionId : Option String} :
    (∀ M, getWeigthsMatrix data criterionId = .ok M →
      M.length = data.length ∧
      List.Forall₂ (fun thing row =>
        row.length = data.length ∧
        List.Forall₂ (fun pair x =>
          ((thing.id == pair.id) = true ∧ x = 1)
          ∨ ((thing.id == pair.id) = false ∧
              ∃ tw pw, storedWeight thing pair criterionId = .ok (some tw) ∧
                storedWeight pair thing criterionId = .ok (some pw) ∧ x = tw / pw))
          data row)
        data M)
    ∧ ((∀ thing ∈ data, ∀ pair ∈ data, (thing.id == pair.id) = false →
        ∃ tw pw, storedWeight thing pair criterionId = .ok (some tw) ∧
          storedWeight pair thing criterionId = .ok (some pw)) →
      ∃ M, getWeigthsMatrix data criterionId = .ok M) := by
  constructor
  · intro M hM
    unfold getWeigthsMatrix at hM
    have hF2 := mapE_eq_ok_iff.mp hM
    refine ⟨(List.Forall₂.length_eq hF2).symm, ?_⟩
    refine List.Forall₂.imp ?_ hF2
    intro thing row hrow
    have hF2r := mapE_eq_ok_iff.mp hrow
    refine ⟨(List.Forall₂.length_eq hF2r).symm, ?_⟩
    refine List.Forall₂.imp ?_ hF2r
    intro pair x hx
    exact gwm_entry hx
  · intro hall
    unfold getWeigthsMatrix
    apply mapE_total
    intro thing hthing
    apply mapE_total
    intro pair hpair
    by_cases hid : (thing.id == pair.id) = true
    · exact ⟨1, by rw [if_pos hid]⟩
    · obtain ⟨tw, pw, h1, h2⟩ := hall thing hthing pair hpair (bool_false_of_not_true hid)
      refine ⟨tw / pw, ?_⟩
      rw [if_neg hid]
      simp only [h1, h2]

/-- Witness for C4's amended theorem at the duplicate-id pair. -/
theorem getWeigthsMatrix_spec_witness :
    ([[(1 : Rat), 1], [1, 1]].length = [dupA, dupB].length ∧
      List.Forall₂ (fun thing row =>
        row.length = [dupA, dupB].length ∧
        List.Forall₂ (fun pair x =>
          ((thing.id == pair.id) = true ∧ x = 1)
          ∨ ((thing.id == pair.id) = false ∧
              ∃ tw pw, storedWeight thing pair none = .ok (some tw) ∧
                storedWeight pair thing none = .ok (some pw) ∧ x = tw / pw))
          [dupA, dupB] row)
        [dupA, dupB] [[1, 1], [1, 1]])
    ∧ (∃ M, getWeigthsMatrix [dupA, dupB] none = .ok M) :=
  ⟨(@getWeigthsMatrix_spec [dupA, dupB] none).1 [[1, 1], [1, 1]] (by decide),
   (@getWeigthsMatrix_spec [dupA, dupB] none).2 (by
      intro thing ht pair hp hid
      fin_cases ht <;> fin_cases hp <;> exact absurd hid (by decide))⟩

theorem updFirst_map_proj {α β : Type _} (F : α → β) (p : α → Bool) (g : α → α)
    (hg : ∀ x, F (g x) = F x) : ∀ l : List α, (updFirst p g l).map F = l.map F := by
  intro l
  induction l with
  | nil => rfl
  | cons x xs ih =>
    unfold updFirst
    by_cases hp : p x = true
    · rw [if_pos hp]
      simp only [List.map_cons, hg]
    · rw [if_neg hp]
      simp only [List.map_cons, ih]

theorem storedWeight_none {thing : Item} {pair : Item} {cid : Option String}
    (hc : thing.comparisons = none) :
    storedWeight thing pair cid = .error .typeError := by
  unfold storedWeight
  simp only [hc]

theorem storedWeight_some {thing : Item} {comps : List Cmp} {pair : Item} {cid : Option String}
    (hc : thing.comparisons = some comps) :
    storedWeight thing pair cid =
      (match comps.find? (fun comp => comp.criterionId == cid) with
        | none => .ok none
        | some comp =>
          match comp.measurements with
          | none => .error .typeError
          | some ms =>
            .ok ((ms.find? (fun m => some m.pairId == pair.id)).bind (fun m => m.weight))) := by
  unfold storedWeight
  simp only [hc]

theorem storedWeight_proj {thing thing' pair pair' : Item} {cid : Option String}
    (h1 : itemProj thing = itemProj thing') (h2 : itemProj pair = itemProj pair') :
    storedWeight thing' pair' cid = storedWeight thing pair cid := by
  unfold itemProj at h1
  injection h1 with hid hcomps
  have hpid : pair'.id = pair.id := by
    unfold itemProj at h2
    injection h2 with ha hb
    exact ha.symm
  cases hc : thing.comparisons with
  | none =>
    have hc' : thing'.comparisons = none := by
      rw [hc] at hcomps
      cases hcc : thing'.comparisons with
      | none => rfl
      | some l =>
        rw [hcc] at hcomps
        exact absurd hcomps (by simp)
    rw [storedWeight_none hc, storedWeight_none hc']
  | some comps =>
    obtain ⟨comps', hcc, hmapc⟩ : ∃ comps', thing'.comparisons = some comps' ∧
        comps.map cmpProj = comps'.map cmpProj := by
      rw [hc] at hcomps
      cases hcc : thing'.comparisons with
      | none =>
        rw [hcc] at hcomps
        exact absurd hcomps (by simp)
      | some l =>
        rw [hcc] at hcomps
        simp only [Option.map_some'] at hcomps
        injection hcomps with hmm
        exact ⟨l, rfl, hmm⟩
    rw [storedWeight_some hc, storedWeight_some hcc]
    have hfind : (comps.find? (fun c => c.criterionId == cid)).map cmpProj
        = (comps'.find? (fun c => c.criterionId == cid)).map cmpProj := by
      have e1 := List.find?_map (p := fun q : Option String × Option (List Measurement) =>
        q.1 == cid) cmpProj comps
      have e2 := List.find?_map (p := fun q : Option String × Option (List Measurement) =>
        q.1 == cid) cmpProj comps'
      have e3 : comps.find? ((fun q : Option String × Option (List Measurement) =>
            q.1 == cid) ∘ cmpProj) = comps.find? (fun c => c.criterionId == cid) :=
        find?_pred_congr (fun c => rfl) comps
      have e4 : comps'.find? ((fun q : Option String × Option (List Measurement) =>
            q.1 == cid) ∘ cmpProj) = comps'.find? (fun c => c.criterionId == cid) :=
        find?_pred_congr (fun c => rfl) comps'
      rw [e3] at e1
      rw [e4] at e2
      rw [← e1, ← e2, hmapc]
    cases hfc : comps.find? (fun c => c.criterionId == cid) with
    | none =>
      have hfc' : comps'.find? (fun c => c.criterionId == cid) = none := by
        rw [hfc] at hfind
        cases hx : comps'.find? (fun c => c.criterionId == cid) with
        | none => rfl
        | some c =>
          rw [hx] at hfind
          exact absurd hfind (by simp)
      simp only [hfc, hfc']
    | some c =>
      obtain ⟨c', hfc', hcp⟩ : ∃ c', comps'.find? (fun c => c.criterionId == cid) = some c' ∧
          cmpProj c = cmpProj c' := by
        rw [hfc] at hfind
        cases hx : comps'.find? (fun c => c.criterionId == cid) with
        | none =>
          rw [hx] at hfind
          exact absurd hfind (by simp)
        | some c2 =>
          rw [hx] at hfind
          simp only [Option.map_some'] at hfind
          injection hfind with hmm
          exact ⟨c2, rfl, hmm⟩
      have hms : c.measurements = c'.measurements := by
        unfold cmpProj at hcp
        injection hcp with ha hb
      simp only [hfc, hfc']
      rw [← hms, hpid]

theorem mapE_proj_congr2 {α β E P : Type _} {f f' : α → Except E β} {proj : α → P}
    (hf : ∀ a a', proj a = proj a' → f a = f' a') :
    ∀ {l l' : List α}, l.map proj = l'.map proj → mapE f l = mapE f' l' := by
  intro l
  induction l with
  | nil =>
    intro l' hm
    cases l' with
    | nil => rfl
    | cons x xs => exact absurd hm (by simp)
  | cons x xs ih =>
    intro l' hm
    cases l' with
    | nil => exact absurd hm (by simp)
    | cons y ys =>
      simp only [List.map_cons, List.cons.injEq] at hm
      unfold mapE
      rw [hf x y hm.1, ih hm.2]

theorem getWeigthsMatrix_proj {alts alts' : List Item} {cid : Option String}
    (h : alts.map itemProj = alts'.map itemProj) :
    getWeigthsMatrix alts cid = getWeigthsMatrix alts' cid := by
  unfold getWeigthsMatrix
  refine mapE_proj_congr2 ?_ h
  intro thing thing' hth
  refine mapE_proj_congr2 ?_ h
  intro pair pair' hp
  have e1 := @storedWeight_proj thing thing' pair pair' cid hth hp
  have e2 := @storedWeight_proj pair pair' thing thing' cid hp hth
  have hidth : thing'.id = thing.id := by
    unfold itemProj at hth
    injection hth with ha hb
    exact ha.symm
  have hidp : pair'.id = pair.id := by
    unfold itemProj at hp
    injection hp with ha hb
    exact ha.symm
  rw [hidth, hidp, e1, e2]

theorem getWeigthsMatrix_length {data : List Item} {cid : Option String}
    {M : List (List Rat)} (h : getWeigthsMatrix data cid = .ok M) : M.length = data.length := by
  unfold getWeigthsMatrix at h
  exact (List.Forall₂.length_eq (mapE_eq_ok_iff.mp h)).symm

theorem sum_map_mul_right (l : List Rat) (r : Rat) :
    (l.map (fun x => x * r)).sum = l.sum * r := by
  induction l with
  | nil => simp
  | cons x xs ih =>
    simp only [List.map_cons, List.sum_cons, ih, add_mul]

theorem getRightEigenvector_sum {eigFn : List (List Rat) → List Rat}
    {matrix : List (List Rat)} (h : ((eigFn matrix).take matrix.length).sum ≠ 0) :
    (getRightEigenvector eigFn matrix).sum = 1 := by
  unfold getRightEigenvector
  rw [sum_map_mul_right, mul_one_div, div_self h]

theorem getRightEigenvector_length {eigFn : List (List Rat) → List Rat}
    {matrix : List (List Rat)} (h : matrix.length ≤ (eigFn matrix).length) :
    (getRightEigenvector eigFn matrix).length = matrix.length := by
  unfold getRightEigenvector
  rw [List.length_map, List.length_take]
  exact Nat.min_eq_left h

theorem eigOnes_ok : ∀ m : List (List Rat), 0 < m.length →
    m.length ≤ (eigOnes m).length ∧ ((eigOnes m).take m.length).sum ≠ 0 := by
  intro m hm
  unfold eigOnes
  rw [List.length_replicate]
  refine ⟨Nat.le_refl _, ?_⟩
  rw [List.take_of_length_le (by rw [List.length_replicate])]
  rw [List.sum_replicate, nsmul_eq_mul, mul_one]
  intro hz
  rw [Nat.cast_eq_zero] at hz
  rw [hz] at hm
  exact absurd hm (by decide)

theorem range_map_succ_shift {β : Type _} (f : Nat → β) (n j : Nat) :
    (List.range (n + 1)).map (fun k => f (j + k))
      = f j :: (List.range n).map (fun k => f (j + 1 + k)) := by
  rw [List.range_succ_eq_map]
  simp only [List.map_cons, List.map_map, Nat.add_zero]
  congr 1
  exact map_congr_mem (fun k hk => congrArg f (by omega))

theorem sum_range_getD (v : List Rat) : ∀ n : Nat,
    ((List.range n).map (fun k => (v.get? k).getD 0)).sum = (v.take n).sum := by
  intro n
  induction n with
  | zero => rfl
  | succ n ih =>
    rw [List.range_succ, List.map_append, List.sum_append, ih, List.take_succ,
      List.sum_append]
    congr 1
    simp only [List.map_cons, List.map_nil, List.sum_cons, List.sum_nil]
    rw [← List.get?_eq_getElem?]
    cases v.get? n with
    | none => simp
    | some x => simp

theorem evalAlts_sum {cid : Option String} {cp : Option Rat} {localvec : List Rat}
    {isFirst : Bool} :
    ∀ {j : Nat} {alts alts1 : List Item},
      evalAlts cid cp localvec isFirst j alts = .ok alts1 →
      alts.map itemProj = alts1.map itemProj ∧
      alts1.length = alts.length ∧
      (∀ a ∈ alts1, a.priority.isSome = true) ∧
      (0 < alts.length → ∃ y, cp = some y) ∧
      (∀ y, cp = some y →
        (alts1.map (fun a => (a.priority.getD 0))).sum
          = (if isFirst = true then 0 else (alts.map (fun a => (a.priority.getD 0))).sum)
            + ((List.range alts.length).map (fun k => (localvec.get? (j + k)).getD 0)).sum
              * y) := by
  intro j alts
  induction alts generalizing j cp with
  | nil =>
    intro alts1 h
    injection h with h2
    rw [← h2]
    refine ⟨rfl, rfl, fun a ha => absurd ha (by simp), fun hl => absurd hl (by decide), ?_⟩
    intro y hy
    simp only [List.map_nil, List.sum_nil, List.length_nil, List.range_zero, zero_mul]
    by_cases hF : isFirst = true
    · rw [if_pos hF]
      simp
    · rw [if_neg hF]
      simp
  | cons a rest ih =>
    intro alts1 h
    unfold evalAlts at h
    cases hcomps : a.comparisons with
    | none => simp [hcomps] at h
    | some comps =>
      simp only [hcomps] at h
      cases hfind : comps.find? (fun c => c.criterionId == cid) with
      | none => simp [hfind] at h
      | some cfound =>
        simp only [hfind] at h
        cases hp0 : (if isFirst = true then some (0 : Rat) else a.priority) with
        | none => simp [hp0] at h
        | some p =>
          simp only [hp0] at h
          cases hlpg : localvec.get? j with
          | none =>
            have hlp : localvec[j]? = none := by
              rw [← List.get?_eq_getElem?]
              exact hlpg
            cases hcp : cp with
            | none => simp [hlpg, hlp, hcp] at h
            | some y0 => simp [hlpg, hlp, hcp] at h
          | some x =>
            have hlp : localvec[j]? = some x := by
              rw [← List.get?_eq_getElem?]
              exact hlpg
            cases hcp : cp with
            | none => simp [hlpg, hlp, hcp] at h
            | some y0 =>
              subst hcp
              simp only [hlpg] at h
              cases hrec : evalAlts cid (some y0) localvec isFirst (j + 1) rest with
              | error e => simp [hrec] at h
              | ok rest1 =>
                simp only [hrec] at h
                injection h with h2
                obtain ⟨hproj, hlen, hsome, -, hsum⟩ := ih hrec
                rw [← h2]
                have hupd : (updFirst (fun c => c.criterionId == cid)
                    (fun c => { c with priority := some x }) comps).map cmpProj
                    = comps.map cmpProj :=
                  updFirst_map_proj cmpProj (fun c => c.criterionId == cid)
                    (fun c => { c with priority := some x }) (fun c => rfl) comps
                refine ⟨?_, ?_, ?_, fun hl => ⟨y0, rfl⟩, ?_⟩
                · simp only [List.map_cons, hproj]
                  congr 1
                  unfold itemProj
                  rw [hcomps]
                  simp only [Option.map_some', hupd]
                · simp only [List.length_cons, hlen]
                · intro b hb
                  rcases List.mem_cons.mp hb with rfl | hb2
                  · rfl
                  · exact hsome b hb2
                · intro y hy
                  injection hy with hyy
                  subst hyy
                  simp only [List.map_cons, List.sum_cons, Option.getD_some,
                    List.length_cons]
                  rw [hsum y0 rfl]
                  rw [range_map_succ_shift (fun t => (localvec.get? t).getD 0) rest.length j]
                  simp only [List.sum_cons, hlpg, Option.getD_some]
                  by_cases hF : isFirst = true
                  · rw [if_pos hF, if_pos hF]
                    rw [if_pos hF] at hp0
                    injection hp0 with hpe
                    rw [← hpe]
                    ring
                  · rw [if_neg hF, if_neg hF]
                    rw [if_neg hF] at hp0
                    simp only [List.map_cons, List.sum_cons, hp0, Option.getD_some]
                    ring
theorem evalCriteria_master {eigFn : List (List Rat) → List Rat} {critvec : List Rat}
    (heig : ∀ m : List (List Rat), 0 < m.length →
      m.length ≤ (eigFn m).length ∧ ((eigFn m).take m.length).sum ≠ 0) :
    ∀ {i : Nat} {cs alts cs1 alts2 : List Item},
      evalCriteria eigFn critvec i cs alts = .ok (cs1, alts2) →
      0 < alts.length →
      cs1.map (fun c => c.priority) = (List.range cs.length).map (fun k => critvec.get? (i + k))
      ∧ alts.map itemProj = alts2.map itemProj
      ∧ alts2.length = alts.length
      ∧ (0 < cs.length → ∀ a ∈ alts2, a.priority.isSome = true)
      ∧ (alts2.map (fun a => a.priority.getD 0)).sum
        = (if i = 0 ∧ 0 < cs.length then 0 else (alts.map (fun a => a.priority.getD 0)).sum)
          + ((List.range cs.length).map (fun k => (critvec.get? (i + k)).getD 0)).sum := by
  intro i cs
  induction cs generalizing i with
  | nil =>
    intro alts cs1 alts2 h halts
    injection h with h2
    simp only [Prod.mk.injEq] at h2
    obtain ⟨hc, ha2⟩ := h2
    rw [← hc, ← ha2]
    refine ⟨rfl, rfl, rfl, fun h0 => absurd h0 (by decide), ?_⟩
    rw [if_neg (by simp)]
    simp
  | cons c rest ih =>
    intro alts cs1 alts2 h halts
    unfold evalCriteria at h
    cases hm : getWeigthsMatrix alts c.id with
    | error e => simp [hm] at h
    | ok m =>
      simp only [hm] at h
      rw [List.get?_eq_getElem? critvec i] at h
      cases hea : evalAlts c.id critvec[i]? (getRightEigenvector eigFn m) (i == 0) 0 alts with
      | error e => simp [hea] at h
      | ok alts1 =>
        simp only [hea] at h
        cases hrec : evalCriteria eigFn critvec (i + 1) rest alts1 with
        | error e => simp [hrec] at h
        | ok pr =>
          obtain ⟨rest1, altsF⟩ := pr
          simp only [hrec] at h
          injection h with h2
          simp only [Prod.mk.injEq] at h2
          obtain ⟨hcs1, halts2⟩ := h2
          obtain ⟨hproj1, hlen1, hsome1, hcpex, hsum1⟩ := evalAlts_sum hea
          have halts1pos : 0 < alts1.length := by
            rw [hlen1]
            exact halts
          obtain ⟨hcs1map, hproj2, hlen2, hsome2, hsum2⟩ := ih hrec halts1pos
          have hmlen : m.length = alts.length := getWeigthsMatrix_length hm
          have hmpos : 0 < m.length := by
            rw [hmlen]
            exact halts
          obtain ⟨hlenle, hnz⟩ := heig m hmpos
          have hlv_len : (getRightEigenvector eigFn m).length = m.length :=
            getRightEigenvector_length hlenle
          have hlv_sum : (getRightEigenvector eigFn m).sum = 1 := getRightEigenvector_sum hnz
          obtain ⟨y, hy⟩ := hcpex halts
          have hy2 : critvec.get? i = some y := by
            rw [List.get?_eq_getElem?]
            exact hy
          have hlocal : ((List.range alts.length).map
              (fun k => ((getRightEigenvector eigFn m).get? (0 + k)).getD 0)).sum = 1 := by
            have e0 : ∀ k ∈ List.range alts.length,
                ((getRightEigenvector eigFn m).get? (0 + k)).getD 0
                  = ((getRightEigenvector eigFn m).get? k).getD 0 :=
              fun k hk => by rw [Nat.zero_add]
            rw [map_congr_mem e0, sum_range_getD]
            rw [List.take_of_length_le (by rw [hlv_len, hmlen])]
            exact hlv_sum
          subst halts2
          subst hcs1
          refine ⟨?_, ?_, ?_, ?_, ?_⟩
          · simp only [List.map_cons, List.length_cons]
            rw [range_map_succ_shift (fun t => critvec.get? t) rest.length i]
            congr 1
            rw [List.get?_eq_getElem?]
          · exact hproj1.trans hproj2
          · rw [hlen2, hlen1]
          · intro h0
            cases rest with
            | nil =>
              unfold evalCriteria at hrec
              injection hrec with hpr
              simp only [Prod.mk.injEq] at hpr
              rw [← hpr.2]
              exact hsome1
            | cons r rrest => exact hsome2 (by simp)
          · rw [hsum2]
            rw [if_neg (by omega)]
            rw [hsum1 y hy]
            rw [hlocal, one_mul]
            simp only [List.length_cons]
            rw [range_map_succ_shift (fun t => (critvec.get? t).getD 0) rest.length i]
            simp only [List.sum_cons, hy2, Option.getD_some]
            by_cases hi : i = 0
            · subst hi
              have hcond : (0 : Nat) = 0 ∧ 0 < rest.length + 1 := ⟨rfl, by omega⟩
              rw [if_pos hcond]
              rw [if_pos (show ((0 : Nat) == 0) = true from rfl)]
              ring
            · have hcond : ¬(i = 0 ∧ 0 < rest.length + 1) := fun hx => hi hx.1
              rw [if_neg hcond]
              have hbf : ¬(((i == 0) : Bool) = true) := by
                rw [beq_eq_false_iff_ne.mpr hi]
                exact Bool.false_ne_true
              rw [if_neg hbf]
              ring

theorem validate_ok_inv {d : Decision} {r : VReport} (h : validate d = .ok r) :
    ∃ e2, (match d.alternatives with
           | none => Except.ok ([] : List VErr)
           | some alts => validateAlternatives d.criteria alts alts.enum) = .ok e2 ∧
      r = { errors := vE0 d ++ vE1 d ++ e2,
            valid := (vE0 d ++ vE1 d ++ e2).isEmpty } := by
  simp only [validate] at h
  cases he2 : (match d.alternatives with
      | none => Except.ok ([] : List VErr)
      | some alts => validateAlternatives d.criteria alts alts.enum) with
  | error u =>
    exfalso
    simp only [he2] at h
    exact Except.noConfusion h
  | ok e2 =>
    simp only [he2] at h
    injection h with h2
    exact ⟨e2, rfl, h2.symm⟩

/-- C3: on a decision evaluate accepts, with an eigenvector solver that
returns a buffer at least as long as the matrix whose leading segment has
nonzero sum, every criterion and every alternative carries a priority
after the call, the criterion priorities sum to exactly 1 (the
normalization getRightEigenvector performs), and the alternative overall
priorities -- initialized to 0 on the first criterion and accumulated as
local priority times criterion priority -- also sum to exactly 1. -/
theorem evaluate_sums_to_one {eigFn : List (List Rat) → List Rat} {d d' : Decision}
    (heig : ∀ m : List (List Rat), 0 < m.length →
      m.length ≤ (eigFn m).length ∧ ((eigFn m).take m.length).sum ≠ 0)
    (h : evaluate eigFn d = (.ok (), d')) :
    ∃ cs1 alts1, d'.criteria = some cs1 ∧ d'.alternatives = some alts1
      ∧ (∀ c ∈ cs1, c.priority.isSome = true)
      ∧ (∀ a ∈ alts1, a.priority.isSome = true)
      ∧ (cs1.map (fun c => c.priority.getD 0)).sum = 1
      ∧ (alts1.map (fun a => a.priority.getD 0)).sum = 1 := by
  simp only [evaluate] at h
  cases hv : validate d with
  | error u => simp [hv] at h
  | ok r =>
    simp only [hv] at h
    by_cases hvalid : (!r.valid) = true
    · rw [if_pos hvalid] at h
      simp at h
    · rw [if_neg hvalid] at h
      have hval : r.valid = true := by
        cases hb : r.valid with
        | false =>
          rw [hb] at hvalid
          exact absurd rfl hvalid
        | true => rfl
      obtain ⟨e2, he2, hr⟩ := validate_ok_inv hv
      have hempty : vE0 d ++ vE1 d ++ e2 = [] := by
        rw [hr] at hval
        exact List.isEmpty_iff.mp hval
      have hvE0 : vE0 d = [] :=
        (List.append_eq_nil.mp (List.append_eq_nil.mp hempty).1).1
      have hcrit2 : ¬((d.criteria.map List.length).getD 0 < 2) := by
        intro hlt
        have hmem := mem_vE0_crit.mpr hlt
        rw [hvE0] at hmem
        cases hmem
      have halt2 : ¬((d.alternatives.map List.length).getD 0 < 2) := by
        intro hlt
        have hmem := mem_vE0_alt.mpr hlt
        rw [hvE0] at hmem
        cases hmem
      have hcslen : 2 ≤ (d.criteria.getD []).length := by
        cases hcr : d.criteria with
        | none =>
          exfalso
          apply hcrit2
          rw [hcr]
          decide
        | some cs0 =>
          by_contra hlt
          simp only [Option.getD_some] at hlt
          apply hcrit2
          rw [hcr]
          simp only [Option.map_some', Option.getD_some]
          omega
      have haltlen : 2 ≤ (d.alternatives.getD []).length := by
        cases hcr : d.alternatives with
        | none =>
          exfalso
          apply halt2
          rw [hcr]
          decide
        | some as0 =>
          by_contra hlt
          simp only [Option.getD_some] at hlt
          apply halt2
          rw [hcr]
          simp only [Option.map_some', Option.getD_some]
          omega
      cases hm : getWeigthsMatrix (d.criteria.getD []) none with
      | error e => simp [hm] at h
      | ok m =>
        simp only [hm] at h
        cases hec : evalCriteria eigFn (getRightEigenvector eigFn m) 0
            (d.criteria.getD []) (d.alternatives.getD []) with
        | error e => simp [hec] at h
        | ok pr =>
          obtain ⟨cs1, alts1⟩ := pr
          simp only [hec] at h
          cases hrc : recommendedChoice alts1 with
          | error e =>
            simp only [hrc] at h
            simp at h
          | ok nm =>
            simp only [hrc] at h
            simp only [Prod.mk.injEq] at h
            obtain ⟨-, hd2⟩ := h
            have halts0pos : 0 < (d.alternatives.getD []).length := by omega
            have hcs0pos : 0 < (d.criteria.getD []).length := by omega
            obtain ⟨hcs1map, hproj, hlen, hsome, hsum⟩ := evalCriteria_master heig hec halts0pos
            have hmlen : m.length = (d.criteria.getD []).length := getWeigthsMatrix_length hm
            have hmpos : 0 < m.length := by omega
            obtain ⟨hle, hnz⟩ := heig m hmpos
            have hcvlen : (getRightEigenvector eigFn m).length = m.length :=
              getRightEigenvector_length hle
            have hcsum : ((List.range (d.criteria.getD []).length).map
                (fun k => ((getRightEigenvector eigFn m).get? (0 + k)).getD 0)).sum = 1 := by
              have e0 : ∀ k ∈ List.range (d.criteria.getD []).length,
                  ((getRightEigenvector eigFn m).get? (0 + k)).getD 0
                    = ((getRightEigenvector eigFn m).get? k).getD 0 :=
                fun k hk => by rw [Nat.zero_add]
              rw [map_congr_mem e0, sum_range_getD]
              rw [List.take_of_length_le (by rw [hcvlen, hmlen])]
              exact getRightEigenvector_sum hnz
            refine ⟨cs1, alts1, by rw [← hd2], by rw [← hd2], ?_, hsome hcs0pos, ?_, ?_⟩
            · intro c hc
              have hmem : c.priority ∈ cs1.map (fun c => c.priority) :=
                List.mem_map_of_mem _ hc
              rw [hcs1map] at hmem
              obtain ⟨k, hk, he⟩ := List.mem_map.mp hmem
              rw [← he]
              have hklt : k < (getRightEigenvector eigFn m).length := by
                rw [hcvlen, hmlen]
                exact List.mem_range.mp hk
              cases hg : (getRightEigenvector eigFn m).get? (0 + k) with
              | none =>
                rw [List.get?_eq_none] at hg
                omega
              | some v => rfl
            · have hmaps : cs1.map (fun c => c.priority.getD 0)
                  = (List.range (d.criteria.getD []).length).map
                    (fun k => ((getRightEigenvector eigFn m).get? (0 + k)).getD 0) := by
                have h1 := congrArg (List.map (fun o : Option Rat => o.getD 0)) hcs1map
                rw [List.map_map, List.map_map] at h1
                exact h1
              rw [hmaps, hcsum]
            · rw [hsum]
              have hcond : (0 : Nat) = 0 ∧ 0 < (d.criteria.getD []).length := ⟨rfl, hcs0pos⟩
              rw [if_pos hcond, hcsum]
              simp

theorem mergeSort_pair {α : Type _} (le : α → α → Bool) (a b : α) :
    [a, b].mergeSort le = if le a b then [a, b] else [b, a] := by
  simp [List.mergeSort, List.merge]

theorem evaluate_dCmp : evaluate eigOnes dCmp = (.ok (), dEvald) := by
  have hd1 : dCmp.criteria = some [cF1, cF2] := by decide
  have hd2 : dCmp.alternatives = some [aF1, aF2] := by decide
  have hval : validate dCmp = .ok { errors := [], valid := true } := by decide
  have hm : getWeigthsMatrix [cF1, cF2] none = .ok [[1, 3], [1/3, 1]] := by
    norm_num [getWeigthsMatrix, mapE, storedWeight, cF1, cF2]
    rw [if_neg (by decide), if_neg (by decide)]
  have hcv : getRightEigenvector eigOnes [[(1 : Rat), 3], [1/3, 1]] = [1/2, 1/2] := by
    norm_num [getRightEigenvector, eigOnes]
    rfl
  have hec : evalCriteria eigOnes [(1 : Rat)/2, 1/2] 0 [cF1, cF2] [aF1, aF2]
      = .ok ([cEv1, cEv2], [aEv1, aEv2]) := by
    norm_num [evalCriteria, evalAlts, getWeigthsMatrix, mapE, storedWeight,
      getRightEigenvector, eigOnes, updFirst, cF1, cF2, aF1, aF2, cEv1, cEv2, aEv1, aEv2]
    rw [if_neg (by decide), if_neg (by decide)]
    norm_num [mapE, getRightEigenvector, eigOnes, evalAlts, evalCriteria, updFirst,
      List.find?, cEv1, cEv2, aEv1, aEv2,
      (show (("c1" == "c2") : Bool) = false from by decide),
      (show (("c2" == "c1") : Bool) = false from by decide),
      (show (("c1" == "c1") : Bool) = true from by decide),
      (show (("c2" == "c2") : Bool) = true from by decide),
      (show (("a1" == "a1") : Bool) = true from by decide),
      (show (("a2" == "a2") : Bool) = true from by decide),
      (show (("a1" == "a2") : Bool) = false from by decide),
      (show (("a2" == "a1") : Bool) = false from by decide)]
    rw [if_neg (by decide), if_neg (by decide)]
    norm_num [mapE, getRightEigenvector, eigOnes, evalAlts, evalCriteria, updFirst,
      List.find?, cEv1, cEv2, aEv1, aEv2,
      (show (("c1" == "c2") : Bool) = false from by decide),
      (show (("c2" == "c1") : Bool) = false from by decide),
      (show (("c1" == "c1") : Bool) = true from by decide),
      (show (("c2" == "c2") : Bool) = true from by decide),
      (show (("a1" == "a1") : Bool) = true from by decide),
      (show (("a2" == "a2") : Bool) = true from by decide),
      (show (("a1" == "a2") : Bool) = false from by decide),
      (show (("a2" == "a1") : Bool) = false from by decide)]
  have hrc : recommendedChoice [aEv1, aEv2] = .ok (some "Rome") := by
    unfold recommendedChoice
    rw [mergeSort_pair]
    rw [if_pos (by simp [aEv1, aEv2])]
    rfl
  simp only [evaluate, hval, Bool.not_true, Bool.false_eq_true, if_false, hd1, hd2,
    Option.getD_some, hm, hcv, hec, hrc]
  rfl

/-- Witness for C3 at the fully compared concrete decision dCmp with the
all-ones solver stand-in. -/
theorem evaluate_sums_to_one_witness :
    (∀ m : List (List Rat), 0 < m.length →
      m.length ≤ (eigOnes m).length ∧ ((eigOnes m).take m.length).sum ≠ 0)
    ∧ (∃ cs1 alts1, dEvald.criteria = some cs1 ∧ dEvald.alternatives = some alts1
        ∧ (∀ c ∈ cs1, c.priority.isSome = true)
        ∧ (∀ a ∈ alts1, a.priority.isSome = true)
        ∧ (cs1.map (fun c => c.priority.getD 0)).sum = 1
        ∧ (alts1.map (fun a => a.priority.getD 0)).sum = 1) :=
  ⟨eigOnes_ok, evaluate_sums_to_one eigOnes_ok evaluate_dCmp⟩

end Ahp
